import Mathlib

/-!
# Branch predictors and prefetchers of the CS-6810 Pin tools

Shallow embedding of `branch_predictor_example.cpp` (classes
`LocalBranchPredictor`, `GshareBranchPredictor`, `TournamentBranchPredictor`) and of
`prefetcher_example.cpp` (classes `NextNLinePrefetcher`, `StridePrefetcher`,
`DistancePrefetcher` and the functions `Load` and `Store`).

Conventions of the embedding:

* `UINT64` / `ADDRINT` values are natural numbers; arithmetic of the source that
  can leave the 64-bit range (the doubling of a history register, the sums and
  differences of addresses in the prefetchers) is reduced modulo `2 ^ 64`
  explicitly.  The subtraction in the history update is guarded by a comparison
  in the source and cannot wrap.
* `int` values are integers; a product of two `int`s is kept in 32 bits
  (`toInt32`) and is sign-extended when it is added to a `UINT64`.
* `string* pht_array` (a heap array of `std::string`) is a `List String`; the
  fixed array `UINT64 lhrs[128]` is a `List Nat` of length 128.
* An array access outside the array, and `%` by zero, are undefined behaviour in
  the source; the embedding returns `none` there.
-/

/-- The number of values of a `UINT64`. -/
def UINT64_RANGE : Nat := 2 ^ 64

/-- Subtraction of two `UINT64` values, which wraps around modulo `2 ^ 64`. -/
def u64sub (a b : Nat) : Nat :=
  (a + (UINT64_RANGE - b % UINT64_RANGE)) % UINT64_RANGE

/-- The `int` that has the low 32 bits of `z` (two's complement, `2147483648 = 2 ^ 31` and
`4294967296 = 2 ^ 32`): the value of a `UINT32` converted to `int`, and the value that an
`int` multiplication leaves in its 32-bit result. -/
def toInt32 (z : Int) : Int :=
  (z + 2147483648) % 4294967296 - 2147483648

/-- Conversion of an `int` to `UINT64` (sign extension), as it happens to the `int`
operand of a sum `UINT64 + int`. -/
def intToUInt64 (d : Int) : Nat :=
  (d % (UINT64_RANGE : Int)).toNat

/-- An `int` product `a * b` of the source, as the `UINT64` that it adds to an address. -/
def intMulToUInt64 (a b : Int) : Nat :=
  intToUInt64 (toInt32 (a * b))

/-- The product `aggression * blockSize` of `StridePrefetcher::train`, an `int` product
of the two globals, as the `UINT64` that it adds to the address. -/
def fanOutOffset (aggression blockSize : Nat) : Nat :=
  intMulToUInt64 (toInt32 aggression) (toInt32 blockSize)

/-- The number of iterations of a loop `for (int i = 1; i <= aggression; i++)`: the value
of the `int` global `aggression`, and none when that value is negative.  The counter `i`
ends at `aggression + 1`, which is an `int` for every `aggression` but the largest `int`,
`2 ^ 31 - 1`; for that one value the loop of the source does not end this way. -/
def loopCount (aggression : Nat) : Nat :=
  (toInt32 aggression).toNat

/-! ## LocalBranchPredictor -/

/-- Data members of `class LocalBranchPredictor`. -/
structure LocalBranchPredictor where
  bp_entries : Nat
  lhrs : List Nat
  pht_array : List String
  deriving DecidableEq, Repr

/-- Constructor `LocalBranchPredictor(UINT64 numberOfEntries)`. -/
def LocalBranchPredictor.create (numberOfEntries : Nat) : LocalBranchPredictor :=
  { bp_entries := numberOfEntries
    lhrs := List.replicate 128 0
    pht_array := List.replicate numberOfEntries "11" }

/-- Method `LocalBranchPredictor::getPrediction`. -/
def LocalBranchPredictor.getPrediction (s : LocalBranchPredictor) (branchPC : Nat) :
    Option Bool := do
  let lhr_addr := branchPC % 128
  let pht_addr ← s.lhrs[lhr_addr]?
  let pht_value ← s.pht_array[pht_addr]?
  if pht_value = "11" ∨ pht_value = "10" then
    pure true
  else
    pure false

/-- Method `LocalBranchPredictor::train`. -/
def LocalBranchPredictor.train (s : LocalBranchPredictor) (branchPC : Nat)
    (branchWasTaken : Bool) : Option LocalBranchPredictor := do
  let lhr_addr := branchPC % 128
  let pht_addr ← s.lhrs[lhr_addr]?
  let pht_value ← s.pht_array[pht_addr]?
  let pht_array :=
    if pht_value = "11" then
      if branchWasTaken = false then s.pht_array.set pht_addr "10" else s.pht_array
    else if pht_value = "10" then
      if branchWasTaken = true then s.pht_array.set pht_addr "11"
      else s.pht_array.set pht_addr "01"
    else if pht_value = "01" then
      if branchWasTaken = true then s.pht_array.set pht_addr "10"
      else s.pht_array.set pht_addr "00"
    else if pht_value = "00" then
      if branchWasTaken = true then s.pht_array.set pht_addr "01"
      else s.pht_array.set pht_addr "00"
    else s.pht_array
  let pht_addr_new :=
    if branchWasTaken = false then (pht_addr * 2) % UINT64_RANGE
    else ((pht_addr * 2) + 1) % UINT64_RANGE
  let pht_addr_new :=
    if pht_addr_new ≥ s.bp_entries then pht_addr_new - s.bp_entries else pht_addr_new
  pure { bp_entries := s.bp_entries
         lhrs := s.lhrs.set lhr_addr pht_addr_new
         pht_array := pht_array }

/-- A sequence of `train(branchPC, branchWasTaken)` calls, in order. -/
def LocalBranchPredictor.trainAll :
    LocalBranchPredictor → List (Nat × Bool) → Option LocalBranchPredictor
  | s, [] => some s
  | s, e :: rest => (s.train e.1 e.2).bind fun s1 => trainAll s1 rest

/-! ## GshareBranchPredictor -/

/-- Data members of `class GshareBranchPredictor`. -/
structure GshareBranchPredictor where
  bp_entries : Nat
  ghr : Nat
  pht_array : List String
  deriving DecidableEq, Repr

/-- Constructor `GshareBranchPredictor(UINT64 numberOfEntries)`. -/
def GshareBranchPredictor.create (numberOfEntries : Nat) : GshareBranchPredictor :=
  { bp_entries := numberOfEntries
    ghr := 0
    pht_array := List.replicate numberOfEntries "11" }

/-- Method `GshareBranchPredictor::getPrediction`. -/
def GshareBranchPredictor.getPrediction (s : GshareBranchPredictor) (branchPC : Nat) :
    Option Bool := do
  -- `branchPC % bp_entries` divides by zero when the table is empty
  if s.bp_entries = 0 then none
  let pc_lsb := branchPC % s.bp_entries
  let pht_addr := pc_lsb ^^^ s.ghr
  let pht_value ← s.pht_array[pht_addr]?
  if pht_value = "11" ∨ pht_value = "10" then
    pure true
  else
    pure false

/-- Method `GshareBranchPredictor::train`. -/
def GshareBranchPredictor.train (s : GshareBranchPredictor) (branchPC : Nat)
    (branchWasTaken : Bool) : Option GshareBranchPredictor := do
  -- `branchPC % bp_entries` divides by zero when the table is empty
  if s.bp_entries = 0 then none
  let pc_lsb := branchPC % s.bp_entries
  let pht_addr := pc_lsb ^^^ s.ghr
  let pht_value ← s.pht_array[pht_addr]?
  let pht_array :=
    if pht_value = "11" then
      if branchWasTaken = false then s.pht_array.set pht_addr "10" else s.pht_array
    else if pht_value = "10" then
      if branchWasTaken = true then s.pht_array.set pht_addr "11"
      else s.pht_array.set pht_addr "01"
    else if pht_value = "01" then
      if branchWasTaken = true then s.pht_array.set pht_addr "10"
      else s.pht_array.set pht_addr "00"
    else if pht_value = "00" then
      if branchWasTaken = true then s.pht_array.set pht_addr "01"
      else s.pht_array.set pht_addr "00"
    else s.pht_array
  let ghr_new :=
    if branchWasTaken = false then (s.ghr * 2) % UINT64_RANGE
    else ((s.ghr * 2) + 1) % UINT64_RANGE
  let ghr_new :=
    if ghr_new ≥ s.bp_entries then ghr_new - s.bp_entries else ghr_new
  pure { bp_entries := s.bp_entries
         ghr := ghr_new
         pht_array := pht_array }

/-- A sequence of `train(branchPC, branchWasTaken)` calls, in order. -/
def GshareBranchPredictor.trainAll :
    GshareBranchPredictor → List (Nat × Bool) → Option GshareBranchPredictor
  | s, [] => some s
  | s, e :: rest => (s.train e.1 e.2).bind fun s1 => trainAll s1 rest

/-! ## TournamentBranchPredictor -/

/-- Data members of `class TournamentBranchPredictor`; the two owned sub-predictors are
held by value. -/
structure TournamentBranchPredictor where
  bp_entries : Nat
  pht_array : List String
  lb_predictor : LocalBranchPredictor
  gsb_predictor : GshareBranchPredictor
  deriving DecidableEq, Repr

/-- Constructor `TournamentBranchPredictor(UINT64 numberOfEntries)`. -/
def TournamentBranchPredictor.create (numberOfEntries : Nat) : TournamentBranchPredictor :=
  { bp_entries := numberOfEntries
    lb_predictor := LocalBranchPredictor.create numberOfEntries
    gsb_predictor := GshareBranchPredictor.create numberOfEntries
    pht_array := List.replicate numberOfEntries "11" }

/-- Method `TournamentBranchPredictor::getPrediction`. -/
def TournamentBranchPredictor.getPrediction (s : TournamentBranchPredictor)
    (branchPC : Nat) : Option Bool := do
  -- `branchPC % bp_entries` divides by zero when the table is empty
  if s.bp_entries = 0 then none
  let pht_addr := branchPC % s.bp_entries
  let pht_value ← s.pht_array[pht_addr]?
  if pht_value = "11" ∨ pht_value = "10" then
    s.gsb_predictor.getPrediction branchPC
  else
    s.lb_predictor.getPrediction branchPC

/-- Method `TournamentBranchPredictor::train`. -/
def TournamentBranchPredictor.train (s : TournamentBranchPredictor) (branchPC : Nat)
    (branchWasTaken : Bool) : Option TournamentBranchPredictor := do
  -- `branchPC % bp_entries` divides by zero when the table is empty
  if s.bp_entries = 0 then none
  let pht_addr := branchPC % s.bp_entries
  let pht_value ← s.pht_array[pht_addr]?
  let lb_pred ← s.lb_predictor.getPrediction branchPC
  let gsb_pred ← s.gsb_predictor.getPrediction branchPC
  let pht_array :=
    if pht_value = "11" then
      if gsb_pred ≠ branchWasTaken ∧ lb_pred = branchWasTaken then
        s.pht_array.set pht_addr "10"
      else s.pht_array
    else if pht_value = "10" then
      if gsb_pred = branchWasTaken then s.pht_array.set pht_addr "11"
      else if gsb_pred ≠ branchWasTaken ∧ lb_pred = branchWasTaken then
        s.pht_array.set pht_addr "01"
      else s.pht_array
    else if pht_value = "01" then
      if lb_pred = branchWasTaken then s.pht_array.set pht_addr "00"
      else if lb_pred ≠ branchWasTaken ∧ gsb_pred = branchWasTaken then
        s.pht_array.set pht_addr "10"
      else s.pht_array
    else if pht_value = "00" then
      if branchWasTaken = true then s.pht_array.set pht_addr "00"
      else if lb_pred ≠ branchWasTaken ∧ gsb_pred = branchWasTaken then
        s.pht_array.set pht_addr "01"
      else s.pht_array
    else s.pht_array
  let lb_predictor ← s.lb_predictor.train branchPC branchWasTaken
  let gsb_predictor ← s.gsb_predictor.train branchPC branchWasTaken
  pure { bp_entries := s.bp_entries
         pht_array := pht_array
         lb_predictor := lb_predictor
         gsb_predictor := gsb_predictor }

/-- A sequence of `train(branchPC, branchWasTaken)` calls, in order. -/
def TournamentBranchPredictor.trainAll :
    TournamentBranchPredictor → List (Nat × Bool) → Option TournamentBranchPredictor
  | s, [] => some s
  | s, e :: rest => (s.train e.1 e.2).bind fun s1 => trainAll s1 rest

/-! ## Construction of the branch predictor in `main` -/

/-- The object behind `BranchPredictorInterface *branchPredictor`: one of the four
predictor classes. -/
inductive BranchPredictorInterface where
  | AlwaysTaken : BranchPredictorInterface
  | Local : LocalBranchPredictor → BranchPredictorInterface
  | Gshare : GshareBranchPredictor → BranchPredictorInterface
  | Tournament : TournamentBranchPredictor → BranchPredictorInterface
  deriving DecidableEq, Repr

/-- The cascade of `main` in `branch_predictor_example.cpp` that creates the predictor
from the knobs `BP_type` and `num_BP_entries`: an unknown type name prints an error and
calls `std::exit(EXIT_FAILURE)` (here `Except.error`), every other path calls a
constructor. -/
def BPExample.main (BP_type : String) (num_BP_entries : Nat) :
    Except String BranchPredictorInterface :=
  if BP_type = "always_taken" then
    .ok .AlwaysTaken
  else if BP_type = "local" then
    .ok (.Local (LocalBranchPredictor.create num_BP_entries))
  else if BP_type = "gshare" then
    .ok (.Gshare (GshareBranchPredictor.create num_BP_entries))
  else if BP_type = "tournament" then
    .ok (.Tournament (TournamentBranchPredictor.create num_BP_entries))
  else
    .error "Error: No such type of branch predictor. Simulation will be terminated."

/-! ## The cache and the global counters of `prefetcher_example.cpp`

The class `Cache` (header `dcache_for_prefetcher.hpp`) and the declaration of the global
`aggression` are not among the sources.  The operations of the cache are parameters of
the embedding.  The parameters `aggression` and `blockSize` are the values of the
`UINT32` knobs `-aggr` and `-b`, which `main` stores once in the two globals.
`blockSize` is declared `int`; `aggression` is called an integer variable in the source
and is compared with `int i`, and it is taken to be an `int` as well.  The globals
then hold `toInt32 aggression` and `toInt32 blockSize`, the knob values themselves when
these are below `2 ^ 31`.  The products `i * blockSize` and `aggression * blockSize`
of the Next-N-Line and Stride prefetchers are products of `int`s: they are computed in 32
bits and sign-extended into the `UINT64` sum (an overflow of the product is undefined in
C++; the embedding keeps the low 32 bits, as the compiled tool does).  The Distance
prefetcher only counts up to `aggression` and sizes its rows by it; there the parameter
stands for the value of the global.  A call of `prefetchFillLine` is also recorded in a
call log, so that the addresses a prefetcher issues can be stated. -/

/-- The member functions of `class Cache` that the prefetchers and the driver call, over
an arbitrary type `C` of cache states. -/
structure CacheOps (C : Type) where
  probeTag : C → Nat → Bool × C
  cacheExists : C → Nat → Bool
  fillLine : C → Nat → C
  prefetchFillLine : C → Nat → C

/-- The global variables of `prefetcher_example.cpp` that the core reads and writes, and
the log of the addresses passed to `cache->prefetchFillLine`, oldest first. -/
structure Globals (C : Type) where
  cache : C
  loads : Nat
  stores : Nat
  hits : Nat
  accesses : Nat
  prefetches : Nat
  prefetchFillLineCalls : List Nat

/-- The values of `UINT64 nextAddr = addr + i * blockSize` in `fuel` iterations of the
loop of `NextNLinePrefetcher::prefetch` and of `StridePrefetcher::prefetch`, started at
`i`, in order. -/
def nextLineAddrs (blockSize addr : Nat) : Nat → Nat → List Nat
  | 0, _ => []
  | fuel + 1, i =>
    (addr + intMulToUInt64 (i : Int) (toInt32 blockSize)) % UINT64_RANGE ::
      nextLineAddrs blockSize addr fuel (i + 1)

/-- The loop `for (int i = 1; i <= aggression; i++)` of `NextNLinePrefetcher::prefetch`
and of `StridePrefetcher::prefetch`, started at `i` with `fuel` iterations left. -/
def nextLinesLoop {C : Type} (ops : CacheOps C) (blockSize addr : Nat) :
    Nat → Nat → Globals C → Globals C
  | 0, _, g => g
  | fuel + 1, i, g =>
    let nextAddr := (addr + intMulToUInt64 (i : Int) (toInt32 blockSize)) % UINT64_RANGE
    let g1 :=
      if ops.cacheExists g.cache nextAddr = false then
        { g with
          cache := ops.prefetchFillLine g.cache nextAddr
          prefetches := g.prefetches + 1
          prefetchFillLineCalls := g.prefetchFillLineCalls ++ [nextAddr] }
      else g
    nextLinesLoop ops blockSize addr fuel (i + 1) g1

/-! ## StridePrefetcher -/

/-- One row `UINT64 [4]` of the reference prediction table: column 0 is the load PC,
column 1 the previous address, column 2 the stride, column 3 the state
(`Initial=0; Transient=1; Steady=2; No prediction=3`). -/
structure RPTRow where
  loadPC : Nat
  prev_addr : Nat
  stride : Nat
  state : Nat
  deriving DecidableEq, Repr

/-- Data members of `class StridePrefetcher`. -/
structure StridePrefetcher where
  RPT : List RPTRow
  numberOfEntries : Nat
  entryIdx : Int
  deriving DecidableEq, Repr

/-- The default member initialisers of `class StridePrefetcher`. -/
def StridePrefetcher.create : StridePrefetcher :=
  { RPT := List.replicate 64 { loadPC := 0, prev_addr := 0, stride := 0, state := 0 }
    numberOfEntries := 0
    entryIdx := -1 }

/-- The scan `for (rpt_idx = 0; rpt_idx < numberOfEntries; rpt_idx++)` of
`StridePrefetcher::prefetch` up to its `break`: the index of the first row whose column 0
is `loadPC`, or `some none` when the loop ends without one. -/
def StridePrefetcher.scan (RPT : List RPTRow) (loadPC : Nat) :
    Nat → Nat → Option (Option Nat)
  | 0, _ => some none
  | fuel + 1, rpt_idx =>
    match RPT[rpt_idx]? with
    | none => none
    | some row =>
      if row.loadPC = loadPC then some (some rpt_idx)
      else StridePrefetcher.scan RPT loadPC fuel (rpt_idx + 1)

/-- Method `StridePrefetcher::prefetch`. -/
def StridePrefetcher.prefetch {C : Type} (ops : CacheOps C) (aggression blockSize : Nat)
    (s : StridePrefetcher) (g : Globals C) (addr loadPC : Nat) :
    Option (StridePrefetcher × Globals C) :=
  match StridePrefetcher.scan s.RPT loadPC s.numberOfEntries 0 with
  | none => none
  | some none => some ({ s with entryIdx := -1 }, g)
  | some (some rpt_idx) =>
    match s.RPT[rpt_idx]? with
    | none => none
    | some row =>
      let pred_addr := (row.prev_addr + row.stride) % UINT64_RANGE
      let g1 :=
        if pred_addr = addr then
          if row.state = 2 then nextLinesLoop ops blockSize addr (loopCount aggression) 1 g
          else g
        else g
      some ({ s with entryIdx := (rpt_idx : Int) }, g1)

/-- Method `StridePrefetcher::train`; `rand` is the value that `rand()` returns if it is
called. -/
def StridePrefetcher.train (aggression blockSize : Nat) (s : StridePrefetcher)
    (addr loadPC rand : Nat) : Option StridePrefetcher :=
  if s.entryIdx = -1 then
    let entryToReplace := if s.numberOfEntries ≥ 64 then rand % 64 else s.numberOfEntries
    let numberOfEntries :=
      if s.numberOfEntries ≥ 64 then s.numberOfEntries else s.numberOfEntries + 1
    if entryToReplace < s.RPT.length then
      some { RPT := s.RPT.set entryToReplace
               { loadPC := loadPC, prev_addr := addr, stride := 0, state := 0 }
             numberOfEntries := numberOfEntries
             entryIdx := s.entryIdx }
    else none
  else if s.entryIdx < 0 then none
  else
    match s.RPT[s.entryIdx.toNat]? with
    | none => none
    | some row =>
      let prev_addr := row.prev_addr
      let pred_addr := (prev_addr + row.stride) % UINT64_RANGE
      let row1 : RPTRow :=
        if row.state = 0 then
          if addr = pred_addr then
            { row with state := 2, prev_addr := addr }
          else
            { row with state := 1, stride := u64sub addr prev_addr, prev_addr := addr }
        else if row.state = 1 then
          if addr = pred_addr then
            { row with state := 2, prev_addr := addr }
          else
            { row with state := 3, stride := u64sub addr prev_addr, prev_addr := addr }
        else if row.state = 2 then
          if addr = pred_addr then
            { row with prev_addr := (addr + fanOutOffset aggression blockSize) % UINT64_RANGE }
          else
            { row with state := 0, prev_addr := addr }
        else if row.state = 3 then
          if addr = pred_addr then
            { row with state := 1, prev_addr := addr }
          else
            { row with stride := u64sub addr prev_addr, prev_addr := addr }
        else row
      some { s with RPT := s.RPT.set s.entryIdx.toNat row1 }

/-- The miss branch of `Load(addr, pc)` with the Stride prefetcher: `cache->fillLine`,
then `prefetch`, then `train`; `rand` is the value that `rand()` returns if it is
called. -/
def StridePrefetcher.onMiss {C : Type} (ops : CacheOps C) (aggression blockSize : Nat)
    (s : StridePrefetcher) (g : Globals C) (addr pc rand : Nat) :
    Option (StridePrefetcher × Globals C) :=
  match s.prefetch ops aggression blockSize { g with cache := ops.fillLine g.cache addr }
      addr pc with
  | none => none
  | some (s1, g1) =>
    match s1.train aggression blockSize addr pc rand with
    | none => none
    | some s2 => some (s2, g1)

/-- A sequence of missing loads `(addr, pc, rand)`, in order. -/
def StridePrefetcher.onMisses {C : Type} (ops : CacheOps C) (aggression blockSize : Nat) :
    StridePrefetcher → Globals C → List (Nat × Nat × Nat) →
      Option (StridePrefetcher × Globals C)
  | s, g, [] => some (s, g)
  | s, g, e :: rest =>
    match s.onMiss ops aggression blockSize g e.1 e.2.1 e.2.2 with
    | none => none
    | some (s1, g1) => StridePrefetcher.onMisses ops aggression blockSize s1 g1 rest

/-- A Stride state with one live row, row 0, for concrete runs. -/
def StridePrefetcher.oneRow (row : RPTRow) : StridePrefetcher :=
  { RPT := row :: List.replicate 63 { loadPC := 0, prev_addr := 0, stride := 0, state := 0 }
    numberOfEntries := 1
    entryIdx := -1 }

/-- A cache for concrete runs: the list of the addresses filled so far, nothing is ever
evicted. -/
def listCache : CacheOps (List Nat) :=
  { probeTag := fun c a => (decide (a ∈ c), c)
    cacheExists := fun c a => decide (a ∈ c)
    fillLine := fun c a => a :: c
    prefetchFillLine := fun c a => a :: c }

/-- Globals at the start of a run, as `main` initialises them, over the cache `c`. -/
def Globals.start {C : Type} (c : C) : Globals C :=
  { cache := c, loads := 0, stores := 0, hits := 0, accesses := 0, prefetches := 0
    prefetchFillLineCalls := [] }

/-! ## NextNLinePrefetcher -/

/-- Method `NextNLinePrefetcher::prefetch`; the class has no data members. -/
def NextNLinePrefetcher.prefetch {C : Type} (ops : CacheOps C) (aggression blockSize : Nat)
    (g : Globals C) (addr _loadPC : Nat) : Globals C :=
  nextLinesLoop ops blockSize addr (loopCount aggression) 1 g

/-- Method `NextNLinePrefetcher::train`, which only returns. -/
def NextNLinePrefetcher.train {C : Type} (g : Globals C) (_addr _loadPC : Nat) : Globals C :=
  g

/-! ## DistancePrefetcher

`INT64` values (`prev_dist`, the entries of the table) are kept as their 64-bit patterns:
the source only compares them for equality, tests them against 0 and adds them to a
`UINT64` address, which is the same on the patterns.  A row `new INT64[aggression+1]` is a
list of `aggression + 1` numbers; a row that was never allocated is the empty list, so
that every read of it is outside its array. -/

/-- Data members of `class DistancePrefetcher`. -/
structure DistancePrefetcher where
  prev_addr : Nat
  prev_dist : Nat
  RPT : List (List Nat)
  numberOfEntries : Nat
  entryFound : Bool
  deriving DecidableEq, Repr

/-- The default member initialisers of `class DistancePrefetcher`; the member
`entryFound` has none, its first value is a parameter. -/
def DistancePrefetcher.create (entryFound : Bool) : DistancePrefetcher :=
  { prev_addr := 0
    prev_dist := 0
    RPT := List.replicate 64 []
    numberOfEntries := 0
    entryFound := entryFound }

/-- The inner loop `for (int i = 1; i <= aggression; i++)` of
`DistancePrefetcher::prefetch` on the row `RPT[k]`, started at `i` with `fuel` iterations
left. -/
def DistancePrefetcher.prefetchRow {C : Type} (ops : CacheOps C) (addr : Nat)
    (row : List Nat) : Nat → Nat → Globals C → Option (Globals C)
  | 0, _, g => some g
  | fuel + 1, i, g =>
    match row[i]? with
    | none => none
    | some d =>
      let g1 :=
        if d ≠ 0 then
          let nextAddr := (addr + d) % UINT64_RANGE
          if ops.cacheExists g.cache nextAddr = false then
            { g with
              cache := ops.prefetchFillLine g.cache nextAddr
              prefetches := g.prefetches + 1
              prefetchFillLineCalls := g.prefetchFillLineCalls ++ [nextAddr] }
          else g
        else g
      DistancePrefetcher.prefetchRow ops addr row fuel (i + 1) g1

/-- The outer loop `for (INT64 k = 0; k < numberOfEntries; k++)` of
`DistancePrefetcher::prefetch`, started at `k` with `fuel` iterations left; the Boolean is
`entryFound`. -/
def DistancePrefetcher.prefetchScan {C : Type} (ops : CacheOps C) (aggression addr : Nat)
    (RPT : List (List Nat)) (new_dist : Nat) :
    Nat → Nat → Bool → Globals C → Option (Bool × Globals C)
  | 0, _, entryFound, g => some (entryFound, g)
  | fuel + 1, k, entryFound, g =>
    match RPT[k]? with
    | none => none
    | some row =>
      match row[0]? with
      | none => none
      | some key =>
        if key = new_dist then
          match DistancePrefetcher.prefetchRow ops addr row aggression 1 g with
          | none => none
          | some g1 =>
            DistancePrefetcher.prefetchScan ops aggression addr RPT new_dist fuel (k + 1)
              true g1
        else
          DistancePrefetcher.prefetchScan ops aggression addr RPT new_dist fuel (k + 1)
            entryFound g

/-- Method `DistancePrefetcher::prefetch`. -/
def DistancePrefetcher.prefetch {C : Type} (ops : CacheOps C) (aggression : Nat)
    (s : DistancePrefetcher) (g : Globals C) (addr _loadPC : Nat) :
    Option (DistancePrefetcher × Globals C) :=
  let new_dist := u64sub addr s.prev_addr
  match DistancePrefetcher.prefetchScan ops aggression addr s.RPT new_dist
      s.numberOfEntries 0 false g with
  | none => none
  | some (entryFound, g1) => some ({ s with entryFound := entryFound }, g1)

/-- The loop of `DistancePrefetcher::train` that looks for an empty predicted distance in
a row, up to its `break`: the first `i` with `row[i] == 0`, or `some none` when the row is
full (`pdFull`). -/
def DistancePrefetcher.firstEmpty (row : List Nat) : Nat → Nat → Option (Option Nat)
  | 0, _ => some none
  | fuel + 1, i =>
    match row[i]? with
    | none => none
    | some d =>
      if d = 0 then some (some i) else DistancePrefetcher.firstEmpty row fuel (i + 1)

/-- The expression `rand() % aggression+1` of `DistancePrefetcher::train`. -/
def DistancePrefetcher.indexToReplace (aggression rand : Nat) : Nat :=
  rand % aggression + 1

/-- The body of the loop of `DistancePrefetcher::train` for a row keyed by `prev_dist`:
`new_dist` goes into the first empty slot, or into slot `indexToReplace` when the row is
full; `rand` is the value that `rand()` returns if it is called. -/
def DistancePrefetcher.updateRow (aggression new_dist rand : Nat) (row : List Nat) :
    Option (List Nat) :=
  match DistancePrefetcher.firstEmpty row aggression 1 with
  | none => none
  | some (some i) => some (row.set i new_dist)
  | some none =>
    -- `rand() % aggression` divides by zero when `aggression` is 0
    if aggression = 0 then none
    else if DistancePrefetcher.indexToReplace aggression rand < row.length then
      some (row.set (DistancePrefetcher.indexToReplace aggression rand) new_dist)
    else none

/-- The second loop `for (INT64 k = 0; k < numberOfEntries; k++)` of
`DistancePrefetcher::train`, started at `k` with `fuel` iterations left; `rand k` is the
value that `rand()` returns if it is called for row `k`. -/
def DistancePrefetcher.trainScan (aggression new_dist prev_dist : Nat) (rand : Nat → Nat) :
    Nat → Nat → List (List Nat) → Option (List (List Nat))
  | 0, _, RPT => some RPT
  | fuel + 1, k, RPT =>
    match RPT[k]? with
    | none => none
    | some row =>
      match row[0]? with
      | none => none
      | some key =>
        if key = prev_dist then
          match DistancePrefetcher.updateRow aggression new_dist (rand k) row with
          | none => none
          | some row1 =>
            DistancePrefetcher.trainScan aggression new_dist prev_dist rand fuel (k + 1)
              (RPT.set k row1)
        else
          DistancePrefetcher.trainScan aggression new_dist prev_dist rand fuel (k + 1) RPT

/-- Method `DistancePrefetcher::train`; `randRow` is the value that `rand()` returns if it
is called to choose the row to replace, `randSlot k` the value it returns if it is called
for row `k`. -/
def DistancePrefetcher.train (aggression : Nat) (s : DistancePrefetcher)
    (addr _loadPC randRow : Nat) (randSlot : Nat → Nat) : Option DistancePrefetcher :=
  let new_dist := u64sub addr s.prev_addr
  let created : Option (List (List Nat) × Nat) :=
    if s.entryFound = false then
      let entryToReplace :=
        if s.numberOfEntries ≥ 64 then randRow % 64 else s.numberOfEntries
      let numberOfEntries :=
        if s.numberOfEntries ≥ 64 then s.numberOfEntries else s.numberOfEntries + 1
      if entryToReplace < s.RPT.length then
        some (s.RPT.set entryToReplace (new_dist :: List.replicate aggression 0),
          numberOfEntries)
      else none
    else some (s.RPT, s.numberOfEntries)
  match created with
  | none => none
  | some (RPT, numberOfEntries) =>
    match DistancePrefetcher.trainScan aggression new_dist s.prev_dist randSlot
        numberOfEntries 0 RPT with
    | none => none
    | some RPT1 =>
      some { prev_addr := addr
             prev_dist := new_dist
             RPT := RPT1
             numberOfEntries := numberOfEntries
             entryFound := s.entryFound }

/-! ## The driver: `Load` and `Store`

`takeCheckPoint` only writes the report (and ends the process at the end point); it
changes none of the variables of the embedding and is left out. -/

/-- The two virtual methods of `class PrefetcherInterface`, over a type `P` of prefetcher
states; both may read and write the globals. -/
structure PrefetcherInterface (P C : Type) where
  prefetch : P → Globals C → Nat → Nat → Option (P × Globals C)
  train : P → Globals C → Nat → Nat → Option (P × Globals C)

/-- Function `Load(addr, pc)`. -/
def Load {P C : Type} (ops : CacheOps C) (prefetcher : PrefetcherInterface P C) (p : P)
    (g : Globals C) (addr pc : Nat) : Option (P × Globals C) :=
  let g1 := { g with accesses := g.accesses + 1, loads := g.loads + 1 }
  if (ops.probeTag g1.cache addr).1 = true then
    some (p, { g1 with cache := (ops.probeTag g1.cache addr).2, hits := g1.hits + 1 })
  else
    let g2 := { g1 with cache := ops.fillLine (ops.probeTag g1.cache addr).2 addr }
    match prefetcher.prefetch p g2 addr pc with
    | none => none
    | some (p1, g3) => prefetcher.train p1 g3 addr pc

/-- Function `Store(addr, pc)`. -/
def Store {C : Type} (ops : CacheOps C) (g : Globals C) (addr _pc : Nat) : Globals C :=
  let g1 := { g with accesses := g.accesses + 1, stores := g.stores + 1 }
  if (ops.probeTag g1.cache addr).1 = true then
    { g1 with cache := (ops.probeTag g1.cache addr).2, hits := g1.hits + 1 }
  else
    { g1 with cache := ops.fillLine (ops.probeTag g1.cache addr).2 addr }

/-- The object `new NonePrefetcher()` behind the interface. -/
def NonePrefetcher.interface {C : Type} : PrefetcherInterface Unit C :=
  { prefetch := fun p g _ _ => some (p, g)
    train := fun p g _ _ => some (p, g) }

/-- The object `new NextNLinePrefetcher()` behind the interface. -/
def NextNLinePrefetcher.interface {C : Type} (ops : CacheOps C)
    (aggression blockSize : Nat) : PrefetcherInterface Unit C :=
  { prefetch := fun p g addr pc =>
      some (p, NextNLinePrefetcher.prefetch ops aggression blockSize g addr pc)
    train := fun p g addr pc => some (p, NextNLinePrefetcher.train g addr pc) }

/-- The object `new StridePrefetcher()` behind the interface, with the value `rand` for a
call of `rand()`. -/
def StridePrefetcher.interface {C : Type} (ops : CacheOps C) (aggression blockSize : Nat)
    (rand : Nat) : PrefetcherInterface StridePrefetcher C :=
  { prefetch := fun s g addr pc => s.prefetch ops aggression blockSize g addr pc
    train := fun s g addr pc =>
      (s.train aggression blockSize addr pc rand).map fun s1 => (s1, g) }

/-- The object `new DistancePrefetcher()` behind the interface, with the values `randRow`
and `randSlot` for the calls of `rand()`. -/
def DistancePrefetcher.interface {C : Type} (ops : CacheOps C) (aggression : Nat)
    (randRow : Nat) (randSlot : Nat → Nat) : PrefetcherInterface DistancePrefetcher C :=
  { prefetch := fun s g addr pc => s.prefetch ops aggression g addr pc
    train := fun s g addr pc =>
      (s.train aggression addr pc randRow randSlot).map fun s1 => (s1, g) }

/-- A cache for concrete runs that records the calls made to it, in order; `probeTag`
answers `hit`. -/
def traceCache (hit : Bool) : CacheOps (List (String × Nat)) :=
  { probeTag := fun c a => (hit, c ++ [("probeTag", a)])
    cacheExists := fun _ _ => false
    fillLine := fun c a => c ++ [("fillLine", a)]
    prefetchFillLine := fun c a => c ++ [("prefetchFillLine", a)] }

/-- A prefetcher for concrete runs that records its two calls in the trace of the
cache. -/
def tracePrefetcher : PrefetcherInterface Unit (List (String × Nat)) :=
  { prefetch := fun p g addr _ => some (p, { g with cache := g.cache ++ [("prefetch", addr)] })
    train := fun p g addr _ => some (p, { g with cache := g.cache ++ [("train", addr)] }) }

/-- The miss branch of `Load(addr, pc)` with the Distance prefetcher: `cache->fillLine`,
then `prefetch`, then `train`; `randRow` and `randSlot` are the values that `rand()`
returns if it is called. -/
def DistancePrefetcher.onMiss {C : Type} (ops : CacheOps C) (aggression : Nat)
    (s : DistancePrefetcher) (g : Globals C) (addr pc randRow : Nat)
    (randSlot : Nat → Nat) : Option (DistancePrefetcher × Globals C) :=
  match s.prefetch ops aggression { g with cache := ops.fillLine g.cache addr } addr pc with
  | none => none
  | some (s1, g1) =>
    match s1.train aggression addr pc randRow randSlot with
    | none => none
    | some s2 => some (s2, g1)

/-- A sequence of missing loads `(addr, pc, randRow, randSlot)`, in order. -/
def DistancePrefetcher.onMisses {C : Type} (ops : CacheOps C) (aggression : Nat) :
    DistancePrefetcher → Globals C → List (Nat × Nat × Nat × (Nat → Nat)) →
      Option (DistancePrefetcher × Globals C)
  | s, g, [] => some (s, g)
  | s, g, e :: rest =>
    match s.onMiss ops aggression g e.1 e.2.1 e.2.2.1 e.2.2.2 with
    | none => none
    | some (s1, g1) => DistancePrefetcher.onMisses ops aggression s1 g1 rest

/-- A Distance state with one live row, row 0, for concrete runs. -/
def DistancePrefetcher.oneRow (prev_addr prev_dist : Nat) (row : List Nat) :
    DistancePrefetcher :=
  { prev_addr := prev_addr
    prev_dist := prev_dist
    RPT := row :: List.replicate 63 []
    numberOfEntries := 1
    entryFound := false }


/-! ## Specification-side definitions -/

/-- A string is one of the four values of a 2-bit saturating counter. -/
def IsTwoBit (c : String) : Prop :=
  c = "00" ∨ c = "01" ∨ c = "10" ∨ c = "11"

instance (c : String) : Decidable (IsTwoBit c) := by
  unfold IsTwoBit
  infer_instance

/-- The 2-bit saturating counter law, as the specification words it: the next value of a
counter after one branch outcome.  A string that is none of the four counter values is
left as it is. -/
def SaturatingCounter.next : String → Bool → String
  | "11", true => "11"
  | "11", false => "10"
  | "10", true => "11"
  | "10", false => "01"
  | "01", true => "10"
  | "01", false => "00"
  | "00", true => "01"
  | "00", false => "00"
  | c, _ => c

/-- The history shift, as the specification words it: `new = old*2 (+1 if taken)`, then
one subtraction of `tableSize` if `new >= tableSize`. -/
def Spec.historyShift (tableSize old : Nat) (taken : Bool) : Nat :=
  let new := old * 2 + (if taken then 1 else 0)
  if new ≥ tableSize then new - tableSize else new

/-- The selector law of the Tournament predictor, as the specification words it: the next
selector value from the current one, from which sub-predictor was right, and from the
branch outcome.  A string that is none of the four counter values is left as it is. -/
def Spec.selectorNext (c : String) (gshareRight localRight taken : Bool) : String :=
  match c with
  | "11" => if !gshareRight && localRight then "10" else "11"
  | "10" => if gshareRight then "11" else if localRight then "01" else "10"
  | "01" => if localRight then "00" else if gshareRight then "10" else "01"
  | "00" => if taken then "00" else if gshareRight && !localRight then "01" else "00"
  | other => other

/-- State invariant of a Local predictor with `n` entries: the sizes are those set by the
constructor, every history register addresses the pattern table, and every pattern-table
entry is a 2-bit counter value. -/
def LocalBranchPredictor.Inv (n : Nat) (s : LocalBranchPredictor) : Prop :=
  s.bp_entries = n ∧ s.lhrs.length = 128 ∧ s.pht_array.length = n ∧
    (∀ v ∈ s.lhrs, v < n) ∧ ∀ c ∈ s.pht_array, IsTwoBit c

/-- State invariant of a Gshare predictor with `n` entries. -/
def GshareBranchPredictor.Inv (n : Nat) (s : GshareBranchPredictor) : Prop :=
  s.bp_entries = n ∧ s.pht_array.length = n ∧ s.ghr < n ∧ ∀ c ∈ s.pht_array, IsTwoBit c

/-- State invariant of a Tournament predictor with `n` entries. -/
def TournamentBranchPredictor.Inv (n : Nat) (s : TournamentBranchPredictor) : Prop :=
  s.bp_entries = n ∧ s.pht_array.length = n ∧ (∀ c ∈ s.pht_array, IsTwoBit c) ∧
    s.lb_predictor.Inv n ∧ s.gsb_predictor.Inv n

/-- The `k`-bit number whose bit `i` is the `i`-th outcome of the list (1 = taken), the
head of the list in the least significant bit; outcomes the list does not have count as
0. -/
def Spec.bitsValue : Nat → List Bool → Nat
  | 0, _ => 0
  | _ + 1, [] => 0
  | k + 1, b :: older => (if b then 1 else 0) + 2 * Spec.bitsValue k older

/-- The history register as the specification words it: the `k`-bit number whose bits are
the last `k` outcomes, most recent outcome in the least significant bit, outcomes before
the start counted as 0.  The list is in the order of the calls. -/
def Spec.lastOutcomes (k : Nat) (outcomes : List Bool) : Nat :=
  Spec.bitsValue k outcomes.reverse

/-- The four states of a Stride table entry, as the specification names them. -/
inductive Spec.StrideState where
  | Initial
  | Transient
  | Steady
  | NoPrediction
  deriving DecidableEq, Repr

/-- The number that stands for a state in column 3 of the table
(`Initial=0; Transient=1; Steady=2; No prediction=3`). -/
def Spec.StrideState.code : Spec.StrideState → Nat
  | .Initial => 0
  | .Transient => 1
  | .Steady => 2
  | .NoPrediction => 3

/-- The 4-state machine of the Stride prefetcher, as the specification words it. -/
def Spec.strideNext : Spec.StrideState → Bool → Spec.StrideState
  | .Initial, true => .Steady
  | .Initial, false => .Transient
  | .Transient, true => .Steady
  | .Transient, false => .NoPrediction
  | .Steady, true => .Steady
  | .Steady, false => .Initial
  | .NoPrediction, true => .Transient
  | .NoPrediction, false => .NoPrediction

/-- The product `a * b` of two `int`s is itself in the range of `int`
(`-2 ^ 31 .. 2 ^ 31 - 1`): the multiplication of the source does not overflow. -/
def Spec.intProductFits (a b : Int) : Prop :=
  -2147483648 ≤ a * b ∧ a * b ≤ 2147483647

instance (a b : Int) : Decidable (Spec.intProductFits a b) := by
  unfold Spec.intProductFits
  infer_instance

/-- The addresses `addr + i*blockSize` for `i = first, first+1, ...`, `count` of them, as
64-bit values, as the specification words them: `blockSize` is the value of the `int`
global (it may be negative) and `i*blockSize` is the product of the two integers. -/
def Spec.candidates (blockSize : Int) (addr : Nat) : Nat → Nat → List Nat
  | 0, _ => []
  | count + 1, first =>
    intToUInt64 ((addr : Int) + (first : Int) * blockSize) ::
      Spec.candidates blockSize addr count (first + 1)

/-- The addresses that are filled when the candidates are taken in order: a candidate is
skipped if the cache holds it at that moment, else it is filled by `prefetchFillLine`. -/
def Spec.issued {C : Type} (ops : CacheOps C) : C → List Nat → List Nat
  | _, [] => []
  | c, a :: rest =>
    if ops.cacheExists c a = true then Spec.issued ops c rest
    else a :: Spec.issued ops (ops.prefetchFillLine c a) rest

/-- The condition under which Stride `prefetch` issues fills, as the specification words
it: a live table entry has the key `loadPC` (the first such entry, which is the one the
scan stops at), that entry is Steady and its `lastAddr + stride` is `addr`. -/
def Spec.strideShouldIssue (s : StridePrefetcher) (addr loadPC : Nat) : Prop :=
  ∃ (k : Nat) (row : RPTRow), k < s.numberOfEntries ∧ s.RPT[k]? = some row ∧
    row.loadPC = loadPC ∧
    (∀ j, j < k → ∀ r, s.RPT[j]? = some r → r.loadPC ≠ loadPC) ∧
    row.state = Spec.StrideState.Steady.code ∧
    (row.prev_addr + row.stride) % UINT64_RANGE = addr

/-- Well-formed Stride state: the table has its 64 rows and at most 64 of them are
live. -/
def StridePrefetcher.WF (s : StridePrefetcher) : Prop :=
  s.RPT.length = 64 ∧ s.numberOfEntries ≤ 64

/-- The row that the found branch of `StridePrefetcher::train` writes back for the row
`row` and the observed address `addr`: the if-chain of the source. -/
def StridePrefetcher.trainedRow (aggression blockSize addr : Nat) (row : RPTRow) : RPTRow :=
  if row.state = 0 then
    if addr = (row.prev_addr + row.stride) % UINT64_RANGE then
      { row with state := 2, prev_addr := addr }
    else
      { row with state := 1, stride := u64sub addr row.prev_addr, prev_addr := addr }
  else if row.state = 1 then
    if addr = (row.prev_addr + row.stride) % UINT64_RANGE then
      { row with state := 2, prev_addr := addr }
    else
      { row with state := 3, stride := u64sub addr row.prev_addr, prev_addr := addr }
  else if row.state = 2 then
    if addr = (row.prev_addr + row.stride) % UINT64_RANGE then
      { row with prev_addr := (addr + fanOutOffset aggression blockSize) % UINT64_RANGE }
    else
      { row with state := 0, prev_addr := addr }
  else if row.state = 3 then
    if addr = (row.prev_addr + row.stride) % UINT64_RANGE then
      { row with state := 1, prev_addr := addr }
    else
      { row with stride := u64sub addr row.prev_addr, prev_addr := addr }
  else row

/-- The missing loads of a strided stream, as the specification words it: the addresses
`A, A+S, A+2S, ...` (as 64-bit values), `n` of them, all from the load PC `pc`; `rand k`
is the value of `rand()` at access `k`. -/
def Spec.strideStream (A S pc : Nat) (rand : Nat → Nat) (n : Nat) : List (Nat × Nat × Nat) :=
  (List.range n).map fun k => ((A + k * S) % UINT64_RANGE, pc, rand k)

/-- Taking the target addresses in order: a target that the cache holds at that moment is
skipped, each other one is filled by `prefetchFillLine`, counted in `prefetches` and
recorded in the call log. -/
def Spec.fillAll {C : Type} (ops : CacheOps C) : Globals C → List Nat → Globals C
  | g, [] => g
  | g, a :: rest =>
    if ops.cacheExists g.cache a = true then Spec.fillAll ops g rest
    else
      Spec.fillAll ops
        { g with
          cache := ops.prefetchFillLine g.cache a
          prefetches := g.prefetches + 1
          prefetchFillLineCalls := g.prefetchFillLineCalls ++ [a] }
        rest

/-- The targets that one row of the Distance table predicts for `addr`: `addr + d`
(64-bit) for each predicted distance `d` in the slots `1..aggression` that is not 0, in the
order of the slots. -/
def Spec.rowTargets (aggression addr : Nat) (row : List Nat) : List Nat :=
  (((row.drop 1).take aggression).filter (fun d => decide (d ≠ 0))).map
    fun d => (addr + d) % UINT64_RANGE

/-- The targets of all the rows of `rows` that are keyed by `new_dist` (slot 0), in the
order of the rows. -/
def Spec.distanceTargets (aggression addr new_dist : Nat) (rows : List (List Nat)) :
    List Nat :=
  (rows.filter (fun row => decide (row[0]? = some new_dist))).flatMap
    (Spec.rowTargets aggression addr)

/-- The first empty predicted-distance slot of a row: the least `i` in `1..aggression`
with `row[i] = 0`, if there is one. -/
def Spec.firstEmptySlot (aggression : Nat) (row : List Nat) : Option Nat :=
  (List.range' 1 aggression).find? (fun i => decide (row[i]? = some 0))

/-- Appending a distance to the predicted distances of a row, as the specification words
it: into the first empty slot, else into a random slot. -/
def Spec.learnDistance (aggression new_dist rand : Nat) (row : List Nat) : List Nat :=
  match Spec.firstEmptySlot aggression row with
  | some i => row.set i new_dist
  | none => row.set (rand % aggression + 1) new_dist

/-- Well-formed Distance state: the table has its 64 row pointers, at most 64 rows are
live, and every live row has its `aggression + 1` slots. -/
def DistancePrefetcher.WF (aggression : Nat) (s : DistancePrefetcher) : Prop :=
  s.RPT.length = 64 ∧ s.numberOfEntries ≤ 64 ∧
    ∀ k, k < s.numberOfEntries → ∀ row, s.RPT[k]? = some row → row.length = aggression + 1

/-- No two live rows of the Distance table have the same key. -/
def DistancePrefetcher.UniqueKeys (s : DistancePrefetcher) : Prop :=
  ∀ i j ri rj, i < s.numberOfEntries → j < s.numberOfEntries →
    s.RPT[i]? = some ri → s.RPT[j]? = some rj → ri[0]? = rj[0]? → i = j


/-- A prefetcher whose two methods leave the counters of the demand accesses (`loads`,
`stores`, `hits`, `accesses`) as they are. -/
def PrefetcherInterface.KeepsCounters {P C : Type} (prefetcher : PrefetcherInterface P C) :
    Prop :=
  ∀ p g addr pc p1 g1,
    (prefetcher.prefetch p g addr pc = some (p1, g1) ∨
      prefetcher.train p g addr pc = some (p1, g1)) →
    g1.loads = g.loads ∧ g1.stores = g.stores ∧ g1.hits = g.hits ∧
      g1.accesses = g.accesses


/-- The selector counter of the Tournament predictor read as a number: `00` is 0
(strongly Local), `01` is 1, `10` is 2 and `11` is 3 (strongly Gshare); a string that is
none of the four counter values reads as 0. -/
def Spec.selectorValue : String → Nat
  | "11" => 3
  | "10" => 2
  | "01" => 1
  | _ => 0


/-- No two live rows of the Stride table have the same load PC. -/
def StridePrefetcher.UniqueKeys (s : StridePrefetcher) : Prop :=
  ∀ i j ri rj, i < s.numberOfEntries → j < s.numberOfEntries →
    s.RPT[i]? = some ri → s.RPT[j]? = some rj → ri.loadPC = rj.loadPC → i = j


/-! ## Auxiliary lemmas -/

theorem set_same_of_getElem? {α : Type} (arr : List α) (i : Nat) (c : α)
    (h : arr[i]? = some c) : arr.set i c = arr := by
  apply List.ext_getElem?
  intro j
  by_cases hij : i = j
  · subst hij
    rw [h]
    have hlt : i < arr.length := by
      by_contra hge
      rw [List.getElem?_eq_none (by omega)] at h
      cases h
    simp [List.getElem?_set, hlt]
  · simp [List.getElem?_set, hij]

theorem lt_length_of_getElem? {α : Type} (arr : List α) (i : Nat) (c : α)
    (h : arr[i]? = some c) : i < arr.length := by
  by_contra hge
  rw [List.getElem?_eq_none (by omega)] at h
  cases h

theorem mem_of_getElem?_some {α : Type} (arr : List α) (i : Nat) (c : α)
    (h : arr[i]? = some c) : c ∈ arr := by
  have hlt := lt_length_of_getElem? arr i c h
  rw [List.getElem?_eq_getElem hlt] at h
  cases h
  exact List.getElem_mem hlt

theorem forall_mem_set {α : Type} (P : α → Prop) (arr : List α) (i : Nat) (v : α)
    (harr : ∀ c ∈ arr, P c) (hv : P v) : ∀ c ∈ arr.set i v, P c := by
  intro c hc
  rcases List.mem_or_eq_of_mem_set hc with h | h
  · exact harr c h
  · exact h ▸ hv

theorem getElem?_set_self_of_some {α : Type} (arr : List α) (i : Nat) (c v : α)
    (h : arr[i]? = some c) : (arr.set i v)[i]? = some v := by
  simp [List.getElem?_set, lt_length_of_getElem? arr i c h]

theorem getElem?_set_other {α : Type} (arr : List α) (i j : Nat) (v : α) (h : j ≠ i) :
    (arr.set i v)[j]? = arr[j]? := by
  simp [List.getElem?_set, Ne.symm h]

theorem counter_next_isTwoBit (c : String) (taken : Bool) (h : IsTwoBit c) :
    IsTwoBit (SaturatingCounter.next c taken) := by
  rcases h with h | h | h | h <;> subst h <;> cases taken <;> decide

/-- The if-chain of Local and Gshare `train` writes `SaturatingCounter.next` at index `i`. -/
theorem counter_chain (arr : List String) (i : Nat) (c : String) (taken : Bool)
    (h : arr[i]? = some c) :
    (if c = "11" then
      if taken = false then arr.set i "10" else arr
    else if c = "10" then
      if taken = true then arr.set i "11"
      else arr.set i "01"
    else if c = "01" then
      if taken = true then arr.set i "10"
      else arr.set i "00"
    else if c = "00" then
      if taken = true then arr.set i "01"
      else arr.set i "00"
    else arr) = arr.set i (SaturatingCounter.next c taken) := by
  by_cases h1 : c = "11"
  · subst h1
    cases taken <;> simp [SaturatingCounter.next, set_same_of_getElem? _ _ _ h]
  by_cases h2 : c = "10"
  · subst h2; cases taken <;> simp [SaturatingCounter.next]
  by_cases h3 : c = "01"
  · subst h3; cases taken <;> simp [SaturatingCounter.next]
  by_cases h4 : c = "00"
  · subst h4; cases taken <;> simp [SaturatingCounter.next]
  have hsame : SaturatingCounter.next c taken = c := by
    unfold SaturatingCounter.next
    split <;> simp_all
  rw [hsame, set_same_of_getElem? _ _ _ h]
  simp [h1, h2, h3, h4]

/-- The history update of the source stays below the table size. -/
theorem history_update_lt (n old : Nat) (taken : Bool) (h : old < n) :
    (if (if taken = false then (old * 2) % UINT64_RANGE
          else ((old * 2) + 1) % UINT64_RANGE) ≥ n
      then (if taken = false then (old * 2) % UINT64_RANGE
          else ((old * 2) + 1) % UINT64_RANGE) - n
      else (if taken = false then (old * 2) % UINT64_RANGE
          else ((old * 2) + 1) % UINT64_RANGE)) < n := by
  have hx : (if taken = false then (old * 2) % UINT64_RANGE
      else ((old * 2) + 1) % UINT64_RANGE) ≤ old * 2 + 1 := by
    have h0 := Nat.mod_le (old * 2) UINT64_RANGE
    have h1 := Nat.mod_le (old * 2 + 1) UINT64_RANGE
    cases taken
    · simp only [if_true]; omega
    · simp only [Bool.true_eq_false, if_false]; omega
  generalize (if taken = false then (old * 2) % UINT64_RANGE
      else ((old * 2) + 1) % UINT64_RANGE) = x at hx
  split <;> omega

/-- Without 64-bit wrap-around the history update of the source is the shift of the
specification. -/
theorem history_update_eq_spec (n old : Nat) (taken : Bool)
    (hw : old * 2 + 1 < UINT64_RANGE) :
    (if (if taken = false then (old * 2) % UINT64_RANGE
          else ((old * 2) + 1) % UINT64_RANGE) ≥ n
      then (if taken = false then (old * 2) % UINT64_RANGE
          else ((old * 2) + 1) % UINT64_RANGE) - n
      else (if taken = false then (old * 2) % UINT64_RANGE
          else ((old * 2) + 1) % UINT64_RANGE)) = Spec.historyShift n old taken := by
  have h0 : (old * 2) % UINT64_RANGE = old * 2 := Nat.mod_eq_of_lt (by omega)
  have h1 : (old * 2 + 1) % UINT64_RANGE = old * 2 + 1 := Nat.mod_eq_of_lt hw
  cases taken <;> simp [Spec.historyShift, h0, h1]

/-- Closed form of Local `train` when both array reads are inside their arrays. -/
theorem local_train_eq (s : LocalBranchPredictor) (pc : Nat) (taken : Bool)
    (old : Nat) (c : String) (h1 : s.lhrs[pc % 128]? = some old)
    (h2 : s.pht_array[old]? = some c) :
    s.train pc taken = some
      { bp_entries := s.bp_entries
        lhrs := s.lhrs.set (pc % 128)
          (if (if taken = false then (old * 2) % UINT64_RANGE
                else ((old * 2) + 1) % UINT64_RANGE) ≥ s.bp_entries
            then (if taken = false then (old * 2) % UINT64_RANGE
                else ((old * 2) + 1) % UINT64_RANGE) - s.bp_entries
            else (if taken = false then (old * 2) % UINT64_RANGE
                else ((old * 2) + 1) % UINT64_RANGE))
        pht_array := s.pht_array.set old (SaturatingCounter.next c taken) } := by
  simp only [LocalBranchPredictor.train, h1, h2, Option.bind_eq_bind, Option.some_bind,
    Option.pure_def, counter_chain _ _ _ _ h2]

/-- Local `train` succeeds only when both array reads are inside their arrays. -/
theorem local_train_some (s s1 : LocalBranchPredictor) (pc : Nat)
    (taken : Bool) (h : s.train pc taken = some s1) :
    ∃ old c, s.lhrs[pc % 128]? = some old ∧ s.pht_array[old]? = some c := by
  cases h1 : s.lhrs[pc % 128]? with
  | none => simp [LocalBranchPredictor.train, h1] at h
  | some old =>
    cases h2 : s.pht_array[old]? with
    | none => simp [LocalBranchPredictor.train, h1, h2] at h
    | some c => exact ⟨old, c, rfl, h2⟩

/-- Closed form of Local `getPrediction` when both array reads are inside their arrays. -/
theorem local_getPrediction_eq (s : LocalBranchPredictor) (pc old : Nat)
    (c : String) (h1 : s.lhrs[pc % 128]? = some old) (h2 : s.pht_array[old]? = some c) :
    s.getPrediction pc = some (decide (c = "11" ∨ c = "10")) := by
  simp only [LocalBranchPredictor.getPrediction, h1, h2, Option.bind_eq_bind,
    Option.some_bind, Option.pure_def]
  by_cases h : c = "11" ∨ c = "10" <;> simp [h]

/-- Local `getPrediction` succeeds only when both array reads are inside their arrays. -/
theorem local_getPrediction_some (s : LocalBranchPredictor) (pc : Nat)
    (b : Bool) (h : s.getPrediction pc = some b) :
    ∃ old c, s.lhrs[pc % 128]? = some old ∧ s.pht_array[old]? = some c := by
  cases h1 : s.lhrs[pc % 128]? with
  | none => simp [LocalBranchPredictor.getPrediction, h1] at h
  | some old =>
    cases h2 : s.pht_array[old]? with
    | none => simp [LocalBranchPredictor.getPrediction, h1, h2] at h
    | some c => exact ⟨old, c, rfl, h2⟩

/-- Closed form of Gshare `train` when the table is not empty and the read is inside it. -/
theorem gshare_train_eq (s : GshareBranchPredictor) (pc : Nat) (taken : Bool)
    (c : String) (hn : s.bp_entries ≠ 0)
    (h : s.pht_array[(pc % s.bp_entries) ^^^ s.ghr]? = some c) :
    s.train pc taken = some
      { bp_entries := s.bp_entries
        ghr :=
          (if (if taken = false then (s.ghr * 2) % UINT64_RANGE
                else ((s.ghr * 2) + 1) % UINT64_RANGE) ≥ s.bp_entries
            then (if taken = false then (s.ghr * 2) % UINT64_RANGE
                else ((s.ghr * 2) + 1) % UINT64_RANGE) - s.bp_entries
            else (if taken = false then (s.ghr * 2) % UINT64_RANGE
                else ((s.ghr * 2) + 1) % UINT64_RANGE))
        pht_array := s.pht_array.set ((pc % s.bp_entries) ^^^ s.ghr)
          (SaturatingCounter.next c taken) } := by
  simp only [GshareBranchPredictor.train, hn, h, if_false, Option.bind_eq_bind, Option.some_bind,
    Option.pure_def, counter_chain _ _ _ _ h]

/-- Gshare `train` succeeds only on a non-empty table with the read inside it. -/
theorem gshare_train_some (s s1 : GshareBranchPredictor) (pc : Nat)
    (taken : Bool) (h : s.train pc taken = some s1) :
    s.bp_entries ≠ 0 ∧ ∃ c, s.pht_array[(pc % s.bp_entries) ^^^ s.ghr]? = some c := by
  by_cases hn : s.bp_entries = 0
  · simp [GshareBranchPredictor.train, hn] at h
  · refine ⟨hn, ?_⟩
    cases h2 : s.pht_array[(pc % s.bp_entries) ^^^ s.ghr]? with
    | none => simp [GshareBranchPredictor.train, hn, h2] at h
    | some c => exact ⟨c, rfl⟩

/-- Closed form of Gshare `getPrediction`. -/
theorem gshare_getPrediction_eq (s : GshareBranchPredictor) (pc : Nat)
    (c : String) (hn : s.bp_entries ≠ 0)
    (h : s.pht_array[(pc % s.bp_entries) ^^^ s.ghr]? = some c) :
    s.getPrediction pc = some (decide (c = "11" ∨ c = "10")) := by
  simp only [GshareBranchPredictor.getPrediction, hn, h, if_false, Option.bind_eq_bind,
    Option.some_bind, Option.pure_def]
  by_cases h : c = "11" ∨ c = "10" <;> simp [h]

/-- Gshare `getPrediction` succeeds only on a non-empty table with the read inside it. -/
theorem gshare_getPrediction_some (s : GshareBranchPredictor) (pc : Nat)
    (b : Bool) (h : s.getPrediction pc = some b) :
    s.bp_entries ≠ 0 ∧ ∃ c, s.pht_array[(pc % s.bp_entries) ^^^ s.ghr]? = some c := by
  by_cases hn : s.bp_entries = 0
  · simp [GshareBranchPredictor.getPrediction, hn] at h
  · refine ⟨hn, ?_⟩
    cases h2 : s.pht_array[(pc % s.bp_entries) ^^^ s.ghr]? with
    | none => simp [GshareBranchPredictor.getPrediction, hn, h2] at h
    | some c => exact ⟨c, rfl⟩

/-- A freshly constructed Local predictor with at least one entry satisfies the invariant. -/
theorem local_create_inv (n : Nat) (h : 1 ≤ n) :
    (LocalBranchPredictor.create n).Inv n := by
  refine ⟨rfl, by simp [LocalBranchPredictor.create], by simp [LocalBranchPredictor.create],
    ?_, ?_⟩
  · intro v hv
    simp only [LocalBranchPredictor.create] at hv
    rw [List.eq_of_mem_replicate hv]
    omega
  · intro c hc
    simp only [LocalBranchPredictor.create] at hc
    rw [List.eq_of_mem_replicate hc]
    decide

/-- On a state satisfying the invariant Local `train` returns, and the invariant holds
afterwards. -/
theorem local_train_inv (n : Nat) (s : LocalBranchPredictor) (pc : Nat)
    (taken : Bool) (h : s.Inv n) : ∃ s1, s.train pc taken = some s1 ∧ s1.Inv n := by
  obtain ⟨hbp, hlen, hpl, hl, hp⟩ := h
  have hlt : pc % 128 < s.lhrs.length := by rw [hlen]; exact Nat.mod_lt _ (by decide)
  have h1 : s.lhrs[pc % 128]? = some s.lhrs[pc % 128] := List.getElem?_eq_getElem hlt
  have hold : s.lhrs[pc % 128] < n := hl _ (List.getElem_mem hlt)
  have hlt2 : s.lhrs[pc % 128] < s.pht_array.length := by rw [hpl]; exact hold
  have h2 : s.pht_array[s.lhrs[pc % 128]]? = some s.pht_array[s.lhrs[pc % 128]] :=
    List.getElem?_eq_getElem hlt2
  refine ⟨_, local_train_eq s pc taken _ _ h1 h2, hbp, ?_, ?_, ?_, ?_⟩
  · simp [hlen]
  · simp [hpl]
  · apply forall_mem_set _ _ _ _ hl
    rw [hbp]
    exact history_update_lt n _ taken hold
  · apply forall_mem_set _ _ _ _ hp
    exact counter_next_isTwoBit _ _ (hp _ (List.getElem_mem hlt2))

/-- From a state satisfying the invariant every sequence of Local `train` calls returns,
and the invariant holds afterwards. -/
theorem local_trainAll_inv (n : Nat) (events : List (Nat × Bool)) :
    ∀ s : LocalBranchPredictor, s.Inv n → ∃ s1, s.trainAll events = some s1 ∧ s1.Inv n := by
  induction events with
  | nil => intro s h; exact ⟨s, rfl, h⟩
  | cons e rest ih =>
    intro s h
    obtain ⟨s1, h1, hi1⟩ := local_train_inv n s e.1 e.2 h
    obtain ⟨s2, h2, hi2⟩ := ih s1 hi1
    exact ⟨s2, by simp [LocalBranchPredictor.trainAll, h1, h2], hi2⟩

/-- A freshly constructed Gshare predictor with at least one entry satisfies the
invariant. -/
theorem gshare_create_inv (n : Nat) (h : 1 ≤ n) :
    (GshareBranchPredictor.create n).Inv n := by
  refine ⟨rfl, by simp [GshareBranchPredictor.create], ?_, ?_⟩
  · simp only [GshareBranchPredictor.create]; omega
  · intro c hc
    simp only [GshareBranchPredictor.create] at hc
    rw [List.eq_of_mem_replicate hc]
    decide

/-- Whenever Gshare `train` returns from a state satisfying the invariant, the invariant
holds afterwards. -/
theorem gshare_train_inv (n : Nat) (s s1 : GshareBranchPredictor) (pc : Nat)
    (taken : Bool) (h : s.Inv n) (ht : s.train pc taken = some s1) : s1.Inv n := by
  obtain ⟨hbp, hpl, hg, hp⟩ := h
  obtain ⟨hn, c, hc⟩ := gshare_train_some s s1 pc taken ht
  rw [gshare_train_eq s pc taken c hn hc] at ht
  cases ht
  refine ⟨hbp, by simp [hpl], ?_, ?_⟩
  · simp only [hbp]
    exact history_update_lt n _ taken hg
  · apply forall_mem_set _ _ _ _ hp
    exact counter_next_isTwoBit _ _ (hp _ (mem_of_getElem?_some _ _ _ hc))

/-- Whenever a sequence of Gshare `train` calls returns from a state satisfying the
invariant, the invariant holds afterwards. -/
theorem gshare_trainAll_inv (n : Nat) (events : List (Nat × Bool)) :
    ∀ s s1 : GshareBranchPredictor, s.Inv n → s.trainAll events = some s1 → s1.Inv n := by
  induction events with
  | nil =>
    intro s s1 h ht
    simp only [GshareBranchPredictor.trainAll] at ht
    cases ht
    exact h
  | cons e rest ih =>
    intro s s1 h ht
    simp only [GshareBranchPredictor.trainAll] at ht
    cases hm : s.train e.1 e.2 with
    | none => simp [hm] at ht
    | some s2 =>
      rw [hm] at ht
      exact ih s2 s1 (gshare_train_inv n s s2 e.1 e.2 h hm) ht

theorem selector_next_isTwoBit (c : String) (g l taken : Bool) (h : IsTwoBit c) :
    IsTwoBit (Spec.selectorNext c g l taken) := by
  rcases h with h | h | h | h <;> subst h <;> cases g <;> cases l <;> cases taken <;> decide

/-- The if-chain of Tournament `train` writes `Spec.selectorNext` at index `i`. -/
theorem selector_chain (arr : List String) (i : Nat) (c : String)
    (gsb_pred lb_pred taken : Bool) (h : arr[i]? = some c) :
    (if c = "11" then
      if gsb_pred ≠ taken ∧ lb_pred = taken then arr.set i "10"
      else arr
    else if c = "10" then
      if gsb_pred = taken then arr.set i "11"
      else if gsb_pred ≠ taken ∧ lb_pred = taken then arr.set i "01"
      else arr
    else if c = "01" then
      if lb_pred = taken then arr.set i "00"
      else if lb_pred ≠ taken ∧ gsb_pred = taken then arr.set i "10"
      else arr
    else if c = "00" then
      if taken = true then arr.set i "00"
      else if lb_pred ≠ taken ∧ gsb_pred = taken then arr.set i "01"
      else arr
    else arr) =
      arr.set i (Spec.selectorNext c (gsb_pred == taken) (lb_pred == taken) taken) := by
  by_cases h1 : c = "11"
  · subst h1
    cases gsb_pred <;> cases lb_pred <;> cases taken <;>
      simp [Spec.selectorNext, set_same_of_getElem? _ _ _ h]
  by_cases h2 : c = "10"
  · subst h2
    cases gsb_pred <;> cases lb_pred <;> cases taken <;>
      simp [Spec.selectorNext, set_same_of_getElem? _ _ _ h]
  by_cases h3 : c = "01"
  · subst h3
    cases gsb_pred <;> cases lb_pred <;> cases taken <;>
      simp [Spec.selectorNext, set_same_of_getElem? _ _ _ h]
  by_cases h4 : c = "00"
  · subst h4
    cases gsb_pred <;> cases lb_pred <;> cases taken <;>
      simp [Spec.selectorNext, set_same_of_getElem? _ _ _ h]
  have hsame : Spec.selectorNext c (gsb_pred == taken) (lb_pred == taken) taken = c := by
    unfold Spec.selectorNext
    split <;> simp_all
  rw [hsame, set_same_of_getElem? _ _ _ h]
  simp [h1, h2, h3, h4]

/-- Closed form of Tournament `train`. -/
theorem tournament_train_eq (s : TournamentBranchPredictor) (pc : Nat)
    (taken : Bool) (c : String) (lp gp : Bool) (l1 : LocalBranchPredictor)
    (g1 : GshareBranchPredictor) (hn : s.bp_entries ≠ 0)
    (hc : s.pht_array[pc % s.bp_entries]? = some c)
    (hl : s.lb_predictor.getPrediction pc = some lp)
    (hg : s.gsb_predictor.getPrediction pc = some gp)
    (hl1 : s.lb_predictor.train pc taken = some l1)
    (hg1 : s.gsb_predictor.train pc taken = some g1) :
    s.train pc taken = some
      { bp_entries := s.bp_entries
        pht_array := s.pht_array.set (pc % s.bp_entries)
          (Spec.selectorNext c (gp == taken) (lp == taken) taken)
        lb_predictor := l1
        gsb_predictor := g1 } := by
  simp only [TournamentBranchPredictor.train, hn, hc, hl, hg, hl1, hg1, if_false,
    Option.bind_eq_bind, Option.some_bind, Option.pure_def, selector_chain _ _ _ _ _ _ hc]

/-- Tournament `train` succeeds only when every read and both sub-predictor calls do. -/
theorem tournament_train_some (s s1 : TournamentBranchPredictor) (pc : Nat)
    (taken : Bool) (h : s.train pc taken = some s1) :
    s.bp_entries ≠ 0 ∧ ∃ c lp gp l1 g1,
      s.pht_array[pc % s.bp_entries]? = some c ∧
      s.lb_predictor.getPrediction pc = some lp ∧
      s.gsb_predictor.getPrediction pc = some gp ∧
      s.lb_predictor.train pc taken = some l1 ∧
      s.gsb_predictor.train pc taken = some g1 := by
  by_cases hn : s.bp_entries = 0
  · simp [TournamentBranchPredictor.train, hn] at h
  refine ⟨hn, ?_⟩
  cases hc : s.pht_array[pc % s.bp_entries]? with
  | none => simp [TournamentBranchPredictor.train, hn, hc] at h
  | some c =>
    cases hl : s.lb_predictor.getPrediction pc with
    | none => simp [TournamentBranchPredictor.train, hn, hc, hl] at h
    | some lp =>
      cases hg : s.gsb_predictor.getPrediction pc with
      | none => simp [TournamentBranchPredictor.train, hn, hc, hl, hg] at h
      | some gp =>
        cases hl1 : s.lb_predictor.train pc taken with
        | none => simp [TournamentBranchPredictor.train, hn, hc, hl, hg, hl1] at h
        | some l1 =>
          cases hg1 : s.gsb_predictor.train pc taken with
          | none => simp [TournamentBranchPredictor.train, hn, hc, hl, hg, hl1, hg1] at h
          | some g1 => exact ⟨c, lp, gp, l1, g1, rfl, rfl, rfl, rfl, rfl⟩

/-- A freshly constructed Tournament predictor with at least one entry satisfies the
invariant. -/
theorem tournament_create_inv (n : Nat) (h : 1 ≤ n) :
    (TournamentBranchPredictor.create n).Inv n := by
  refine ⟨rfl, by simp [TournamentBranchPredictor.create], ?_,
    local_create_inv n h, gshare_create_inv n h⟩
  intro c hc
  simp only [TournamentBranchPredictor.create] at hc
  rw [List.eq_of_mem_replicate hc]
  decide

/-- Whenever Tournament `train` returns from a state satisfying the invariant, the
invariant holds afterwards. -/
theorem tournament_train_inv (n : Nat) (s s1 : TournamentBranchPredictor)
    (pc : Nat) (taken : Bool) (h : s.Inv n) (ht : s.train pc taken = some s1) :
    s1.Inv n := by
  obtain ⟨hbp, hpl, hp, hli, hgi⟩ := h
  obtain ⟨hn, c, lp, gp, l1, g1, hc, hl, hg, hl1, hg1⟩ :=
    tournament_train_some s s1 pc taken ht
  rw [tournament_train_eq s pc taken c lp gp l1 g1 hn hc hl hg hl1 hg1] at ht
  cases ht
  refine ⟨hbp, by simp [hpl], ?_, ?_, ?_⟩
  · apply forall_mem_set _ _ _ _ hp
    exact selector_next_isTwoBit _ _ _ _ (hp _ (mem_of_getElem?_some _ _ _ hc))
  · obtain ⟨l2, hl2, hi⟩ := local_train_inv n s.lb_predictor pc taken hli
    rw [hl1] at hl2
    cases hl2
    exact hi
  · exact gshare_train_inv n s.gsb_predictor g1 pc taken hgi hg1

/-- Whenever a sequence of Tournament `train` calls returns from a state satisfying the
invariant, the invariant holds afterwards. -/
theorem tournament_trainAll_inv (n : Nat) (events : List (Nat × Bool)) :
    ∀ s s1 : TournamentBranchPredictor, s.Inv n → s.trainAll events = some s1 →
      s1.Inv n := by
  induction events with
  | nil =>
    intro s s1 h ht
    simp only [TournamentBranchPredictor.trainAll] at ht
    cases ht
    exact h
  | cons e rest ih =>
    intro s s1 h ht
    simp only [TournamentBranchPredictor.trainAll] at ht
    cases hm : s.train e.1 e.2 with
    | none => simp [hm] at ht
    | some s2 =>
      rw [hm] at ht
      exact ih s2 s1 (tournament_train_inv n s s2 e.1 e.2 h hm) ht

/-- One Tournament `train` is one Local `train` and one Gshare `train` on the two
sub-predictors. -/
theorem tournament_train_subs (s s1 : TournamentBranchPredictor) (pc : Nat) (taken : Bool)
    (h : s.train pc taken = some s1) :
    s.lb_predictor.train pc taken = some s1.lb_predictor ∧
      s.gsb_predictor.train pc taken = some s1.gsb_predictor := by
  obtain ⟨hn, c, lp, gp, l1, g1, hc, hl, hg, hl1, hg1⟩ :=
    tournament_train_some s s1 pc taken h
  rw [tournament_train_eq s pc taken c lp gp l1 g1 hn hc hl hg hl1 hg1] at h
  cases h
  exact ⟨hl1, hg1⟩

/-- On a state satisfying the invariant, Tournament `train` returns as soon as both
sub-predictor `train` calls return. -/
theorem tournament_train_total (n : Nat) (hn1 : 1 ≤ n) (s : TournamentBranchPredictor)
    (pc : Nat) (taken : Bool) (l1 : LocalBranchPredictor) (g1 : GshareBranchPredictor)
    (h : s.Inv n) (hl1 : s.lb_predictor.train pc taken = some l1)
    (hg1 : s.gsb_predictor.train pc taken = some g1) :
    ∃ s1, s.train pc taken = some s1 ∧ s1.lb_predictor = l1 ∧ s1.gsb_predictor = g1 := by
  obtain ⟨hbp, hpl, _, _, _⟩ := h
  have hn : s.bp_entries ≠ 0 := by omega
  have hlt : pc % s.bp_entries < s.pht_array.length := by
    rw [hpl, hbp]
    exact Nat.mod_lt _ (by omega)
  obtain ⟨lo, lc, hlo, hlc⟩ := local_train_some _ _ pc taken hl1
  obtain ⟨hgn, gc, hgc⟩ := gshare_train_some _ _ pc taken hg1
  exact ⟨_, tournament_train_eq s pc taken _ _ _ l1 g1 hn (List.getElem?_eq_getElem hlt)
    (local_getPrediction_eq _ pc lo lc hlo hlc) (gshare_getPrediction_eq _ pc gc hgn hgc)
    hl1 hg1, rfl, rfl⟩

/-- A returning sequence of Tournament `train` calls runs the same sequence on the two
sub-predictors. -/
theorem tournament_trainAll_subs (events : List (Nat × Bool)) :
    ∀ s s1 : TournamentBranchPredictor, s.trainAll events = some s1 →
      s.lb_predictor.trainAll events = some s1.lb_predictor ∧
        s.gsb_predictor.trainAll events = some s1.gsb_predictor := by
  induction events with
  | nil =>
    intro s s1 h
    simp only [TournamentBranchPredictor.trainAll] at h
    cases h
    exact ⟨rfl, rfl⟩
  | cons e rest ih =>
    intro s s1 h
    simp only [TournamentBranchPredictor.trainAll] at h
    cases hm : s.train e.1 e.2 with
    | none => simp [hm] at h
    | some s2 =>
      rw [hm] at h
      obtain ⟨hl, hg⟩ := tournament_train_subs s s2 e.1 e.2 hm
      obtain ⟨hl2, hg2⟩ := ih s2 s1 h
      simp only [LocalBranchPredictor.trainAll, GshareBranchPredictor.trainAll, hl, hg]
      exact ⟨hl2, hg2⟩

/-- From a state satisfying the invariant, a sequence of Tournament `train` calls returns
as soon as the same sequence returns on both sub-predictors. -/
theorem tournament_trainAll_total (n : Nat) (hn1 : 1 ≤ n) (events : List (Nat × Bool)) :
    ∀ (s : TournamentBranchPredictor) (l1 : LocalBranchPredictor)
      (g1 : GshareBranchPredictor), s.Inv n →
      s.lb_predictor.trainAll events = some l1 →
      s.gsb_predictor.trainAll events = some g1 →
      ∃ s1, s.trainAll events = some s1 ∧ s1.lb_predictor = l1 ∧ s1.gsb_predictor = g1 := by
  induction events with
  | nil =>
    intro s l1 g1 _ hl hg
    simp only [LocalBranchPredictor.trainAll, GshareBranchPredictor.trainAll] at hl hg
    cases hl
    cases hg
    exact ⟨s, rfl, rfl, rfl⟩
  | cons e rest ih =>
    intro s l1 g1 hi hl hg
    simp only [LocalBranchPredictor.trainAll, GshareBranchPredictor.trainAll] at hl hg
    cases hml : s.lb_predictor.train e.1 e.2 with
    | none => simp [hml] at hl
    | some l2 =>
      cases hmg : s.gsb_predictor.train e.1 e.2 with
      | none => simp [hmg] at hg
      | some g2 =>
        rw [hml] at hl
        rw [hmg] at hg
        obtain ⟨s2, hs2, hl2, hg2⟩ := tournament_train_total n hn1 s e.1 e.2 l2 g2 hi hml hmg
        have hi2 := tournament_train_inv n s s2 e.1 e.2 hi hs2
        subst hl2
        subst hg2
        obtain ⟨s3, hs3, hl3, hg3⟩ := ih s2 l1 g1 hi2 hl hg
        exact ⟨s3, by simp [TournamentBranchPredictor.trainAll, hs2, hs3], hl3, hg3⟩

/-- On a state satisfying the invariant both reads of the Local methods are inside their
arrays. -/
theorem local_reads_of_inv (n : Nat) (s : LocalBranchPredictor) (pc : Nat) (h : s.Inv n) :
    ∃ old c, s.lhrs[pc % 128]? = some old ∧ s.pht_array[old]? = some c ∧ old < n := by
  obtain ⟨_, hlen, hpl, hl, _⟩ := h
  have hlt : pc % 128 < s.lhrs.length := by rw [hlen]; exact Nat.mod_lt _ (by decide)
  have hold : s.lhrs[pc % 128] < n := hl _ (List.getElem_mem hlt)
  have hlt2 : s.lhrs[pc % 128] < s.pht_array.length := by rw [hpl]; exact hold
  exact ⟨_, _, List.getElem?_eq_getElem hlt, List.getElem?_eq_getElem hlt2, hold⟩

/-- A Local predictor with one table entry keeps every history register at 0, so each
`train` call rewrites the one counter. -/
theorem local_single_entry_train (c : String) (pc : Nat) (taken : Bool) :
    LocalBranchPredictor.train
      { bp_entries := 1, lhrs := List.replicate 128 0, pht_array := [c] } pc taken =
      some { bp_entries := 1, lhrs := List.replicate 128 0
             pht_array := [SaturatingCounter.next c taken] } := by
  have hlt : pc % 128 < 128 := Nat.mod_lt _ (by decide)
  have h1 : (List.replicate 128 0)[pc % 128]? = some 0 := by
    rw [List.getElem?_replicate, if_pos hlt]
  rw [local_train_eq { bp_entries := 1, lhrs := List.replicate 128 0, pht_array := [c] }
    pc taken 0 c h1 rfl]
  have hz : (if (if taken = false then (0 * 2) % UINT64_RANGE
                else ((0 * 2) + 1) % UINT64_RANGE) ≥ 1
            then (if taken = false then (0 * 2) % UINT64_RANGE
                else ((0 * 2) + 1) % UINT64_RANGE) - 1
            else (if taken = false then (0 * 2) % UINT64_RANGE
                else ((0 * 2) + 1) % UINT64_RANGE)) = 0 := by
    cases taken <;> simp [UINT64_RANGE]
  simp only [hz, set_same_of_getElem? _ _ _ h1, List.set_cons_zero]

/-- A Gshare predictor with one table entry keeps the global history at 0, so each `train`
call rewrites the one counter. -/
theorem gshare_single_entry_train (c : String) (pc : Nat) (taken : Bool) :
    GshareBranchPredictor.train { bp_entries := 1, ghr := 0, pht_array := [c] } pc taken =
      some { bp_entries := 1, ghr := 0, pht_array := [SaturatingCounter.next c taken] } := by
  have hidx : (pc % 1) ^^^ 0 = 0 := by simp [Nat.mod_one]
  have h1 : ([c] : List String)[(pc % 1) ^^^ 0]? = some c := by rw [hidx]; rfl
  rw [gshare_train_eq { bp_entries := 1, ghr := 0, pht_array := [c] } pc taken c
    Nat.one_ne_zero h1]
  have hz : (if (if taken = false then (0 * 2) % UINT64_RANGE
                else ((0 * 2) + 1) % UINT64_RANGE) ≥ 1
            then (if taken = false then (0 * 2) % UINT64_RANGE
                else ((0 * 2) + 1) % UINT64_RANGE) - 1
            else (if taken = false then (0 * 2) % UINT64_RANGE
                else ((0 * 2) + 1) % UINT64_RANGE)) = 0 := by
    cases taken <;> simp [UINT64_RANGE]
  simp only [hz, hidx, List.set_cons_zero]

/-- A taken branch on a Local predictor whose counters are all `11` leaves them all
`11`. -/
theorem local_train_taken_all_strong (n : Nat) (s : LocalBranchPredictor) (pc : Nat)
    (h : s.Inv n) (hp : s.pht_array = List.replicate n "11") :
    ∃ s1, s.train pc true = some s1 ∧ s1.Inv n ∧ s1.pht_array = List.replicate n "11" := by
  obtain ⟨s1, h1, hi1⟩ := local_train_inv n s pc true h
  refine ⟨s1, h1, hi1, ?_⟩
  obtain ⟨old, c, hr1, hr2, _⟩ := local_reads_of_inv n s pc h
  rw [local_train_eq s pc true old c hr1 hr2] at h1
  cases h1
  have hc : c = "11" := by
    have hm := mem_of_getElem?_some _ _ _ hr2
    rw [hp] at hm
    exact List.eq_of_mem_replicate hm
  subst hc
  have hn : SaturatingCounter.next "11" true = "11" := by decide
  simp only [hn, set_same_of_getElem? _ _ _ hr2]
  exact hp

/-- Any number of taken branches at one pc on a Local predictor whose counters are all
`11` returns a state whose counters are all `11`. -/
theorem local_trainAll_taken_all_strong (n : Nat) (pc : Nat) (k : Nat) :
    ∀ s : LocalBranchPredictor, s.Inv n → s.pht_array = List.replicate n "11" →
      ∃ s1, s.trainAll (List.replicate k (pc, true)) = some s1 ∧ s1.Inv n ∧
        s1.pht_array = List.replicate n "11" := by
  induction k with
  | zero => intro s h hp; exact ⟨s, rfl, h, hp⟩
  | succ k ih =>
    intro s h hp
    obtain ⟨s1, h1, hi1, hp1⟩ := local_train_taken_all_strong n s pc h hp
    obtain ⟨s2, h2, hi2, hp2⟩ := ih s1 hi1 hp1
    exact ⟨s2, by simp [List.replicate, LocalBranchPredictor.trainAll, h1, h2], hi2, hp2⟩

theorem two_mul_add_mod (bit x m : Nat) (hb : bit < 2) (hm : 0 < m) :
    (bit + 2 * x) % (2 * m) = bit + 2 * (x % m) := by
  have hx : x = m * (x / m) + x % m := (Nat.div_add_mod x m).symm
  have hr : x % m < m := Nat.mod_lt _ hm
  have h1 : bit + 2 * x = (bit + 2 * (x % m)) + (2 * m) * (x / m) := by
    have : 2 * x = 2 * (m * (x / m)) + 2 * (x % m) := by rw [← Nat.mul_add, ← hx]
    rw [this, Nat.mul_assoc]
    omega
  rw [h1, Nat.add_mul_mod_self_left, Nat.mod_eq_of_lt (by omega)]

theorem bitsValue_lt (k : Nat) : ∀ l : List Bool, Spec.bitsValue k l < 2 ^ k := by
  induction k with
  | zero => intro l; simp [Spec.bitsValue]
  | succ k ih =>
    intro l
    cases l with
    | nil => simp [Spec.bitsValue]
    | cons b t =>
      have := ih t
      simp only [Spec.bitsValue, Nat.pow_succ]
      split <;> omega

theorem bitsValue_mod (k : Nat) :
    ∀ l : List Bool, Spec.bitsValue (k + 1) l % 2 ^ k = Spec.bitsValue k l := by
  induction k with
  | zero => intro l; simp [Spec.bitsValue, Nat.mod_one]
  | succ k ih =>
    intro l
    cases l with
    | nil => simp [Spec.bitsValue]
    | cons b t =>
      have hpos : 0 < 2 ^ k := Nat.two_pow_pos _
      have hb : (if b then 1 else 0) < 2 := by split <;> omega
      rw [Spec.bitsValue, Nat.pow_succ, Nat.mul_comm (2 ^ k) 2,
        two_mul_add_mod _ _ _ hb hpos, ih t]
      rfl

theorem bitsValue_cons (k : Nat) (b : Bool) (l : List Bool) :
    Spec.bitsValue k (b :: l) = (2 * Spec.bitsValue k l + (if b then 1 else 0)) % 2 ^ k := by
  cases k with
  | zero => simp [Spec.bitsValue, Nat.mod_one]
  | succ j =>
    have hpos : 0 < 2 ^ j := Nat.two_pow_pos _
    have hb : (if b then 1 else 0) < 2 := by split <;> omega
    rw [Nat.add_comm (2 * _) _, Nat.pow_succ, Nat.mul_comm (2 ^ j) 2,
      two_mul_add_mod _ _ _ hb hpos, bitsValue_mod j l]
    rfl

theorem lastOutcomes_append (k : Nat) (outs : List Bool) (b : Bool) :
    Spec.lastOutcomes k (outs ++ [b]) =
      (2 * Spec.lastOutcomes k outs + (if b then 1 else 0)) % 2 ^ k := by
  simp only [Spec.lastOutcomes, List.reverse_append, List.reverse_cons, List.reverse_nil,
    List.nil_append, List.singleton_append]
  exact bitsValue_cons k b outs.reverse

theorem cond_sub_eq_mod (n v : Nat) (h : v < 2 * n) :
    (if v ≥ n then v - n else v) = v % n := by
  split
  · rw [Nat.mod_eq_sub_mod (by omega), Nat.mod_eq_of_lt (by omega)]
  · rw [Nat.mod_eq_of_lt (by omega)]

theorem bitsValue_nil (k : Nat) : Spec.bitsValue k [] = 0 := by
  cases k <;> rfl

/-- With a table of `2 ^ k` entries, `k ≤ 63`, the history update of the source is the
doubled value plus the outcome bit, modulo `2 ^ k`. -/
theorem history_update_pow2 (k old : Nat) (taken : Bool) (hk : k ≤ 63) (h : old < 2 ^ k) :
    (if (if taken = false then (old * 2) % UINT64_RANGE
          else ((old * 2) + 1) % UINT64_RANGE) ≥ 2 ^ k
      then (if taken = false then (old * 2) % UINT64_RANGE
          else ((old * 2) + 1) % UINT64_RANGE) - 2 ^ k
      else (if taken = false then (old * 2) % UINT64_RANGE
          else ((old * 2) + 1) % UINT64_RANGE)) =
      (2 * old + (if taken then 1 else 0)) % 2 ^ k := by
  have h63 : 2 ^ k ≤ 2 ^ 63 := Nat.pow_le_pow_right (by decide) hk
  have hw : old * 2 + 1 < UINT64_RANGE := by
    have : (2 : Nat) ^ 64 = 2 * 2 ^ 63 := by norm_num
    simp only [UINT64_RANGE]
    omega
  rw [history_update_eq_spec _ _ _ hw]
  simp only [Spec.historyShift]
  have hb : (if taken then 1 else 0) < 2 := by split <;> omega
  rw [cond_sub_eq_mod _ _ (by omega), Nat.mul_comm old 2]

/-- One Gshare `train` on a table of `2 ^ k` entries returns and shifts the outcome into
the history. -/
theorem gshare_train_pow2 (k : Nat) (hk : k ≤ 63) (s : GshareBranchPredictor) (pc : Nat)
    (taken : Bool) (h : s.Inv (2 ^ k)) :
    ∃ s1, s.train pc taken = some s1 ∧ s1.Inv (2 ^ k) ∧
      s1.ghr = (2 * s.ghr + (if taken then 1 else 0)) % 2 ^ k := by
  have hInv := h
  obtain ⟨hbp, hpl, hg, _⟩ := h
  have hpos : 0 < 2 ^ k := Nat.two_pow_pos _
  have hn : s.bp_entries ≠ 0 := by omega
  have hidx : (pc % s.bp_entries) ^^^ s.ghr < s.pht_array.length := by
    rw [hpl, hbp]
    exact Nat.xor_lt_two_pow (Nat.mod_lt _ hpos) hg
  have ht := gshare_train_eq s pc taken _ hn (List.getElem?_eq_getElem hidx)
  refine ⟨_, ht, gshare_train_inv _ s _ pc taken hInv ht, ?_⟩
  simp only [hbp]
  exact history_update_pow2 k s.ghr taken hk hg

/-- Every sequence of Gshare `train` calls on a table of `2 ^ k` entries returns, and the
history is the value of the last `k` outcomes. -/
theorem gshare_trainAll_pow2 (k : Nat) (hk : k ≤ 63) (events : List (Nat × Bool)) :
    ∀ (s : GshareBranchPredictor) (outs : List Bool), s.Inv (2 ^ k) →
      s.ghr = Spec.lastOutcomes k outs →
      ∃ s1, s.trainAll events = some s1 ∧ s1.Inv (2 ^ k) ∧
        s1.ghr = Spec.lastOutcomes k (outs ++ events.map Prod.snd) := by
  induction events with
  | nil => intro s outs h hg; exact ⟨s, rfl, h, by simpa using hg⟩
  | cons e rest ih =>
    intro s outs h hg
    obtain ⟨s1, h1, hi1, hg1⟩ := gshare_train_pow2 k hk s e.1 e.2 h
    rw [hg, ← lastOutcomes_append] at hg1
    obtain ⟨s2, h2, hi2, hg2⟩ := ih s1 (outs ++ [e.2]) hi1 hg1
    refine ⟨s2, by simp [GshareBranchPredictor.trainAll, h1, h2], hi2, ?_⟩
    simpa using hg2

/-- One Local `train` on a table of `2 ^ k` entries returns and shifts the outcome into
history register `pc mod 128`. -/
theorem local_train_pow2 (k : Nat) (hk : k ≤ 63) (s : LocalBranchPredictor) (pc : Nat)
    (taken : Bool) (h : s.Inv (2 ^ k)) :
    ∃ s1 old, s.lhrs[pc % 128]? = some old ∧ s.train pc taken = some s1 ∧
      s1.Inv (2 ^ k) ∧
      s1.lhrs = s.lhrs.set (pc % 128) ((2 * old + (if taken then 1 else 0)) % 2 ^ k) := by
  obtain ⟨old, c, hr1, hr2, hold⟩ := local_reads_of_inv _ s pc h
  obtain ⟨s1, h1, hi1⟩ := local_train_inv _ s pc taken h
  refine ⟨s1, old, hr1, h1, hi1, ?_⟩
  rw [local_train_eq s pc taken old c hr1 hr2] at h1
  cases h1
  simp only [h.1]
  rw [history_update_pow2 k old taken hk hold]

/-- Every sequence of Local `train` calls on a table of `2 ^ k` entries returns, and each
history register is the value of the last `k` outcomes of the branches that map to it. -/
theorem local_trainAll_pow2 (k : Nat) (hk : k ≤ 63) (events : List (Nat × Bool)) :
    ∀ (s : LocalBranchPredictor) (hist : Nat → List Bool), s.Inv (2 ^ k) →
      (∀ i, i < 128 → s.lhrs[i]? = some (Spec.lastOutcomes k (hist i))) →
      ∃ s1, s.trainAll events = some s1 ∧
        ∀ i, i < 128 → s1.lhrs[i]? = some (Spec.lastOutcomes k
          (hist i ++ (events.filter (fun e => e.1 % 128 = i)).map Prod.snd)) := by
  induction events with
  | nil => intro s hist _ hh; exact ⟨s, rfl, by simpa using hh⟩
  | cons e rest ih =>
    intro s hist h hh
    obtain ⟨s1, old, hr, h1, hi1, hl1⟩ := local_train_pow2 k hk s e.1 e.2 h
    have hlt : e.1 % 128 < 128 := Nat.mod_lt _ (by decide)
    have hold : old = Spec.lastOutcomes k (hist (e.1 % 128)) := by
      have := hh _ hlt
      rw [hr] at this
      exact Option.some.inj this
    obtain ⟨s2, h2, hh2⟩ := ih s1
      (fun i => hist i ++ (if e.1 % 128 = i then [e.2] else [])) hi1 (by
        intro i hi
        beta_reduce
        rw [hl1]
        by_cases hie : e.1 % 128 = i
        · subst hie
          rw [getElem?_set_self_of_some _ _ _ _ hr, if_pos rfl, lastOutcomes_append, hold]
        · rw [getElem?_set_other _ _ _ _ (Ne.symm hie), if_neg hie, List.append_nil]
          exact hh i hi)
    refine ⟨s2, by simp [LocalBranchPredictor.trainAll, h1, h2], ?_⟩
    intro i hi
    rw [hh2 i hi]
    by_cases hie : e.1 % 128 = i
    · simp [List.filter_cons, hie]
    · simp [List.filter_cons, hie]

/-! ### The Stride prefetcher -/

/-- The scan of the Stride table, when it stops at row `k`: `k` is in the scanned range,
its key is `loadPC`, and no scanned row before it has that key. -/
theorem stride_scan_some (RPT : List RPTRow) (loadPC : Nat) :
    ∀ (fuel start k : Nat), StridePrefetcher.scan RPT loadPC fuel start = some (some k) →
      start ≤ k ∧ k < start + fuel ∧ (∃ row, RPT[k]? = some row ∧ row.loadPC = loadPC) ∧
        ∀ j, start ≤ j → j < k → ∀ r, RPT[j]? = some r → r.loadPC ≠ loadPC := by
  intro fuel
  induction fuel with
  | zero => intro start k h; simp [StridePrefetcher.scan] at h
  | succ fuel ih =>
    intro start k h
    unfold StridePrefetcher.scan at h
    cases hr : RPT[start]? with
    | none => simp [hr] at h
    | some row =>
      simp only [hr] at h
      by_cases hp : row.loadPC = loadPC
      · simp only [hp, if_true, Option.some.injEq] at h
        subst h
        exact ⟨Nat.le_refl _, by omega, ⟨row, hr, hp⟩, fun j h1 h2 => by omega⟩
      · simp only [hp, if_false] at h
        obtain ⟨h1, h2, h3, h4⟩ := ih (start + 1) k h
        refine ⟨by omega, by omega, h3, ?_⟩
        intro j hj1 hj2 r hjr
        by_cases hjs : j = start
        · subst hjs
          rw [hr] at hjr
          cases hjr
          exact hp
        · exact h4 j (by omega) hj2 r hjr

/-- The scan of the Stride table, when it ends without a match: no scanned row has the
key `loadPC`. -/
theorem stride_scan_none (RPT : List RPTRow) (loadPC : Nat) :
    ∀ (fuel start : Nat), StridePrefetcher.scan RPT loadPC fuel start = some none →
      ∀ j, start ≤ j → j < start + fuel → ∀ r, RPT[j]? = some r → r.loadPC ≠ loadPC := by
  intro fuel
  induction fuel with
  | zero => intro start _ j h1 h2; omega
  | succ fuel ih =>
    intro start h j hj1 hj2 r hjr
    unfold StridePrefetcher.scan at h
    cases hr : RPT[start]? with
    | none => simp [hr] at h
    | some row =>
      simp only [hr] at h
      by_cases hp : row.loadPC = loadPC
      · simp [hp] at h
      · simp only [hp, if_false] at h
        by_cases hjs : j = start
        · subst hjs
          rw [hr] at hjr
          cases hjr
          exact hp
        · exact ih (start + 1) h j (by omega) (by omega) r hjr

/-- The scan of the Stride table returns when the scanned range is inside the table. -/
theorem stride_scan_total (RPT : List RPTRow) (loadPC : Nat) :
    ∀ (fuel start : Nat), start + fuel ≤ RPT.length →
      ∃ r, StridePrefetcher.scan RPT loadPC fuel start = some r := by
  intro fuel
  induction fuel with
  | zero => intro start _; exact ⟨none, rfl⟩
  | succ fuel ih =>
    intro start h
    unfold StridePrefetcher.scan
    have hlt : start < RPT.length := by omega
    rw [List.getElem?_eq_getElem hlt]
    by_cases hp : RPT[start].loadPC = loadPC
    · exact ⟨some start, by simp [hp]⟩
    · obtain ⟨r, hr⟩ := ih (start + 1) (by omega)
      exact ⟨r, by simp [hp, hr]⟩

/-- Stride `prefetch` returns on a well-formed state, and never changes the table. -/
theorem stride_prefetch_total {C : Type} (ops : CacheOps C) (aggression blockSize : Nat)
    (s : StridePrefetcher) (g : Globals C) (addr loadPC : Nat) (h : s.WF) :
    ∃ s1 g1, s.prefetch ops aggression blockSize g addr loadPC = some (s1, g1) ∧
      s1.RPT = s.RPT ∧ s1.numberOfEntries = s.numberOfEntries := by
  obtain ⟨r, hr⟩ := stride_scan_total s.RPT loadPC s.numberOfEntries 0 (by
    have := h.1
    have := h.2
    omega)
  cases r with
  | none =>
    exact ⟨{ s with entryIdx := -1 }, g, by simp [StridePrefetcher.prefetch, hr], rfl, rfl⟩
  | some k =>
    obtain ⟨_, _, ⟨row, hrow, _⟩, _⟩ := stride_scan_some _ _ _ _ _ hr
    refine ⟨{ s with entryIdx := (k : Int) },
      (if (row.prev_addr + row.stride) % UINT64_RANGE = addr then
        if row.state = 2 then nextLinesLoop ops blockSize addr (loopCount aggression) 1 g else g
      else g), ?_, rfl, rfl⟩
    simp only [StridePrefetcher.prefetch, hr, hrow]

/-- Stride `prefetch` that leaves `entryIdx = -1` has found no live row with the key, and
has issued nothing. -/
theorem stride_prefetch_not_found {C : Type} (ops : CacheOps C) (aggression blockSize : Nat)
    (s s1 : StridePrefetcher) (g g1 : Globals C) (addr loadPC : Nat)
    (hp : s.prefetch ops aggression blockSize g addr loadPC = some (s1, g1))
    (hidx : s1.entryIdx = -1) :
    s1.RPT = s.RPT ∧ s1.numberOfEntries = s.numberOfEntries ∧ g1 = g ∧
      ∀ j, j < s.numberOfEntries → ∀ r, s.RPT[j]? = some r → r.loadPC ≠ loadPC := by
  unfold StridePrefetcher.prefetch at hp
  cases hr : StridePrefetcher.scan s.RPT loadPC s.numberOfEntries 0 with
  | none => simp [hr] at hp
  | some r =>
    cases r with
    | none =>
      simp only [hr, Option.some.injEq, Prod.mk.injEq] at hp
      obtain ⟨h1, h2⟩ := hp
      subst h1
      subst h2
      refine ⟨rfl, rfl, rfl, ?_⟩
      intro j hj r hjr
      exact stride_scan_none _ _ _ _ hr j (Nat.zero_le _) (by omega) r hjr
    | some k =>
      simp only [hr] at hp
      cases hrow : s.RPT[k]? with
      | none => simp [hrow] at hp
      | some row =>
        simp only [hrow, Option.some.injEq, Prod.mk.injEq] at hp
        obtain ⟨h1, _⟩ := hp
        subst h1
        simp only at hidx
        omega

/-- Stride `prefetch` that leaves `entryIdx` different from -1 has set it to the index of
the first live row with the key `loadPC`; it issues the next-lines loop when that row is
Steady and predicts `addr`, and nothing otherwise. -/
theorem stride_prefetch_found {C : Type} (ops : CacheOps C) (aggression blockSize : Nat)
    (s s1 : StridePrefetcher) (g g1 : Globals C) (addr loadPC : Nat)
    (hp : s.prefetch ops aggression blockSize g addr loadPC = some (s1, g1))
    (hidx : s1.entryIdx ≠ -1) :
    ∃ (k : Nat) (row : RPTRow), s1.entryIdx = (k : Int) ∧ s1.RPT = s.RPT ∧
      s1.numberOfEntries = s.numberOfEntries ∧ k < s.numberOfEntries ∧
      s.RPT[k]? = some row ∧ row.loadPC = loadPC ∧
      (∀ j, j < k → ∀ r, s.RPT[j]? = some r → r.loadPC ≠ loadPC) ∧
      g1 = (if (row.prev_addr + row.stride) % UINT64_RANGE = addr ∧ row.state = 2
        then nextLinesLoop ops blockSize addr (loopCount aggression) 1 g else g) := by
  unfold StridePrefetcher.prefetch at hp
  cases hr : StridePrefetcher.scan s.RPT loadPC s.numberOfEntries 0 with
  | none => simp [hr] at hp
  | some r =>
    cases r with
    | none =>
      simp only [hr, Option.some.injEq, Prod.mk.injEq] at hp
      obtain ⟨h1, _⟩ := hp
      subst h1
      exact absurd rfl hidx
    | some k =>
      simp only [hr] at hp
      obtain ⟨_, hk, ⟨row, hrow, hkey⟩, hbefore⟩ := stride_scan_some _ _ _ _ _ hr
      simp only [hrow, Option.some.injEq, Prod.mk.injEq] at hp
      obtain ⟨h1, h2⟩ := hp
      subst h1
      refine ⟨k, row, rfl, rfl, rfl, by omega, hrow, hkey,
        fun j hj r hjr => hbefore j (Nat.zero_le _) hj r hjr, ?_⟩
      rw [← h2]
      by_cases ha : (row.prev_addr + row.stride) % UINT64_RANGE = addr
      · by_cases hs : row.state = 2 <;> simp [ha, hs]
      · simp [ha]

/-- Closed form of Stride `train` on a found entry: row `k` is rewritten by the if-chain
of the source. -/
theorem stride_train_found (aggression blockSize : Nat) (s : StridePrefetcher)
    (addr loadPC rand k : Nat) (row : RPTRow) (hidx : s.entryIdx = (k : Int))
    (hrow : s.RPT[k]? = some row) :
    s.train aggression blockSize addr loadPC rand = some
      { s with RPT := s.RPT.set k (
        if row.state = 0 then
          if addr = (row.prev_addr + row.stride) % UINT64_RANGE then
            { row with state := 2, prev_addr := addr }
          else
            { row with state := 1, stride := u64sub addr row.prev_addr, prev_addr := addr }
        else if row.state = 1 then
          if addr = (row.prev_addr + row.stride) % UINT64_RANGE then
            { row with state := 2, prev_addr := addr }
          else
            { row with state := 3, stride := u64sub addr row.prev_addr, prev_addr := addr }
        else if row.state = 2 then
          if addr = (row.prev_addr + row.stride) % UINT64_RANGE then
            { row with prev_addr := (addr + fanOutOffset aggression blockSize) % UINT64_RANGE }
          else
            { row with state := 0, prev_addr := addr }
        else if row.state = 3 then
          if addr = (row.prev_addr + row.stride) % UINT64_RANGE then
            { row with state := 1, prev_addr := addr }
          else
            { row with stride := u64sub addr row.prev_addr, prev_addr := addr }
        else row) } := by
  have h1 : ¬ s.entryIdx = -1 := by omega
  have h2 : ¬ s.entryIdx < 0 := by omega
  have h3 : s.entryIdx.toNat = k := by omega
  simp only [StridePrefetcher.train, h1, h2, h3, hrow, if_false]

/-- The next-lines loop issues `Spec.issued` on its candidates, counts each fill in
`prefetches`, fills the cache with them in order, and changes nothing else. -/
theorem nextLinesLoop_spec {C : Type} (ops : CacheOps C) (blockSize addr : Nat) :
    ∀ (fuel i : Nat) (g : Globals C),
      (nextLinesLoop ops blockSize addr fuel i g).prefetchFillLineCalls =
          g.prefetchFillLineCalls ++
            Spec.issued ops g.cache (nextLineAddrs blockSize addr fuel i) ∧
        (nextLinesLoop ops blockSize addr fuel i g).prefetches =
          g.prefetches +
            (Spec.issued ops g.cache (nextLineAddrs blockSize addr fuel i)).length ∧
        (nextLinesLoop ops blockSize addr fuel i g).cache =
          (Spec.issued ops g.cache (nextLineAddrs blockSize addr fuel i)).foldl
            ops.prefetchFillLine g.cache ∧
        (nextLinesLoop ops blockSize addr fuel i g).loads = g.loads ∧
        (nextLinesLoop ops blockSize addr fuel i g).stores = g.stores ∧
        (nextLinesLoop ops blockSize addr fuel i g).hits = g.hits ∧
        (nextLinesLoop ops blockSize addr fuel i g).accesses = g.accesses := by
  intro fuel
  induction fuel with
  | zero =>
    intro i g
    simp [nextLinesLoop, nextLineAddrs, Spec.issued]
  | succ fuel ih =>
    intro i g
    by_cases he : ops.cacheExists g.cache
        ((addr + intMulToUInt64 (i : Int) (toInt32 blockSize)) % UINT64_RANGE) = true
    · have h := ih (i + 1) g
      simp only [nextLinesLoop, nextLineAddrs, Spec.issued, he, if_true, Bool.true_eq_false,
        if_false]
      exact h
    · have hf : ops.cacheExists g.cache
          ((addr + intMulToUInt64 (i : Int) (toInt32 blockSize)) % UINT64_RANGE) = false := by
        simpa using he
      have h := ih (i + 1)
        { g with
          cache := ops.prefetchFillLine g.cache
            ((addr + intMulToUInt64 (i : Int) (toInt32 blockSize)) % UINT64_RANGE)
          prefetches := g.prefetches + 1
          prefetchFillLineCalls :=
            g.prefetchFillLineCalls ++
              [(addr + intMulToUInt64 (i : Int) (toInt32 blockSize)) % UINT64_RANGE] }
      simp only [nextLinesLoop, nextLineAddrs, Spec.issued, hf, if_true, Bool.false_eq_true,
        if_false, List.length_cons, List.foldl_cons]
      dsimp only at h
      obtain ⟨h1, h2, h3, h4, h5, h6, h7⟩ := h
      refine ⟨?_, ?_, h3, h4, h5, h6, h7⟩
      · rw [h1]
        simp
      · rw [h2]
        omega

/-- Stride `train` after a `prefetch` that found an entry: it returns, and rewrites the
found row by the if-chain of the source, every other row unchanged. -/
theorem stride_found_then_train {C : Type} (ops : CacheOps C) (aggression blockSize : Nat)
    (s0 s : StridePrefetcher) (g g1 : Globals C) (addr loadPC rand : Nat)
    (hp : s0.prefetch ops aggression blockSize g addr loadPC = some (s, g1))
    (hfound : s.entryIdx ≠ -1) :
    ∃ (k : Nat) (row row1 : RPTRow) (s1 : StridePrefetcher), s.entryIdx = (k : Int) ∧
      k < s0.numberOfEntries ∧ s0.RPT[k]? = some row ∧ row.loadPC = loadPC ∧
      s.train aggression blockSize addr loadPC rand = some s1 ∧
      s1.RPT = s0.RPT.set k row1 ∧ s1.RPT[k]? = some row1 ∧
      s1.numberOfEntries = s0.numberOfEntries ∧
      row1 = (
        if row.state = 0 then
          if addr = (row.prev_addr + row.stride) % UINT64_RANGE then
            { row with state := 2, prev_addr := addr }
          else
            { row with state := 1, stride := u64sub addr row.prev_addr, prev_addr := addr }
        else if row.state = 1 then
          if addr = (row.prev_addr + row.stride) % UINT64_RANGE then
            { row with state := 2, prev_addr := addr }
          else
            { row with state := 3, stride := u64sub addr row.prev_addr, prev_addr := addr }
        else if row.state = 2 then
          if addr = (row.prev_addr + row.stride) % UINT64_RANGE then
            { row with prev_addr := (addr + fanOutOffset aggression blockSize) % UINT64_RANGE }
          else
            { row with state := 0, prev_addr := addr }
        else if row.state = 3 then
          if addr = (row.prev_addr + row.stride) % UINT64_RANGE then
            { row with state := 1, prev_addr := addr }
          else
            { row with stride := u64sub addr row.prev_addr, prev_addr := addr }
        else row) := by
  obtain ⟨k, row, hk, hrpt, hn, hlive, hrow, hkey, _, _⟩ :=
    stride_prefetch_found ops aggression blockSize s0 s g g1 addr loadPC hp hfound
  have hrow1 : s.RPT[k]? = some row := by rw [hrpt]; exact hrow
  refine ⟨k, row, _, _, hk, hlive, hrow, hkey,
    stride_train_found aggression blockSize s addr loadPC rand k row hk hrow1, ?_, ?_, hn, rfl⟩
  · simp only [hrpt]
  · simp only [hrpt]
    exact getElem?_set_self_of_some _ _ _ _ hrow

/-- Closed form of Stride `train` when no entry was found: the new entry is written into
the next free row while fewer than 64 rows are live, else into row `rand mod 64`. -/
theorem stride_train_insert (aggression blockSize : Nat) (s : StridePrefetcher)
    (addr loadPC rand : Nat) (h : s.WF) (hidx : s.entryIdx = -1) :
    s.train aggression blockSize addr loadPC rand = some
      { RPT := s.RPT.set (if s.numberOfEntries ≥ 64 then rand % 64 else s.numberOfEntries)
          { loadPC := loadPC, prev_addr := addr, stride := 0, state := 0 }
        numberOfEntries :=
          if s.numberOfEntries ≥ 64 then s.numberOfEntries else s.numberOfEntries + 1
        entryIdx := s.entryIdx } := by
  have hlt : (if s.numberOfEntries ≥ 64 then rand % 64 else s.numberOfEntries) <
      s.RPT.length := by
    rw [h.1]
    have := Nat.mod_lt rand (show 0 < 64 by decide)
    split <;> omega
  simp only [StridePrefetcher.train, hidx, if_true, hlt]

/-- Stride `train` keeps a well-formed state well-formed. -/
theorem stride_train_wf (aggression blockSize : Nat) (s s1 : StridePrefetcher)
    (addr loadPC rand : Nat) (h : s.WF)
    (ht : s.train aggression blockSize addr loadPC rand = some s1) : s1.WF := by
  by_cases h1 : s.entryIdx = -1
  · rw [stride_train_insert aggression blockSize s addr loadPC rand h h1] at ht
    cases ht
    refine ⟨by simp [h.1], ?_⟩
    have := h.2
    simp only
    split <;> omega
  · by_cases h2 : s.entryIdx < 0
    · simp [StridePrefetcher.train, h1, h2] at ht
    · have hk : s.entryIdx = ((s.entryIdx.toNat : Nat) : Int) := by omega
      cases hrow : s.RPT[s.entryIdx.toNat]? with
      | none => simp [StridePrefetcher.train, h1, h2, hrow] at ht
      | some row =>
        rw [stride_train_found aggression blockSize s addr loadPC rand _ row hk hrow] at ht
        cases ht
        exact ⟨by simp [h.1], h.2⟩

/-- For a register below a table size of at most `2 ^ 63`, the history update of the
source and the shift of the specification are both the doubled value plus the outcome bit
modulo the table size. -/
theorem history_update_mod (n old : Nat) (taken : Bool) (hn : n ≤ 2 ^ 63) (h : old < n) :
    (if (if taken = false then (old * 2) % UINT64_RANGE
          else ((old * 2) + 1) % UINT64_RANGE) ≥ n
      then (if taken = false then (old * 2) % UINT64_RANGE
          else ((old * 2) + 1) % UINT64_RANGE) - n
      else (if taken = false then (old * 2) % UINT64_RANGE
          else ((old * 2) + 1) % UINT64_RANGE)) =
      (2 * old + (if taken then 1 else 0)) % n ∧
    Spec.historyShift n old taken = (2 * old + (if taken then 1 else 0)) % n := by
  have hw : old * 2 + 1 < UINT64_RANGE := by
    have : (2 : Nat) ^ 64 = 2 * 2 ^ 63 := by norm_num
    simp only [UINT64_RANGE]
    omega
  have hb : (if taken then 1 else 0) < 2 := by split <;> omega
  have hs : Spec.historyShift n old taken = (2 * old + (if taken then 1 else 0)) % n := by
    simp only [Spec.historyShift]
    rw [cond_sub_eq_mod _ _ (by omega), Nat.mul_comm old 2]
  exact ⟨by rw [history_update_eq_spec _ _ _ hw, hs], hs⟩

/-- On a table of `2 ^ k` entries every Gshare `train` returns from a state satisfying the
invariant, because the xor of two values below `2 ^ k` is below `2 ^ k`. -/
theorem gshare_train_total_pow2 (k : Nat) (s : GshareBranchPredictor) (pc : Nat)
    (taken : Bool) (h : s.Inv (2 ^ k)) :
    (pc % s.bp_entries) ^^^ s.ghr < 2 ^ k ∧ (∃ b, s.getPrediction pc = some b) ∧
      ∃ s1, s.train pc taken = some s1 ∧ s1.Inv (2 ^ k) := by
  have hInv := h
  obtain ⟨hbp, hpl, hg, _⟩ := h
  have hpos : 0 < 2 ^ k := Nat.two_pow_pos _
  have hn : s.bp_entries ≠ 0 := by omega
  have hx : (pc % s.bp_entries) ^^^ s.ghr < 2 ^ k := by
    rw [hbp]
    exact Nat.xor_lt_two_pow (Nat.mod_lt _ hpos) hg
  have hidx : (pc % s.bp_entries) ^^^ s.ghr < s.pht_array.length := by rw [hpl]; exact hx
  have ht := gshare_train_eq s pc taken _ hn (List.getElem?_eq_getElem hidx)
  exact ⟨hx, ⟨_, gshare_getPrediction_eq s pc _ hn (List.getElem?_eq_getElem hidx)⟩,
    _, ht, gshare_train_inv _ s _ pc taken hInv ht⟩

/-- On a table of `2 ^ k` entries every sequence of Gshare `train` calls returns. -/
theorem gshare_trainAll_total_pow2 (k : Nat) (events : List (Nat × Bool)) :
    ∀ s : GshareBranchPredictor, s.Inv (2 ^ k) →
      ∃ s1, s.trainAll events = some s1 ∧ s1.Inv (2 ^ k) := by
  induction events with
  | nil => intro s h; exact ⟨s, rfl, h⟩
  | cons e rest ih =>
    intro s h
    obtain ⟨_, _, s1, h1, hi1⟩ := gshare_train_total_pow2 k s e.1 e.2 h
    obtain ⟨s2, h2, hi2⟩ := ih s1 hi1
    exact ⟨s2, by simp [GshareBranchPredictor.trainAll, h1, h2], hi2⟩

/-! ### Strided streams on the Stride prefetcher -/

/-- A sequence of misses can be split in two. -/
theorem stride_onMisses_append {C : Type} (ops : CacheOps C) (aggression blockSize : Nat)
    (l1 l2 : List (Nat × Nat × Nat)) :
    ∀ (s : StridePrefetcher) (g : Globals C),
      StridePrefetcher.onMisses ops aggression blockSize s g (l1 ++ l2) =
        match StridePrefetcher.onMisses ops aggression blockSize s g l1 with
        | none => none
        | some (s1, g1) => StridePrefetcher.onMisses ops aggression blockSize s1 g1 l2 := by
  induction l1 with
  | nil => intro s g; simp [StridePrefetcher.onMisses]
  | cons e rest ih =>
    intro s g
    simp only [List.cons_append, StridePrefetcher.onMisses]
    cases h : s.onMiss ops aggression blockSize g e.1 e.2.1 e.2.2 with
    | none => rfl
    | some r => exact ih r.1 r.2

/-- The first miss on the initial Stride state writes its entry into row 0. -/
theorem stride_onMiss_create {C : Type} (ops : CacheOps C) (aggression blockSize : Nat)
    (g : Globals C) (addr pc rand : Nat) :
    ∃ s1 g1, StridePrefetcher.create.onMiss ops aggression blockSize g addr pc rand =
        some (s1, g1) ∧
      s1.numberOfEntries = 1 ∧ s1.RPT.length = 64 ∧
      s1.RPT[0]? = some { loadPC := pc, prev_addr := addr, stride := 0, state := 0 } ∧
      g1 = { g with cache := ops.fillLine g.cache addr } :=
  ⟨_, _, rfl, rfl, rfl, rfl, rfl⟩

/-- A miss from the load PC of the only live row, row 0: the row is rewritten by the
if-chain of `train`, and the fan-out runs exactly when the row is Steady and predicts the
address. -/
theorem stride_onMiss_row0 {C : Type} (ops : CacheOps C) (aggression blockSize : Nat)
    (s : StridePrefetcher) (g : Globals C) (addr pc rand : Nat) (row : RPTRow)
    (hn : s.numberOfEntries = 1) (hlen : s.RPT.length = 64)
    (hrow : s.RPT[0]? = some row) (hkey : row.loadPC = pc) :
    ∃ s1 g1, s.onMiss ops aggression blockSize g addr pc rand = some (s1, g1) ∧
      s1.numberOfEntries = 1 ∧ s1.RPT.length = 64 ∧
      s1.RPT[0]? = some (StridePrefetcher.trainedRow aggression blockSize addr row) ∧
      g1 = (if (row.prev_addr + row.stride) % UINT64_RANGE = addr ∧ row.state = 2 then
          nextLinesLoop ops blockSize addr (loopCount aggression) 1
            { g with cache := ops.fillLine g.cache addr }
        else { g with cache := ops.fillLine g.cache addr }) := by
  have hwf : s.WF := ⟨hlen, by omega⟩
  obtain ⟨s', g', hp, _, _⟩ := stride_prefetch_total ops aggression blockSize s
    { g with cache := ops.fillLine g.cache addr } addr pc hwf
  have hidx : s'.entryIdx ≠ -1 := by
    intro h
    exact (stride_prefetch_not_found ops aggression blockSize s s' _ g' addr pc hp h).2.2.2
      0 (by omega) row hrow hkey
  obtain ⟨k, row', _, _, _, hk, hrow', _, _, hg'⟩ :=
    stride_prefetch_found ops aggression blockSize s s' _ g' addr pc hp hidx
  obtain ⟨k1, r1, row1, s1, _, hk1, hr1, _, ht, hset, hget, hn1, hrow1⟩ :=
    stride_found_then_train ops aggression blockSize s s' _ g' addr pc rand hp hidx
  have hk0 : k = 0 := by omega
  have hk10 : k1 = 0 := by omega
  subst hk0
  subst hk10
  rw [hrow] at hrow' hr1
  cases hrow'
  cases hr1
  refine ⟨s1, g', ?_, by omega, by rw [hset]; simp [hlen], ?_, hg'⟩
  · simp only [StridePrefetcher.onMiss, hp, ht]
  · rw [hget, hrow1]
    rfl

/-! ### Arithmetic of strided streams -/

theorem u64_range_eq : UINT64_RANGE = 18446744073709551616 := by
  norm_num [UINT64_RANGE]

theorem stream_pred_next (A S k : Nat) :
    ((A + k * S) % UINT64_RANGE + S % UINT64_RANGE) % UINT64_RANGE =
      (A + (k + 1) * S) % UINT64_RANGE := by
  rw [Nat.succ_mul, u64_range_eq]
  omega

theorem stream_pred_after_fanout (A S k ab : Nat) (hab : ab % UINT64_RANGE ≠ 0) :
    (((A + k * S) % UINT64_RANGE + ab) % UINT64_RANGE + S % UINT64_RANGE) % UINT64_RANGE ≠
      (A + (k + 1) * S) % UINT64_RANGE := by
  rw [Nat.succ_mul]
  rw [u64_range_eq] at hab ⊢
  omega

theorem stream_first_stride (A S : Nat) :
    u64sub ((A + 1 * S) % UINT64_RANGE) ((A + 0 * S) % UINT64_RANGE) = S % UINT64_RANGE := by
  simp only [u64sub, Nat.zero_mul, Nat.one_mul, Nat.add_zero]
  rw [u64_range_eq]
  omega

theorem stream_first_wrong (A S : Nat) (hS : S % UINT64_RANGE ≠ 0) :
    (A + 1 * S) % UINT64_RANGE ≠ ((A + 0 * S) % UINT64_RANGE + 0) % UINT64_RANGE := by
  simp only [Nat.zero_mul, Nat.one_mul, Nat.add_zero]
  rw [u64_range_eq] at hS ⊢
  omega

theorem stream_first_right (A S : Nat) (hS : S % UINT64_RANGE = 0) :
    (A + 1 * S) % UINT64_RANGE = ((A + 0 * S) % UINT64_RANGE + 0) % UINT64_RANGE ∧
    (A + 2 * S) % UINT64_RANGE = ((A + 1 * S) % UINT64_RANGE + 0) % UINT64_RANGE := by
  simp only [Nat.zero_mul, Nat.one_mul, Nat.add_zero]
  rw [u64_range_eq] at hS ⊢
  omega

theorem trainedRow_loadPC (aggression blockSize addr : Nat) (row : RPTRow) :
    (StridePrefetcher.trainedRow aggression blockSize addr row).loadPC = row.loadPC := by
  unfold StridePrefetcher.trainedRow
  split_ifs <;> rfl

theorem trainedRow_initial_right (aggression blockSize addr : Nat) (row : RPTRow)
    (hs : row.state = 0) (hc : addr = (row.prev_addr + row.stride) % UINT64_RANGE) :
    StridePrefetcher.trainedRow aggression blockSize addr row =
      { row with state := 2, prev_addr := addr } := by
  unfold StridePrefetcher.trainedRow
  rw [if_pos hs, if_pos hc]

theorem trainedRow_initial_wrong (aggression blockSize addr : Nat) (row : RPTRow)
    (hs : row.state = 0) (hc : addr ≠ (row.prev_addr + row.stride) % UINT64_RANGE) :
    StridePrefetcher.trainedRow aggression blockSize addr row =
      { row with state := 1, stride := u64sub addr row.prev_addr, prev_addr := addr } := by
  unfold StridePrefetcher.trainedRow
  rw [if_pos hs, if_neg hc]

theorem trainedRow_transient_right (aggression blockSize addr : Nat) (row : RPTRow)
    (hs : row.state = 1) (hc : addr = (row.prev_addr + row.stride) % UINT64_RANGE) :
    StridePrefetcher.trainedRow aggression blockSize addr row =
      { row with state := 2, prev_addr := addr } := by
  unfold StridePrefetcher.trainedRow
  rw [if_neg (by omega), if_pos hs, if_pos hc]

theorem trainedRow_steady_right (aggression blockSize addr : Nat) (row : RPTRow)
    (hs : row.state = 2) (hc : addr = (row.prev_addr + row.stride) % UINT64_RANGE) :
    StridePrefetcher.trainedRow aggression blockSize addr row =
      { row with prev_addr := (addr + fanOutOffset aggression blockSize) % UINT64_RANGE } := by
  unfold StridePrefetcher.trainedRow
  rw [if_neg (by omega), if_neg (by omega), if_pos hs, if_pos hc]

theorem trainedRow_steady_wrong (aggression blockSize addr : Nat) (row : RPTRow)
    (hs : row.state = 2) (hc : addr ≠ (row.prev_addr + row.stride) % UINT64_RANGE) :
    StridePrefetcher.trainedRow aggression blockSize addr row =
      { row with state := 0, prev_addr := addr } := by
  unfold StridePrefetcher.trainedRow
  rw [if_neg (by omega), if_neg (by omega), if_pos hs, if_neg hc]

/-- The first three misses of a strided stream from one load PC leave the only live row,
row 0, Steady; when the stride is not 0 the row holds the third address and the stride. -/
theorem stride_first_three {C : Type} (ops : CacheOps C) (aggression blockSize : Nat)
    (g : Globals C) (A S pc r0 r1 r2 : Nat) :
    ∃ s g1 row, StridePrefetcher.onMisses ops aggression blockSize StridePrefetcher.create g
        [((A + 0 * S) % UINT64_RANGE, pc, r0), ((A + 1 * S) % UINT64_RANGE, pc, r1),
          ((A + 2 * S) % UINT64_RANGE, pc, r2)] = some (s, g1) ∧
      s.numberOfEntries = 1 ∧ s.RPT.length = 64 ∧ s.RPT[0]? = some row ∧
      row.loadPC = pc ∧ row.state = 2 ∧
      (S % UINT64_RANGE ≠ 0 →
        row = { loadPC := pc, prev_addr := (A + 2 * S) % UINT64_RANGE
                stride := S % UINT64_RANGE, state := 2 }) := by
  obtain ⟨s1, g1, h1, n1, l1, w1, _⟩ :=
    stride_onMiss_create ops aggression blockSize g ((A + 0 * S) % UINT64_RANGE) pc r0
  obtain ⟨s2, g2, h2, n2, l2, w2, _⟩ := stride_onMiss_row0 ops aggression blockSize s1 g1
    ((A + 1 * S) % UINT64_RANGE) pc r1 _ n1 l1 w1 rfl
  obtain ⟨s3, g3, h3, n3, l3, w3, _⟩ := stride_onMiss_row0 ops aggression blockSize s2 g2
    ((A + 2 * S) % UINT64_RANGE) pc r2 _ n2 l2 w2 (trainedRow_loadPC _ _ _ _)
  have hall : StridePrefetcher.onMisses ops aggression blockSize
      StridePrefetcher.create g
      [((A + 0 * S) % UINT64_RANGE, pc, r0), ((A + 1 * S) % UINT64_RANGE, pc, r1),
        ((A + 2 * S) % UINT64_RANGE, pc, r2)] = some (s3, g3) := by
    simp only [StridePrefetcher.onMisses, h1, h2, h3]
  by_cases hS : S % UINT64_RANGE = 0
  · obtain ⟨e1, e2⟩ := stream_first_right A S hS
    rw [trainedRow_initial_right aggression blockSize ((A + 1 * S) % UINT64_RANGE)
        { loadPC := pc, prev_addr := (A + 0 * S) % UINT64_RANGE, stride := 0, state := 0 }
        rfl e1,
      trainedRow_steady_right _ _ _ _ rfl e2] at w3
    exact ⟨s3, g3, _, hall, n3, l3, w3, rfl, rfl, fun h => absurd hS h⟩
  · have e1 := stream_first_wrong A S hS
    have e2 : (A + 2 * S) % UINT64_RANGE =
        ((A + 1 * S) % UINT64_RANGE +
          u64sub ((A + 1 * S) % UINT64_RANGE) ((A + 0 * S) % UINT64_RANGE)) %
            UINT64_RANGE := by
      rw [stream_first_stride, stream_pred_next]
    rw [trainedRow_initial_wrong aggression blockSize ((A + 1 * S) % UINT64_RANGE)
        { loadPC := pc, prev_addr := (A + 0 * S) % UINT64_RANGE, stride := 0, state := 0 }
        rfl e1,
      trainedRow_transient_right _ _ _ _ rfl e2] at w3
    refine ⟨s3, g3, _, hall, n3, l3, w3, rfl, rfl, ?_⟩
    intro _
    simp only [stream_first_stride]

theorem strideStream_succ (A S pc : Nat) (rand : Nat → Nat) (n : Nat) :
    Spec.strideStream A S pc rand (n + 1) =
      Spec.strideStream A S pc rand n ++ [((A + n * S) % UINT64_RANGE, pc, rand n)] := by
  simp [Spec.strideStream, List.range_succ]

theorem strideStream_three (A S pc : Nat) (rand : Nat → Nat) :
    Spec.strideStream A S pc rand 3 =
      [((A + 0 * S) % UINT64_RANGE, pc, rand 0), ((A + 1 * S) % UINT64_RANGE, pc, rand 1),
        ((A + 2 * S) % UINT64_RANGE, pc, rand 2)] := by
  rfl

/-- The only live row after the first `m + 3` misses of a strided stream with stride and
fan-out distance different from 0: Steady on the stream, then Steady but moved ahead by
`aggression*blockSize`, then Initial, and so on with period 3. -/
theorem stride_stream_row {C : Type} (ops : CacheOps C) (aggression blockSize : Nat)
    (g : Globals C) (A S pc : Nat) (rand : Nat → Nat) (hS : S % UINT64_RANGE ≠ 0)
    (hab : (fanOutOffset aggression blockSize) % UINT64_RANGE ≠ 0) :
    ∀ m : Nat, ∃ s g1,
      StridePrefetcher.onMisses ops aggression blockSize StridePrefetcher.create g
        (Spec.strideStream A S pc rand (m + 3)) = some (s, g1) ∧
      s.numberOfEntries = 1 ∧ s.RPT.length = 64 ∧
      s.RPT[0]? = some
        (if m % 3 = 0 then
          { loadPC := pc, prev_addr := (A + (m + 2) * S) % UINT64_RANGE
            stride := S % UINT64_RANGE, state := 2 }
        else if m % 3 = 1 then
          { loadPC := pc
            prev_addr := ((A + (m + 2) * S) % UINT64_RANGE +
              fanOutOffset aggression blockSize) % UINT64_RANGE
            stride := S % UINT64_RANGE, state := 2 }
        else
          { loadPC := pc, prev_addr := (A + (m + 2) * S) % UINT64_RANGE
            stride := S % UINT64_RANGE, state := 0 }) := by
  intro m
  induction m with
  | zero =>
    obtain ⟨s, g1, row, h, hn, hl, hr, _, _, hrow⟩ :=
      stride_first_three ops aggression blockSize g A S pc (rand 0) (rand 1) (rand 2)
    rw [hrow hS] at hr
    exact ⟨s, g1, by rw [strideStream_three]; exact h, hn, hl, hr⟩
  | succ m ih =>
    obtain ⟨s, g1, h, hn, hl, hr⟩ := ih
    obtain ⟨s2, g2, h2, hn2, hl2, hr2, _⟩ := stride_onMiss_row0 ops aggression blockSize s g1
      ((A + (m + 3) * S) % UINT64_RANGE) pc (rand (m + 3)) _ hn hl hr
      (by split_ifs <;> rfl)
    refine ⟨s2, g2, ?_, hn2, hl2, ?_⟩
    · rw [show m + 1 + 3 = (m + 3) + 1 from rfl, strideStream_succ, stride_onMisses_append, h]
      simp only [StridePrefetcher.onMisses, h2]
    · rw [hr2]
      have hnext := stream_pred_next A S (m + 2)
      have hmiss :=
        stream_pred_after_fanout A S (m + 2) (fanOutOffset aggression blockSize) hab
      have h3 : m % 3 = 0 ∨ m % 3 = 1 ∨ m % 3 = 2 := by omega
      rcases h3 with h3 | h3 | h3
      · have h4 : (m + 1) % 3 = 1 := by omega
        simp only [h3, h4, if_true, if_false, Nat.one_ne_zero]
        rw [trainedRow_steady_right aggression blockSize _ _ rfl hnext.symm]
      · have h4 : (m + 1) % 3 = 2 := by omega
        simp only [h3, h4, if_true, if_false, Nat.one_ne_zero]
        rw [trainedRow_steady_wrong aggression blockSize ((A + (m + 3) * S) % UINT64_RANGE)
          { loadPC := pc
            prev_addr := ((A + (m + 2) * S) % UINT64_RANGE +
              fanOutOffset aggression blockSize) % UINT64_RANGE
            stride := S % UINT64_RANGE, state := 2 } rfl (Ne.symm hmiss)]
        simp
      · have h4 : (m + 1) % 3 = 0 := by omega
        simp only [h3, h4, if_true, if_false]
        rw [trainedRow_initial_right aggression blockSize _ _ rfl hnext.symm]
        simp

/-! ### Products of `int`s -/

theorem toInt32_eq_self (z : Int) (h1 : -2147483648 ≤ z) (h2 : z ≤ 2147483647) :
    toInt32 z = z := by
  unfold toInt32
  omega

theorem toInt32_bounds (z : Int) : -2147483648 ≤ toInt32 z ∧ toInt32 z ≤ 2147483647 := by
  unfold toInt32
  omega

theorem toInt32_ofNat (n : Nat) (h : n < 2147483648) : toInt32 (n : Int) = (n : Int) := by
  unfold toInt32
  omega

theorem loopCount_of_lt (aggression : Nat) (h : aggression < 2147483648) :
    loopCount aggression = aggression := by
  unfold loopCount
  rw [toInt32_ofNat aggression h]
  rfl

theorem intToUInt64_add (a : Nat) (p : Int) :
    (a + intToUInt64 p) % UINT64_RANGE = intToUInt64 ((a : Int) + p) := by
  unfold intToUInt64
  rw [u64_range_eq]
  omega

theorem intToUInt64_natCast (n : Nat) : intToUInt64 (n : Int) = n % UINT64_RANGE := by
  unfold intToUInt64
  rw [u64_range_eq]
  omega

theorem intToUInt64_ne_zero (p : Int) (h1 : -2147483648 ≤ p) (h2 : p ≤ 2147483647)
    (h0 : p ≠ 0) : intToUInt64 p % UINT64_RANGE ≠ 0 := by
  unfold intToUInt64
  rw [u64_range_eq]
  omega

/-- When the product with the larger factor fits in an `int`, so does the product with a
smaller non-negative factor. -/
theorem intProductFits_mono (i n : Nat) (b : Int) (hi : i ≤ n)
    (h : Spec.intProductFits (n : Int) b) : Spec.intProductFits (i : Int) b := by
  unfold Spec.intProductFits at h ⊢
  have hin : (i : Int) ≤ (n : Int) := Int.ofNat_le.mpr hi
  have hi0 : (0 : Int) ≤ (i : Int) := Int.ofNat_nonneg i
  rcases Int.le_total 0 b with hb | hb
  · have h1 : (i : Int) * b ≤ (n : Int) * b := Int.mul_le_mul_of_nonneg_right hin hb
    have h2 : 0 ≤ (i : Int) * b := Int.mul_nonneg hi0 hb
    omega
  · have h1 : (n : Int) * b ≤ (i : Int) * b := Int.mul_le_mul_of_nonpos_right hin hb
    have h2 : (i : Int) * b ≤ 0 := Int.mul_nonpos_of_nonneg_of_nonpos hi0 hb
    omega

/-- The products of the loop fit when the product `aggression * blockSize` of the two
globals does. -/
theorem intProductFits_loopCount (aggression blockSize : Nat)
    (h : Spec.intProductFits (toInt32 aggression) (toInt32 blockSize)) :
    Spec.intProductFits (loopCount aggression : Int) (toInt32 blockSize) := by
  unfold loopCount
  rcases Int.le_total 0 (toInt32 aggression) with h0 | h0
  · rw [Int.toNat_of_nonneg h0]
    exact h
  · rw [Int.toNat_eq_zero.mpr h0]
    unfold Spec.intProductFits
    simp

/-- A product of `int`s that does not overflow is added to the address as the integer
product. -/
theorem add_intMulToUInt64 (addr : Nat) (a b : Int) (h : Spec.intProductFits a b) :
    (addr + intMulToUInt64 a b) % UINT64_RANGE = intToUInt64 ((addr : Int) + a * b) := by
  unfold intMulToUInt64
  rw [toInt32_eq_self _ h.1 h.2, intToUInt64_add]

/-- Without overflow of the products, the addresses that the loop computes are the
addresses `addr + i*blockSize`. -/
theorem nextLineAddrs_eq_candidates (blockSize addr : Nat) :
    ∀ (count first : Nat),
      Spec.intProductFits ((first + count - 1 : Nat) : Int) (toInt32 blockSize) →
      nextLineAddrs blockSize addr count first =
        Spec.candidates (toInt32 blockSize) addr count first := by
  intro count
  induction count with
  | zero => intro first _; rfl
  | succ count ih =>
    intro first h
    have hf : Spec.intProductFits (first : Int) (toInt32 blockSize) :=
      intProductFits_mono first (first + (count + 1) - 1) _ (by omega) h
    have hrest : Spec.intProductFits ((first + 1 + count - 1 : Nat) : Int)
        (toInt32 blockSize) := by
      have he : first + 1 + count - 1 = first + (count + 1) - 1 := by omega
      rw [he]
      exact h
    simp only [nextLineAddrs, Spec.candidates]
    rw [add_intMulToUInt64 addr _ _ hf, ih (first + 1) hrest]

theorem candidates_length (blockSize : Int) (addr : Nat) :
    ∀ (count first : Nat), (Spec.candidates blockSize addr count first).length = count := by
  intro count
  induction count with
  | zero => intro first; rfl
  | succ count ih => intro first; simp [Spec.candidates, ih]

theorem candidates_getElem? (blockSize : Int) (addr : Nat) :
    ∀ (count first j : Nat), j < count →
      (Spec.candidates blockSize addr count first)[j]? =
        some (intToUInt64 ((addr : Int) + ((first + j : Nat) : Int) * blockSize)) := by
  intro count
  induction count with
  | zero => intro first j h; omega
  | succ count ih =>
    intro first j h
    cases j with
    | zero => simp [Spec.candidates]
    | succ j =>
      simp only [Spec.candidates, List.getElem?_cons_succ]
      rw [ih (first + 1) j (by omega)]
      have hsum : first + 1 + j = first + (j + 1) := by omega
      rw [hsum]

/-- For a block-size knob below `2 ^ 31` the address `addr + i*blockSize` is the sum of
natural numbers modulo `2 ^ 64`. -/
theorem candidate_of_knob (blockSize addr i : Nat) (hb : blockSize < 2147483648) :
    intToUInt64 ((addr : Int) + (i : Int) * toInt32 (blockSize : Int)) =
      (addr + i * blockSize) % UINT64_RANGE := by
  rw [toInt32_ofNat blockSize hb]
  have : ((addr + i * blockSize : Nat) : Int) =
      (addr : Int) + (i : Int) * (blockSize : Int) := by
    push_cast
    rfl
  rw [← this, intToUInt64_natCast]

theorem loop_fits_from_one (aggression blockSize : Nat)
    (h : Spec.intProductFits (loopCount aggression : Int) (toInt32 blockSize)) :
    Spec.intProductFits ((1 + loopCount aggression - 1 : Nat) : Int) (toInt32 blockSize) := by
  have he : 1 + loopCount aggression - 1 = loopCount aggression := by omega
  rw [he]
  exact h

/-- For knob values below `2 ^ 31` whose product is below `2 ^ 31`, the loop runs
`aggression` times over the addresses `(addr + i * blockSize) mod 2 ^ 64` and the Steady
update of `train` adds `aggression * blockSize`. -/
theorem knobs_below_int_max (aggression blockSize addr : Nat) (ha : aggression < 2147483648)
    (hb : blockSize < 2147483648) (hab : aggression * blockSize < 2147483648) :
    loopCount aggression = aggression ∧ toInt32 (blockSize : Int) = (blockSize : Int) ∧
      Spec.intProductFits (toInt32 aggression) (toInt32 blockSize) ∧
      (∀ i : Nat, intToUInt64 ((addr : Int) + (i : Int) * toInt32 (blockSize : Int)) =
        (addr + i * blockSize) % UINT64_RANGE) ∧
      intToUInt64 ((addr : Int) + toInt32 aggression * toInt32 blockSize) =
        (addr + aggression * blockSize) % UINT64_RANGE := by
  have h1 := toInt32_ofNat aggression ha
  have h2 := toInt32_ofNat blockSize hb
  refine ⟨loopCount_of_lt aggression ha, h2, ?_, ?_, ?_⟩
  · rw [h1, h2]
    unfold Spec.intProductFits
    have : ((aggression * blockSize : Nat) : Int) = (aggression : Int) * (blockSize : Int) :=
      Int.ofNat_mul _ _
    omega
  · intro i
    rw [h2]
    have : ((addr + i * blockSize : Nat) : Int) =
        (addr : Int) + (i : Int) * (blockSize : Int) := by
      push_cast
      rfl
    rw [← this, intToUInt64_natCast]
  · rw [h1, h2]
    have : ((addr + aggression * blockSize : Nat) : Int) =
        (addr : Int) + (aggression : Int) * (blockSize : Int) := by
      push_cast
      rfl
    rw [← this, intToUInt64_natCast]

/-! ### The Distance prefetcher -/

/-- What `Spec.fillAll` does to the globals: it issues `Spec.issued`, counts each fill,
fills the cache in order and changes nothing else. -/
theorem fillAll_spec {C : Type} (ops : CacheOps C) :
    ∀ (l : List Nat) (g : Globals C),
      (Spec.fillAll ops g l).prefetchFillLineCalls =
          g.prefetchFillLineCalls ++ Spec.issued ops g.cache l ∧
        (Spec.fillAll ops g l).prefetches = g.prefetches + (Spec.issued ops g.cache l).length ∧
        (Spec.fillAll ops g l).cache = (Spec.issued ops g.cache l).foldl
          ops.prefetchFillLine g.cache ∧
        (Spec.fillAll ops g l).loads = g.loads ∧
        (Spec.fillAll ops g l).stores = g.stores ∧
        (Spec.fillAll ops g l).hits = g.hits ∧
        (Spec.fillAll ops g l).accesses = g.accesses := by
  intro l
  induction l with
  | nil => intro g; simp [Spec.fillAll, Spec.issued]
  | cons a rest ih =>
    intro g
    by_cases he : ops.cacheExists g.cache a = true
    · have h := ih g
      simp only [Spec.fillAll, Spec.issued, he, if_true]
      exact h
    · have h := ih
        { g with
          cache := ops.prefetchFillLine g.cache a
          prefetches := g.prefetches + 1
          prefetchFillLineCalls := g.prefetchFillLineCalls ++ [a] }
      have hf : ops.cacheExists g.cache a = false := by simpa using he
      simp only [Spec.fillAll, Spec.issued, hf, Bool.false_eq_true, if_false,
        List.length_cons, List.foldl_cons]
      dsimp only at h
      obtain ⟨h1, h2, h3, h4, h5, h6, h7⟩ := h
      refine ⟨?_, ?_, h3, h4, h5, h6, h7⟩
      · rw [h1]
        simp
      · rw [h2]
        omega

theorem fillAll_append {C : Type} (ops : CacheOps C) (l1 l2 : List Nat) :
    ∀ g : Globals C,
      Spec.fillAll ops g (l1 ++ l2) = Spec.fillAll ops (Spec.fillAll ops g l1) l2 := by
  induction l1 with
  | nil => intro g; rfl
  | cons a rest ih =>
    intro g
    by_cases he : ops.cacheExists g.cache a = true
    · simp only [List.cons_append, Spec.fillAll, he, if_true]
      exact ih g
    · have hf : ops.cacheExists g.cache a = false := by simpa using he
      simp only [List.cons_append, Spec.fillAll, hf, Bool.false_eq_true, if_false]
      exact ih _

/-- The inner loop of Distance `prefetch` on slots that are inside the row takes the
targets of these slots in order. -/
theorem distance_prefetchRow_eq {C : Type} (ops : CacheOps C) (addr : Nat)
    (row : List Nat) :
    ∀ (fuel i : Nat) (g : Globals C), i + fuel ≤ row.length →
      DistancePrefetcher.prefetchRow ops addr row fuel i g =
        some (Spec.fillAll ops g
          ((((row.drop i).take fuel).filter (fun d => decide (d ≠ 0))).map
            fun d => (addr + d) % UINT64_RANGE)) := by
  intro fuel
  induction fuel with
  | zero => intro i g _; simp [DistancePrefetcher.prefetchRow, Spec.fillAll]
  | succ fuel ih =>
    intro i g h
    have hlt : i < row.length := by omega
    rw [DistancePrefetcher.prefetchRow, List.getElem?_eq_getElem hlt,
      List.drop_eq_getElem_cons hlt, List.take_succ_cons]
    simp only
    rw [ih (i + 1) _ (by omega)]
    by_cases hd : row[i] = 0
    · simp [hd, List.filter_cons]
    · by_cases he : ops.cacheExists g.cache ((addr + row[i]) % UINT64_RANGE) = true
      · simp [hd, he, List.filter_cons, Spec.fillAll]
      · simp [hd, he, List.filter_cons, Spec.fillAll]

/-- The outer loop of Distance `prefetch` on rows that are inside the table and have their
slots: `entryFound` becomes true when one of the rows is keyed by `new_dist`, and the
targets of the keyed rows are taken in order. -/
theorem distance_prefetchScan_eq {C : Type} (ops : CacheOps C) (aggression addr : Nat)
    (RPT : List (List Nat)) (new_dist : Nat) :
    ∀ (fuel k : Nat) (found : Bool) (g : Globals C), k + fuel ≤ RPT.length →
      (∀ j, k ≤ j → j < k + fuel → ∀ row, RPT[j]? = some row →
        row.length = aggression + 1) →
      DistancePrefetcher.prefetchScan ops aggression addr RPT new_dist fuel k found g =
        some (found || ((RPT.drop k).take fuel).any
            (fun row => decide (row[0]? = some new_dist)),
          Spec.fillAll ops g
            (Spec.distanceTargets aggression addr new_dist ((RPT.drop k).take fuel))) := by
  intro fuel
  induction fuel with
  | zero =>
    intro k found g _ _
    simp [DistancePrefetcher.prefetchScan, Spec.distanceTargets, Spec.fillAll]
  | succ fuel ih =>
    intro k found g h hrows
    have hlt : k < RPT.length := by omega
    have hlen : RPT[k].length = aggression + 1 :=
      hrows k (Nat.le_refl _) (by omega) _ (List.getElem?_eq_getElem hlt)
    have h0 : 0 < RPT[k].length := by omega
    rw [DistancePrefetcher.prefetchScan, List.getElem?_eq_getElem hlt,
      List.drop_eq_getElem_cons hlt, List.take_succ_cons]
    simp only [List.getElem?_eq_getElem h0]
    have hrest := fun (f : Bool) (g1 : Globals C) => ih (k + 1) f g1 (by omega)
      (fun j hj1 hj2 row hr => hrows j (by omega) (by omega) row hr)
    by_cases hkey : RPT[k][0] = new_dist
    · rw [if_pos hkey, distance_prefetchRow_eq ops addr RPT[k] aggression 1 g (by omega)]
      simp only []
      rw [hrest]
      simp [Spec.distanceTargets, List.filter_cons, hkey, fillAll_append, Spec.rowTargets,
        List.getElem?_eq_getElem h0]
    · rw [if_neg hkey, hrest]
      simp [Spec.distanceTargets, List.filter_cons, hkey, List.getElem?_eq_getElem h0]

theorem filter_eq_singleton_of_unique {α : Type} (p : α → Bool) :
    ∀ (l : List α) (k : Nat) (x : α), l[k]? = some x → p x = true →
      (∀ j y, j ≠ k → l[j]? = some y → p y = false) → l.filter p = [x] := by
  intro l
  induction l with
  | nil => intro k x h; simp at h
  | cons a rest ih =>
    intro k x h hp hothers
    cases k with
    | zero =>
      simp only [List.getElem?_cons_zero, Option.some.injEq] at h
      subst h
      have hrest : rest.filter p = [] := by
        rw [List.filter_eq_nil_iff]
        intro y hy
        obtain ⟨j, hj⟩ := List.mem_iff_getElem?.mp hy
        have := hothers (j + 1) y (by omega) (by simpa using hj)
        simp [this]
      simp [List.filter_cons, hp, hrest]
    | succ k =>
      simp only [List.getElem?_cons_succ] at h
      have ha : p a = false := hothers 0 a (by omega) (by simp)
      have := ih k x h hp (fun j y hj hy =>
        hothers (j + 1) y (by omega) (by simpa using hy))
      simp [List.filter_cons, ha, this]

theorem getElem?_take_some {α : Type} (l : List α) (n j : Nat) (y : α) :
    (l.take n)[j]? = some y ↔ j < n ∧ l[j]? = some y := by
  rw [List.getElem?_take]
  by_cases h : j < n <;> simp [h]

/-- Distance `prefetch` on a well-formed state: it returns, changes only `entryFound`, and
takes the targets of the live rows keyed by the new distance. -/
theorem distance_prefetch_eq {C : Type} (ops : CacheOps C) (aggression : Nat)
    (s : DistancePrefetcher) (g : Globals C) (addr pc : Nat) (hwf : s.WF aggression) :
    s.prefetch ops aggression g addr pc = some
      ({ s with entryFound := ((s.RPT.take s.numberOfEntries).any
          (fun row => decide (row[0]? = some (u64sub addr s.prev_addr)))) },
        Spec.fillAll ops g (Spec.distanceTargets aggression addr (u64sub addr s.prev_addr)
          (s.RPT.take s.numberOfEntries))) := by
  obtain ⟨hlen, hn, hrows⟩ := hwf
  have h := distance_prefetchScan_eq ops aggression addr s.RPT (u64sub addr s.prev_addr)
    s.numberOfEntries 0 false g (by omega)
    (fun j _ hj row hr => hrows j (by omega) row hr)
  simp only [DistancePrefetcher.prefetch, h, List.drop_zero, Bool.false_or]


theorem distance_firstEmpty_eq (row : List Nat) :
    ∀ (fuel i : Nat), i + fuel ≤ row.length →
      DistancePrefetcher.firstEmpty row fuel i =
        some ((List.range' i fuel).find? (fun j => decide (row[j]? = some 0))) := by
  intro fuel
  induction fuel with
  | zero => intro i _; simp [DistancePrefetcher.firstEmpty]
  | succ fuel ih =>
    intro i hi
    have hlt : i < row.length := by omega
    have hget : row[i]? = some row[i] := List.getElem?_eq_getElem hlt
    by_cases hd : row[i] = 0
    · simp [DistancePrefetcher.firstEmpty, hget, hd, List.range'_succ, List.find?_cons]
    · rw [DistancePrefetcher.firstEmpty]
      simp only [hget, hd, if_false]
      rw [ih (i + 1) (by omega)]
      simp [List.range'_succ, List.find?_cons, hget, hd]

theorem firstEmptySlot_bounds (aggression : Nat) (row : List Nat) (i : Nat)
    (h : Spec.firstEmptySlot aggression row = some i) :
    1 ≤ i ∧ i ≤ aggression ∧ row[i]? = some 0 := by
  unfold Spec.firstEmptySlot at h
  have hmem := List.mem_of_find?_eq_some h
  have hp := List.find?_some h
  rw [List.mem_range'_1] at hmem
  refine ⟨hmem.1, by omega, by simpa using hp⟩

theorem firstEmptySlot_none (aggression : Nat) (row : List Nat)
    (h : Spec.firstEmptySlot aggression row = none) :
    ∀ i, 1 ≤ i → i ≤ aggression → row[i]? ≠ some 0 := by
  unfold Spec.firstEmptySlot at h
  rw [List.find?_eq_none] at h
  intro i h1 h2
  have := h i (by rw [List.mem_range'_1]; omega)
  simpa using this

theorem firstEmptySlot_first (aggression : Nat) (row : List Nat) (i : Nat)
    (h : Spec.firstEmptySlot aggression row = some i) :
    ∀ j, 1 ≤ j → j < i → row[j]? ≠ some 0 := by
  unfold Spec.firstEmptySlot at h
  rw [List.find?_range'_eq_some] at h
  intro j h1 h2
  simpa using h.2.2 j h1 h2

theorem learnDistance_length (aggression new_dist rand : Nat) (row : List Nat) :
    (Spec.learnDistance aggression new_dist rand row).length = row.length := by
  unfold Spec.learnDistance
  cases Spec.firstEmptySlot aggression row <;> simp

theorem learnDistance_key (aggression new_dist rand : Nat) (row : List Nat) :
    (Spec.learnDistance aggression new_dist rand row)[0]? = row[0]? := by
  unfold Spec.learnDistance
  cases h : Spec.firstEmptySlot aggression row with
  | none => simp [List.getElem?_set]
  | some i =>
    have := (firstEmptySlot_bounds aggression row i h).1
    simp only [List.getElem?_set]
    rw [if_neg (by omega)]

theorem distance_updateRow_eq (aggression new_dist rand : Nat) (row : List Nat)
    (ha : 1 ≤ aggression) (hlen : row.length = aggression + 1) :
    DistancePrefetcher.updateRow aggression new_dist rand row =
      some (Spec.learnDistance aggression new_dist rand row) := by
  have hfe := distance_firstEmpty_eq row aggression 1 (by omega)
  have hidx : DistancePrefetcher.indexToReplace aggression rand < row.length := by
    have := Nat.mod_lt rand (show 0 < aggression by omega)
    unfold DistancePrefetcher.indexToReplace
    omega
  unfold DistancePrefetcher.updateRow Spec.learnDistance
  rw [hfe]
  change (match some (Spec.firstEmptySlot aggression row) with
    | none => none
    | some (some i) => some (row.set i new_dist)
    | some none => _) = _
  cases Spec.firstEmptySlot aggression row with
  | some i => rfl
  | none =>
    simp only [show aggression ≠ 0 by omega, if_false, hidx, if_true]
    rfl


theorem distance_trainScan_spec (aggression new_dist prev_dist : Nat) (rand : Nat → Nat)
    (ha : 1 ≤ aggression) :
    ∀ (fuel k : Nat) (RPT : List (List Nat)), k + fuel ≤ RPT.length →
      (∀ j, k ≤ j → j < k + fuel → ∀ row, RPT[j]? = some row →
        row.length = aggression + 1) →
      ∃ RPT1, DistancePrefetcher.trainScan aggression new_dist prev_dist rand fuel k RPT =
          some RPT1 ∧ RPT1.length = RPT.length ∧
        ∀ j, RPT1[j]? = (RPT[j]?).map (fun row =>
          if k ≤ j ∧ j < k + fuel ∧ row[0]? = some prev_dist then
            Spec.learnDistance aggression new_dist (rand j) row
          else row) := by
  intro fuel
  induction fuel with
  | zero =>
    intro k RPT _ _
    refine ⟨RPT, rfl, rfl, fun j => ?_⟩
    have hno : ∀ row : List Nat, ¬ (k ≤ j ∧ j < k + 0 ∧ row[0]? = some prev_dist) := by
      intro row h
      omega
    cases hj : RPT[j]? with
    | none => rfl
    | some row => simp only [Option.map_some', if_neg (hno row)]
  | succ fuel ih =>
    intro k RPT hk hrows
    have hlt : k < RPT.length := by omega
    have hget : RPT[k]? = some RPT[k] := List.getElem?_eq_getElem hlt
    have hrl : RPT[k].length = aggression + 1 := hrows k (Nat.le_refl _) (by omega) _ hget
    have hkey : (RPT[k])[0]? = some ((RPT[k])[0]) := List.getElem?_eq_getElem (by omega)
    by_cases hm : (RPT[k])[0] = prev_dist
    · have hrows1 : ∀ j, k + 1 ≤ j → j < k + 1 + fuel → ∀ row,
          (RPT.set k (Spec.learnDistance aggression new_dist (rand k) RPT[k]))[j]? =
            some row → row.length = aggression + 1 := by
        intro j h1 h2 row hr
        rw [List.getElem?_set_ne (by omega)] at hr
        exact hrows j (by omega) (by omega) row hr
      obtain ⟨RPT1, h1, h2, h3⟩ := ih (k + 1)
        (RPT.set k (Spec.learnDistance aggression new_dist (rand k) RPT[k]))
        (by simp only [List.length_set]; omega) hrows1
      refine ⟨RPT1, ?_, by simpa using h2, fun j => ?_⟩
      · rw [DistancePrefetcher.trainScan]
        simp only [hget, hkey, hm, if_true,
          distance_updateRow_eq aggression new_dist (rand k) RPT[k] ha hrl]
        exact h1
      · rw [h3 j]
        by_cases hjk : j = k
        · subst hjk
          simp only [List.getElem?_set_self hlt, hget, Option.map_some']
          rw [if_neg (by omega), if_pos ⟨Nat.le_refl _, by omega, by rw [hkey, hm]⟩]
        · rw [List.getElem?_set_ne (fun h => hjk h.symm)]
          cases hj : RPT[j]? with
          | none => rfl
          | some row =>
            simp only [Option.map_some']
            by_cases hc : k ≤ j ∧ j < k + (fuel + 1) ∧ row[0]? = some prev_dist
            · rw [if_pos hc, if_pos ⟨by omega, by omega, hc.2.2⟩]
            · rw [if_neg hc, if_neg (fun h => hc ⟨by omega, by omega, h.2.2⟩)]
    · obtain ⟨RPT1, h1, h2, h3⟩ := ih (k + 1) RPT (by omega)
        (fun j h1 h2 row hr => hrows j (by omega) (by omega) row hr)
      refine ⟨RPT1, ?_, h2, fun j => ?_⟩
      · rw [DistancePrefetcher.trainScan]
        simp only [hget, hkey, hm, if_false]
        exact h1
      · rw [h3 j]
        cases hj : RPT[j]? with
        | none => rfl
        | some row =>
          simp only [Option.map_some']
          by_cases hjk : j = k
          · subst hjk
            have hrow : row = RPT[j] := by
              rw [hget] at hj
              exact (Option.some.inj hj).symm
            have hnk : row[0]? ≠ some prev_dist := by
              rw [hrow, hkey]
              intro h
              exact hm (Option.some.inj h)
            rw [if_neg (by omega), if_neg (fun h => hnk h.2.2)]
          · by_cases hc : k ≤ j ∧ j < k + (fuel + 1) ∧ row[0]? = some prev_dist
            · rw [if_pos hc, if_pos ⟨by omega, by omega, hc.2.2⟩]
            · rw [if_neg hc, if_neg (fun h => hc ⟨by omega, by omega, h.2.2⟩)]

theorem distance_created_wf (aggression : Nat) (s : DistancePrefetcher) (new_dist randRow : Nat)
    (hwf : s.WF aggression) :
    (if 64 ≤ s.numberOfEntries then randRow % 64 else s.numberOfEntries) < s.RPT.length ∧
    (s.RPT.set (if 64 ≤ s.numberOfEntries then randRow % 64 else s.numberOfEntries)
      (new_dist :: List.replicate aggression 0)).length = 64 ∧
    (if 64 ≤ s.numberOfEntries then s.numberOfEntries else s.numberOfEntries + 1) ≤ 64 ∧
    ∀ j, j < (if 64 ≤ s.numberOfEntries then s.numberOfEntries else s.numberOfEntries + 1) →
      ∀ row, (s.RPT.set (if 64 ≤ s.numberOfEntries then randRow % 64 else s.numberOfEntries)
        (new_dist :: List.replicate aggression 0))[j]? = some row →
      row.length = aggression + 1 := by
  obtain ⟨hlen, hn, hrows⟩ := hwf
  have hr := Nat.mod_lt randRow (show 0 < 64 by omega)
  by_cases h64 : 64 ≤ s.numberOfEntries
  · simp only [if_pos h64]
    refine ⟨by omega, by simp [hlen], hn, ?_⟩
    intro j hj row hrow
    by_cases hjk : j = randRow % 64
    · subst hjk
      rw [List.getElem?_set_self (by omega)] at hrow
      cases hrow
      simp
    · rw [List.getElem?_set_ne (fun h => hjk h.symm)] at hrow
      exact hrows j hj row hrow
  · simp only [if_neg h64]
    refine ⟨by omega, by simp [hlen], by omega, ?_⟩
    intro j hj row hrow
    by_cases hjk : j = s.numberOfEntries
    · subst hjk
      rw [List.getElem?_set_self (by omega)] at hrow
      cases hrow
      simp
    · rw [List.getElem?_set_ne (fun h => hjk h.symm)] at hrow
      exact hrows j (by omega) row hrow

theorem learnDistance_ite_length (c : Prop) [Decidable c] (aggression new_dist rand : Nat)
    (row : List Nat) :
    (if c then Spec.learnDistance aggression new_dist rand row else row).length =
      row.length := by
  split
  · exact learnDistance_length _ _ _ _
  · rfl

theorem learnDistance_ite_key (c : Prop) [Decidable c] (aggression new_dist rand : Nat)
    (row : List Nat) :
    (if c then Spec.learnDistance aggression new_dist rand row else row)[0]? = row[0]? := by
  split
  · exact learnDistance_key _ _ _ _
  · rfl

/-- Distance `train` on a well-formed state with `aggression >= 1`: it returns, and the
new state is the table after the optional creation of a row, with the newly observed
distance learnt by the live rows keyed by the previous distance. -/
theorem distance_train_spec (aggression : Nat) (s : DistancePrefetcher)
    (addr pc randRow : Nat) (randSlot : Nat → Nat) (ha : 1 ≤ aggression)
    (hwf : s.WF aggression) :
    ∃ s2, s.train aggression addr pc randRow randSlot = some s2 ∧
      s2.prev_addr = addr ∧ s2.prev_dist = u64sub addr s.prev_addr ∧
      s2.entryFound = s.entryFound ∧ s2.WF aggression ∧
      s2.numberOfEntries =
        (if s.entryFound = false ∧ s.numberOfEntries < 64 then s.numberOfEntries + 1
         else s.numberOfEntries) ∧
      ∀ j, s2.RPT[j]? =
        ((if s.entryFound = false then
            s.RPT.set (if 64 ≤ s.numberOfEntries then randRow % 64 else s.numberOfEntries)
              (u64sub addr s.prev_addr :: List.replicate aggression 0)
          else s.RPT)[j]?).map (fun row =>
            if j < s2.numberOfEntries ∧ row[0]? = some s.prev_dist then
              Spec.learnDistance aggression (u64sub addr s.prev_addr) (randSlot j) row
            else row) := by
  obtain ⟨hc1, hc2, hc3, hc4⟩ := distance_created_wf aggression s (u64sub addr s.prev_addr)
    randRow hwf
  have hwf0 := hwf
  obtain ⟨hlen, hn, hrows⟩ := hwf
  cases hef : s.entryFound with
  | false =>
    obtain ⟨RPT1, h1, h2, h3⟩ := distance_trainScan_spec aggression (u64sub addr s.prev_addr)
      s.prev_dist randSlot ha
      (if 64 ≤ s.numberOfEntries then s.numberOfEntries else s.numberOfEntries + 1) 0
      (s.RPT.set (if 64 ≤ s.numberOfEntries then randRow % 64 else s.numberOfEntries)
        (u64sub addr s.prev_addr :: List.replicate aggression 0))
      (by rw [hc2]; omega) (fun j _ hj row hr => hc4 j (by omega) row hr)
    have hnum : (if 64 ≤ s.numberOfEntries then s.numberOfEntries
        else s.numberOfEntries + 1) =
        (if (false = false) ∧ s.numberOfEntries < 64 then s.numberOfEntries + 1
         else s.numberOfEntries) := by
      by_cases h64 : 64 ≤ s.numberOfEntries
      · rw [if_pos h64, if_neg (by omega)]
      · rw [if_neg h64, if_pos ⟨rfl, by omega⟩]
    refine ⟨{ prev_addr := addr, prev_dist := u64sub addr s.prev_addr, RPT := RPT1,
              numberOfEntries := if 64 ≤ s.numberOfEntries then s.numberOfEntries
                else s.numberOfEntries + 1,
              entryFound := false }, ?_, rfl, rfl, rfl, ?_, hnum, ?_⟩
    · simp only [DistancePrefetcher.train, hef, if_true, ge_iff_le, hc1, h1]
    · refine ⟨by rw [h2, hc2], hc3, ?_⟩
      intro k hk row hrow
      simp only at hk hrow
      rw [h3 k] at hrow
      cases hk2 : (s.RPT.set (if 64 ≤ s.numberOfEntries then randRow % 64
          else s.numberOfEntries) (u64sub addr s.prev_addr ::
            List.replicate aggression 0))[k]? with
      | none => rw [hk2] at hrow; cases hrow
      | some row0 =>
        rw [hk2] at hrow
        simp only [Option.map_some', Option.some.injEq] at hrow
        have hl0 := hc4 k hk row0 hk2
        rw [← hrow, learnDistance_ite_length]
        exact hl0
    · intro j
      rw [h3 j]
      simp only [if_true, Nat.zero_le, true_and, Nat.zero_add]
  | true =>
    obtain ⟨RPT1, h1, h2, h3⟩ := distance_trainScan_spec aggression (u64sub addr s.prev_addr)
      s.prev_dist randSlot ha s.numberOfEntries 0 s.RPT (by omega)
      (fun j _ hj row hr => hrows j (by omega) row hr)
    refine ⟨{ prev_addr := addr, prev_dist := u64sub addr s.prev_addr, RPT := RPT1,
              numberOfEntries := s.numberOfEntries, entryFound := true }, ?_, rfl, rfl, rfl,
      ?_, ?_, ?_⟩
    · simp only [DistancePrefetcher.train, hef, Bool.true_eq_false, if_false, h1]
    · refine ⟨by rw [h2, hlen], hn, ?_⟩
      intro k hk row hrow
      simp only at hk hrow
      rw [h3 k] at hrow
      cases hk2 : s.RPT[k]? with
      | none => rw [hk2] at hrow; cases hrow
      | some row0 =>
        rw [hk2] at hrow
        simp only [Option.map_some', Option.some.injEq] at hrow
        have hl0 := hrows k hk row0 hk2
        rw [← hrow, learnDistance_ite_length]
        exact hl0
    · simp
    · intro j
      rw [h3 j]
      simp only [Bool.true_eq_false, if_false, Nat.zero_le, true_and, Nat.zero_add]


theorem distance_oneRow_wf (aggression prev_addr prev_dist : Nat) (row : List Nat)
    (h : row.length = aggression + 1) :
    (DistancePrefetcher.oneRow prev_addr prev_dist row).WF aggression := by
  refine ⟨by simp [DistancePrefetcher.oneRow], by simp [DistancePrefetcher.oneRow], ?_⟩
  intro k hk r hr
  have hk0 : k = 0 := by
    simp only [DistancePrefetcher.oneRow] at hk
    omega
  subst hk0
  simp only [DistancePrefetcher.oneRow, List.getElem?_cons_zero, Option.some.injEq] at hr
  rw [← hr]
  exact h

theorem distance_create_wf (aggression : Nat) (entryFound : Bool) :
    (DistancePrefetcher.create entryFound).WF aggression ∧
      (DistancePrefetcher.create entryFound).UniqueKeys := by
  refine ⟨⟨by simp [DistancePrefetcher.create], by simp [DistancePrefetcher.create], ?_⟩, ?_⟩
  · intro k hk
    simp [DistancePrefetcher.create] at hk
  · intro i j ri rj hi
    simp [DistancePrefetcher.create] at hi

/-- One missing load on a well-formed Distance state with unique keys and
`aggression >= 1` returns, and the new state is well formed with unique keys. -/
theorem distance_onMiss_inv {C : Type} (ops : CacheOps C) (aggression : Nat)
    (s : DistancePrefetcher) (g : Globals C) (addr pc randRow : Nat) (randSlot : Nat → Nat)
    (ha : 1 ≤ aggression) (hwf : s.WF aggression) (hu : s.UniqueKeys) :
    ∃ s2 g1, s.onMiss ops aggression g addr pc randRow randSlot = some (s2, g1) ∧
      s2.WF aggression ∧ s2.UniqueKeys := by
  have hp := distance_prefetch_eq ops aggression s { g with cache := ops.fillLine g.cache addr }
    addr pc hwf
  have hwf1 : DistancePrefetcher.WF aggression
      { s with entryFound := ((s.RPT.take s.numberOfEntries).any
        (fun row => decide (row[0]? = some (u64sub addr s.prev_addr)))) } := hwf
  obtain ⟨s2, ht, -, -, -, hwf2, hnum, hrows⟩ := distance_train_spec aggression _ addr pc
    randRow randSlot ha hwf1
  refine ⟨s2, Spec.fillAll ops { g with cache := ops.fillLine g.cache addr }
    (Spec.distanceTargets aggression addr (u64sub addr s.prev_addr)
      (s.RPT.take s.numberOfEntries)),
    by simp only [DistancePrefetcher.onMiss, hp, ht], hwf2, ?_⟩
  simp only at hnum hrows
  obtain ⟨hlen, hn, -⟩ := hwf
  have hr64 := Nat.mod_lt randRow (show 0 < 64 by omega)
  cases hef : (s.RPT.take s.numberOfEntries).any
      (fun row => decide (row[0]? = some (u64sub addr s.prev_addr))) with
  | true =>
    rw [hef] at hnum hrows
    simp only [Bool.true_eq_false, false_and, if_false] at hnum hrows
    intro i j ri rj hi hj hri hrj hkey
    rw [hnum] at hi hj
    rw [hrows i] at hri
    rw [hrows j] at hrj
    cases hi0 : s.RPT[i]? with
    | none => rw [hi0] at hri; cases hri
    | some ri0 =>
      cases hj0 : s.RPT[j]? with
      | none => rw [hj0] at hrj; cases hrj
      | some rj0 =>
        rw [hi0] at hri
        rw [hj0] at hrj
        simp only [Option.map_some', Option.some.injEq] at hri hrj
        rw [← hri, ← hrj, learnDistance_ite_key, learnDistance_ite_key] at hkey
        exact hu i j ri0 rj0 hi hj hi0 hj0 hkey
  | false =>
    rw [hef] at hnum hrows
    simp only [true_and, if_true] at hnum hrows
    have hnone : ∀ k row, k < s.numberOfEntries → s.RPT[k]? = some row →
        row[0]? ≠ some (u64sub addr s.prev_addr) := by
      intro k row hk hrow hkey
      have : (s.RPT.take s.numberOfEntries).any
          (fun row => decide (row[0]? = some (u64sub addr s.prev_addr))) = true := by
        rw [List.any_eq_true]
        exact ⟨row, List.mem_iff_getElem?.mpr ⟨k, (getElem?_take_some _ _ _ _).mpr ⟨hk, hrow⟩⟩,
          by simpa using hkey⟩
      rw [hef] at this
      cases this
    have hslot : (if 64 ≤ s.numberOfEntries then randRow % 64 else s.numberOfEntries) <
        s.RPT.length := by
      split <;> omega
    have hold : ∀ k, k < s2.numberOfEntries →
        k ≠ (if 64 ≤ s.numberOfEntries then randRow % 64 else s.numberOfEntries) →
        k < s.numberOfEntries := by
      intro k hk hne
      rw [hnum] at hk
      by_cases h64 : 64 ≤ s.numberOfEntries
      · rw [if_neg (by omega)] at hk
        exact hk
      · rw [if_neg h64] at hne
        rw [if_pos (by omega)] at hk
        omega
    have hkeyOf : ∀ k r, k < s2.numberOfEntries → s2.RPT[k]? = some r →
        (k = (if 64 ≤ s.numberOfEntries then randRow % 64 else s.numberOfEntries) ∧
          r[0]? = some (u64sub addr s.prev_addr)) ∨
        (k ≠ (if 64 ≤ s.numberOfEntries then randRow % 64 else s.numberOfEntries) ∧
          ∃ r0, s.RPT[k]? = some r0 ∧ r0[0]? = r[0]?) := by
      intro k r hk hr
      rw [hrows k] at hr
      by_cases hks : k = (if 64 ≤ s.numberOfEntries then randRow % 64 else s.numberOfEntries)
      · left
        refine ⟨hks, ?_⟩
        rw [← hks, List.getElem?_set_self (by rw [hks]; exact hslot)] at hr
        simp only [Option.map_some', Option.some.injEq] at hr
        rw [← hr, learnDistance_ite_key]
        simp
      · right
        refine ⟨hks, ?_⟩
        rw [List.getElem?_set_ne (fun h => hks h.symm)] at hr
        cases hk0 : s.RPT[k]? with
        | none => rw [hk0] at hr; cases hr
        | some r0 =>
          rw [hk0] at hr
          simp only [Option.map_some', Option.some.injEq] at hr
          refine ⟨r0, rfl, ?_⟩
          rw [← hr, learnDistance_ite_key]
    intro i j ri rj hi hj hri hrj hkey
    rcases hkeyOf i ri hi hri with ⟨hia, hib⟩ | ⟨hia, ri0, hib, hic⟩
    · rcases hkeyOf j rj hj hrj with ⟨hja, -⟩ | ⟨hja, rj0, hjb, hjc⟩
      · rw [hia, hja]
      · exact absurd (by rw [hjc, ← hkey, hib]) (hnone j rj0 (hold j hj hja) hjb)
    · rcases hkeyOf j rj hj hrj with ⟨hja, hjb⟩ | ⟨hja, rj0, hjb, hjc⟩
      · exact absurd (by rw [hic, hkey, hjb]) (hnone i ri0 (hold i hi hia) hib)
      · exact hu i j ri0 rj0 (hold i hi hia) (hold j hj hja) hib hjb
          (by rw [hic, hjc, hkey])

/-- Every sequence of missing loads from the initial Distance state returns, for
`aggression >= 1`, and ends in a well-formed state with unique keys. -/
theorem distance_onMisses_inv {C : Type} (ops : CacheOps C) (aggression : Nat)
    (ha : 1 ≤ aggression) :
    ∀ (events : List (Nat × Nat × Nat × (Nat → Nat))) (s : DistancePrefetcher)
      (g : Globals C), s.WF aggression → s.UniqueKeys →
      ∃ s1 g1, DistancePrefetcher.onMisses ops aggression s g events = some (s1, g1) ∧
        s1.WF aggression ∧ s1.UniqueKeys := by
  intro events
  induction events with
  | nil => intro s g hwf hu; exact ⟨s, g, rfl, hwf, hu⟩
  | cons e rest ih =>
    intro s g hwf hu
    obtain ⟨s2, g2, h, hwf2, hu2⟩ := distance_onMiss_inv ops aggression s g e.1 e.2.1 e.2.2.1
      e.2.2.2 ha hwf hu
    obtain ⟨s3, g3, h3, hwf3, hu3⟩ := ih s2 g2 hwf2 hu2
    exact ⟨s3, g3, by simp only [DistancePrefetcher.onMisses, h, h3], hwf3, hu3⟩


/-! ### The prefetchers leave the demand counters alone -/

theorem none_keepsCounters {C : Type} :
    (NonePrefetcher.interface : PrefetcherInterface Unit C).KeepsCounters := by
  intro p g addr pc p1 g1 h
  simp only [NonePrefetcher.interface, Option.some.injEq, Prod.mk.injEq, or_self] at h
  rw [← h.2]
  exact ⟨rfl, rfl, rfl, rfl⟩

theorem trace_keepsCounters : tracePrefetcher.KeepsCounters := by
  intro p g addr pc p1 g1 h
  simp only [tracePrefetcher, Option.some.injEq, Prod.mk.injEq] at h
  rcases h with h | h <;> rw [← h.2] <;> exact ⟨rfl, rfl, rfl, rfl⟩

theorem nextNLine_keepsCounters {C : Type} (ops : CacheOps C) (aggression blockSize : Nat) :
    (NextNLinePrefetcher.interface ops aggression blockSize).KeepsCounters := by
  intro p g addr pc p1 g1 h
  simp only [NextNLinePrefetcher.interface, NextNLinePrefetcher.prefetch,
    NextNLinePrefetcher.train, Option.some.injEq, Prod.mk.injEq] at h
  rcases h with h | h
  · obtain ⟨-, -, -, h4, h5, h6, h7⟩ :=
      nextLinesLoop_spec ops blockSize addr (loopCount aggression) 1 g
    rw [← h.2]
    exact ⟨h4, h5, h6, h7⟩
  · rw [← h.2]
    exact ⟨rfl, rfl, rfl, rfl⟩

theorem stride_keepsCounters {C : Type} (ops : CacheOps C) (aggression blockSize rand : Nat) :
    (StridePrefetcher.interface ops aggression blockSize rand).KeepsCounters := by
  intro p g addr pc p1 g1 h
  simp only [StridePrefetcher.interface] at h
  rcases h with h | h
  · by_cases hidx : p1.entryIdx = -1
    · obtain ⟨-, -, hg, -⟩ := stride_prefetch_not_found ops aggression blockSize p p1 g g1
        addr pc h hidx
      rw [hg]
      exact ⟨rfl, rfl, rfl, rfl⟩
    · obtain ⟨k, row, -, -, -, -, -, -, -, hg⟩ := stride_prefetch_found ops aggression
        blockSize p p1 g g1 addr pc h hidx
      rw [hg]
      split
      · obtain ⟨-, -, -, h4, h5, h6, h7⟩ :=
          nextLinesLoop_spec ops blockSize addr (loopCount aggression) 1 g
        exact ⟨h4, h5, h6, h7⟩
      · exact ⟨rfl, rfl, rfl, rfl⟩
  · cases ht : p.train aggression blockSize addr pc rand with
    | none => rw [ht] at h; cases h
    | some s1 =>
      rw [ht] at h
      simp only [Option.map_some', Option.some.injEq, Prod.mk.injEq] at h
      rw [← h.2]
      exact ⟨rfl, rfl, rfl, rfl⟩

theorem distance_prefetchRow_counters {C : Type} (ops : CacheOps C) (addr : Nat)
    (row : List Nat) :
    ∀ (fuel i : Nat) (g g1 : Globals C),
      DistancePrefetcher.prefetchRow ops addr row fuel i g = some g1 →
      g1.loads = g.loads ∧ g1.stores = g.stores ∧ g1.hits = g.hits ∧
        g1.accesses = g.accesses := by
  intro fuel
  induction fuel with
  | zero =>
    intro i g g1 h
    simp only [DistancePrefetcher.prefetchRow, Option.some.injEq] at h
    rw [← h]
    exact ⟨rfl, rfl, rfl, rfl⟩
  | succ fuel ih =>
    intro i g g1 h
    rw [DistancePrefetcher.prefetchRow] at h
    cases hd : row[i]? with
    | none => rw [hd] at h; cases h
    | some d =>
      rw [hd] at h
      simp only at h
      obtain ⟨h1, h2, h3, h4⟩ := ih _ _ _ h
      rw [h1, h2, h3, h4]
      split
      · split
        · exact ⟨rfl, rfl, rfl, rfl⟩
        · exact ⟨rfl, rfl, rfl, rfl⟩
      · exact ⟨rfl, rfl, rfl, rfl⟩

theorem distance_prefetchScan_counters {C : Type} (ops : CacheOps C) (aggression addr : Nat)
    (RPT : List (List Nat)) (new_dist : Nat) :
    ∀ (fuel k : Nat) (found found1 : Bool) (g g1 : Globals C),
      DistancePrefetcher.prefetchScan ops aggression addr RPT new_dist fuel k found g =
        some (found1, g1) →
      g1.loads = g.loads ∧ g1.stores = g.stores ∧ g1.hits = g.hits ∧
        g1.accesses = g.accesses := by
  intro fuel
  induction fuel with
  | zero =>
    intro k found found1 g g1 h
    simp only [DistancePrefetcher.prefetchScan, Option.some.injEq, Prod.mk.injEq] at h
    rw [← h.2]
    exact ⟨rfl, rfl, rfl, rfl⟩
  | succ fuel ih =>
    intro k found found1 g g1 h
    rw [DistancePrefetcher.prefetchScan] at h
    cases hr : RPT[k]? with
    | none => rw [hr] at h; cases h
    | some row =>
      rw [hr] at h
      simp only at h
      cases hk : row[0]? with
      | none => rw [hk] at h; cases h
      | some key =>
        rw [hk] at h
        simp only at h
        by_cases hm : key = new_dist
        · rw [if_pos hm] at h
          cases hp : DistancePrefetcher.prefetchRow ops addr row aggression 1 g with
          | none => rw [hp] at h; cases h
          | some g2 =>
            rw [hp] at h
            simp only at h
            obtain ⟨a1, a2, a3, a4⟩ := distance_prefetchRow_counters ops addr row _ _ _ _ hp
            obtain ⟨b1, b2, b3, b4⟩ := ih _ _ _ _ _ h
            exact ⟨b1.trans a1, b2.trans a2, b3.trans a3, b4.trans a4⟩
        · rw [if_neg hm] at h
          exact ih _ _ _ _ _ h

theorem distance_keepsCounters {C : Type} (ops : CacheOps C) (aggression randRow : Nat)
    (randSlot : Nat → Nat) :
    (DistancePrefetcher.interface ops aggression randRow randSlot).KeepsCounters := by
  intro p g addr pc p1 g1 h
  simp only [DistancePrefetcher.interface] at h
  rcases h with h | h
  · unfold DistancePrefetcher.prefetch at h
    simp only at h
    cases hs : DistancePrefetcher.prefetchScan ops aggression addr p.RPT
        (u64sub addr p.prev_addr) p.numberOfEntries 0 false g with
    | none => rw [hs] at h; cases h
    | some r =>
      obtain ⟨f, g2⟩ := r
      rw [hs] at h
      simp only [Option.some.injEq, Prod.mk.injEq] at h
      rw [← h.2]
      exact distance_prefetchScan_counters ops aggression addr _ _ _ _ _ _ _ _ hs
  · cases ht : p.train aggression addr pc randRow randSlot with
    | none => rw [ht] at h; cases h
    | some s1 =>
      rw [ht] at h
      simp only [Option.map_some', Option.some.injEq, Prod.mk.injEq] at h
      rw [← h.2]
      exact ⟨rfl, rfl, rfl, rfl⟩


/-! ### The direction of the selector -/

theorem selectorNext_step (c : String) (g l taken : Bool) :
    Spec.selectorValue (Spec.selectorNext c g l taken) ≤ Spec.selectorValue c + 1 ∧
    Spec.selectorValue c ≤ Spec.selectorValue (Spec.selectorNext c g l taken) + 1 ∧
    (g = true → l = false →
      Spec.selectorValue c ≤ Spec.selectorValue (Spec.selectorNext c g l taken)) ∧
    (l = true → g = false →
      Spec.selectorValue (Spec.selectorNext c g l taken) ≤ Spec.selectorValue c) ∧
    (l = false → g = false → Spec.selectorNext c g l taken = c) := by
  by_cases h1 : c = "11"
  · subst h1
    cases g <;> cases l <;> cases taken <;> decide
  by_cases h2 : c = "10"
  · subst h2
    cases g <;> cases l <;> cases taken <;> decide
  by_cases h3 : c = "01"
  · subst h3
    cases g <;> cases l <;> cases taken <;> decide
  by_cases h4 : c = "00"
  · subst h4
    cases g <;> cases l <;> cases taken <;> decide
  have hsame : Spec.selectorNext c g l taken = c := by
    unfold Spec.selectorNext
    split <;> simp_all
  rw [hsame]
  exact ⟨Nat.le_succ _, Nat.le_succ _, fun _ _ => Nat.le_refl _, fun _ _ => Nat.le_refl _,
    fun _ _ => rfl⟩

/-- A state reached from construction in which `train` can run (the table is not empty)
satisfies the invariant. -/
theorem tournament_reach_inv (n : Nat) (events : List (Nat × Bool))
    (s : TournamentBranchPredictor)
    (hr : (TournamentBranchPredictor.create n).trainAll events = some s)
    (hn : s.bp_entries ≠ 0) : s.Inv n := by
  by_cases h0 : n = 0
  · subst h0
    cases events with
    | nil =>
      simp only [TournamentBranchPredictor.trainAll, Option.some.injEq] at hr
      rw [← hr] at hn
      exact absurd rfl hn
    | cons e rest =>
      simp [TournamentBranchPredictor.trainAll, TournamentBranchPredictor.train,
        TournamentBranchPredictor.create] at hr
  · exact tournament_trainAll_inv n events _ s (tournament_create_inv n (by omega)) hr


/-! ### The live rows of the Stride table -/

/-- One missing load on a well-formed Stride state with unique keys returns, and the new
state is well formed with unique keys. -/
theorem stride_onMiss_inv {C : Type} (ops : CacheOps C) (aggression blockSize : Nat)
    (s : StridePrefetcher) (g : Globals C) (addr pc rand : Nat)
    (hwf : s.WF) (hu : s.UniqueKeys) :
    ∃ s2 g1, s.onMiss ops aggression blockSize g addr pc rand = some (s2, g1) ∧
      s2.WF ∧ s2.UniqueKeys := by
  obtain ⟨s1, g1, hp, hrpt, hnum⟩ := stride_prefetch_total ops aggression blockSize s
    { g with cache := ops.fillLine g.cache addr } addr pc hwf
  have hwf1 : s1.WF := by
    unfold StridePrefetcher.WF
    rw [hrpt, hnum]
    exact hwf
  by_cases hidx : s1.entryIdx = -1
  · obtain ⟨-, -, -, hnone⟩ := stride_prefetch_not_found ops aggression blockSize s s1 _ g1
      addr pc hp hidx
    have ht := stride_train_insert aggression blockSize s1 addr pc rand hwf1 hidx
    refine ⟨_, g1, by simp only [StridePrefetcher.onMiss, hp, ht],
      stride_train_wf aggression blockSize s1 _ addr pc rand hwf1 ht, ?_⟩
    rw [hrpt, hnum]
    have hlen := hwf.1
    have hn := hwf.2
    have hr64 := Nat.mod_lt rand (show 0 < 64 by omega)
    have hslot : (if s.numberOfEntries ≥ 64 then rand % 64 else s.numberOfEntries) <
        s.RPT.length := by
      split <;> omega
    have hold : ∀ k, k < (if s.numberOfEntries ≥ 64 then s.numberOfEntries
          else s.numberOfEntries + 1) →
        k ≠ (if s.numberOfEntries ≥ 64 then rand % 64 else s.numberOfEntries) →
        k < s.numberOfEntries := by
      intro k hk hne
      by_cases h64 : s.numberOfEntries ≥ 64
      · rw [if_pos h64] at hk
        exact hk
      · rw [if_neg h64] at hk hne
        omega
    have hkeyOf : ∀ (k : Nat) (r : RPTRow), (s.RPT.set (if s.numberOfEntries ≥ 64 then rand % 64
          else s.numberOfEntries)
          { loadPC := pc, prev_addr := addr, stride := 0, state := 0 })[k]? = some r →
        (k = (if s.numberOfEntries ≥ 64 then rand % 64 else s.numberOfEntries) ∧
          r.loadPC = pc) ∨
        (k ≠ (if s.numberOfEntries ≥ 64 then rand % 64 else s.numberOfEntries) ∧
          s.RPT[k]? = some r) := by
      intro k r hr
      by_cases hks : k = (if s.numberOfEntries ≥ 64 then rand % 64 else s.numberOfEntries)
      · left
        refine ⟨hks, ?_⟩
        rw [← hks, List.getElem?_set_self (by rw [hks]; exact hslot)] at hr
        rw [← Option.some.inj hr]
      · right
        refine ⟨hks, ?_⟩
        rw [List.getElem?_set_ne (fun h => hks h.symm)] at hr
        exact hr
    intro i j ri rj hi hj hri hrj hkey
    simp only at hi hj hri hrj
    rcases hkeyOf i ri hri with ⟨hia, hib⟩ | ⟨hia, hib⟩
    · rcases hkeyOf j rj hrj with ⟨hja, -⟩ | ⟨hja, hjb⟩
      · rw [hia, hja]
      · exact absurd (by rw [← hkey, hib]) (hnone j (hold j hj hja) rj hjb)
    · rcases hkeyOf j rj hrj with ⟨hja, hjb⟩ | ⟨hja, hjb⟩
      · exact absurd (by rw [hkey, hjb]) (hnone i (hold i hi hia) ri hib)
      · exact hu i j ri rj (hold i hi hia) (hold j hj hja) hib hjb hkey
  · obtain ⟨k, row, row1, s2, -, hk, hrow, -, ht, hset, -, hn2, hrow1⟩ :=
      stride_found_then_train ops aggression blockSize s s1 _ g1 addr pc rand hp hidx
    refine ⟨s2, g1, by simp only [StridePrefetcher.onMiss, hp, ht],
      stride_train_wf aggression blockSize s1 s2 addr pc rand hwf1 ht, ?_⟩
    have hpc : row1.loadPC = row.loadPC := by
      rw [hrow1]
      split_ifs <;> rfl
    have hkeyOf : ∀ (m : Nat) (r : RPTRow), s2.RPT[m]? = some r →
        ∃ r0, s.RPT[m]? = some r0 ∧ r0.loadPC = r.loadPC := by
      intro m r hr
      rw [hset] at hr
      by_cases hmk : m = k
      · subst hmk
        rw [List.getElem?_set_self (lt_length_of_getElem? _ _ _ hrow)] at hr
        exact ⟨row, hrow, by rw [← Option.some.inj hr, hpc]⟩
      · rw [List.getElem?_set_ne (fun h => hmk h.symm)] at hr
        exact ⟨r, hr, rfl⟩
    intro i j ri rj hi hj hri hrj hkey
    rw [hn2] at hi hj
    obtain ⟨ri0, hi0, hik⟩ := hkeyOf i ri hri
    obtain ⟨rj0, hj0, hjk⟩ := hkeyOf j rj hrj
    exact hu i j ri0 rj0 hi hj hi0 hj0 (by rw [hik, hjk, hkey])

theorem stride_create_inv :
    StridePrefetcher.create.WF ∧ StridePrefetcher.create.UniqueKeys := by
  refine ⟨⟨by simp [StridePrefetcher.create], by simp [StridePrefetcher.create]⟩, ?_⟩
  intro i j ri rj hi
  simp [StridePrefetcher.create] at hi

/-- Every sequence of missing loads on a well-formed Stride state with unique keys returns
and ends in such a state. -/
theorem stride_onMisses_inv {C : Type} (ops : CacheOps C) (aggression blockSize : Nat) :
    ∀ (events : List (Nat × Nat × Nat)) (s : StridePrefetcher) (g : Globals C),
      s.WF → s.UniqueKeys →
      ∃ s1 g1, StridePrefetcher.onMisses ops aggression blockSize s g events =
          some (s1, g1) ∧ s1.WF ∧ s1.UniqueKeys := by
  intro events
  induction events with
  | nil => intro s g hwf hu; exact ⟨s, g, rfl, hwf, hu⟩
  | cons e rest ih =>
    intro s g hwf hu
    obtain ⟨s2, g2, h, hwf2, hu2⟩ := stride_onMiss_inv ops aggression blockSize s g e.1 e.2.1
      e.2.2 hwf hu
    obtain ⟨s3, g3, h3, hwf3, hu3⟩ := ih s2 g2 hwf2 hu2
    exact ⟨s3, g3, by simp only [StridePrefetcher.onMisses, h, h3], hwf3, hu3⟩


/-! ### Replay of a learned distance -/

theorem issued_mem_of_reached {C : Type} (ops : CacheOps C) (t : Nat) (post : List Nat) :
    ∀ (pre : List Nat) (c : C),
      ops.cacheExists ((Spec.issued ops c pre).foldl ops.prefetchFillLine c) t = false →
      t ∈ Spec.issued ops c (pre ++ t :: post) := by
  intro pre
  induction pre with
  | nil =>
    intro c h
    simp only [Spec.issued, List.foldl_nil] at h
    simp only [List.nil_append, Spec.issued, h, Bool.false_eq_true, if_false,
      List.mem_cons, true_or]
  | cons a rest ih =>
    intro c h
    by_cases he : ops.cacheExists c a = true
    · simp only [Spec.issued, he, if_true] at h
      simp only [List.cons_append, Spec.issued, he, if_true]
      exact ih c h
    · have hf : ops.cacheExists c a = false := by simpa using he
      simp only [Spec.issued, hf, Bool.false_eq_true, if_false, List.foldl_cons] at h
      simp only [List.cons_append, Spec.issued, hf, Bool.false_eq_true, if_false,
        List.mem_cons]
      exact Or.inr (ih _ h)

theorem issued_mem_of_independent {C : Type} (ops : CacheOps C) (t : Nat)
    (hind : ∀ c a, a ≠ t →
      ops.cacheExists (ops.prefetchFillLine c a) t = ops.cacheExists c t) :
    ∀ (targets : List Nat) (c : C), t ∈ targets → ops.cacheExists c t = false →
      t ∈ Spec.issued ops c targets := by
  intro targets
  induction targets with
  | nil => intro c h; cases h
  | cons a rest ih =>
    intro c hmem hex
    by_cases hat : a = t
    · subst hat
      simp only [Spec.issued, hex, Bool.false_eq_true, if_false, List.mem_cons, true_or]
    · have hrest : t ∈ rest := by
        rcases List.mem_cons.mp hmem with h | h
        · exact absurd h.symm hat
        · exact h
      by_cases he : ops.cacheExists c a = true
      · simp only [Spec.issued, he, if_true]
        exact ih c hrest hex
      · have hf : ops.cacheExists c a = false := by simpa using he
        simp only [Spec.issued, hf, Bool.false_eq_true, if_false, List.mem_cons]
        exact Or.inr (ih _ hrest (by rw [hind c a hat]; exact hex))

theorem rowTargets_mem (aggression addr : Nat) (row : List Nat) (i d : Nat)
    (h1 : 1 ≤ i) (h2 : i ≤ aggression) (hrow : row[i]? = some d) (hd : d ≠ 0) :
    (addr + d) % UINT64_RANGE ∈ Spec.rowTargets aggression addr row := by
  unfold Spec.rowTargets
  rw [List.mem_map]
  refine ⟨d, ?_, rfl⟩
  rw [List.mem_filter]
  refine ⟨?_, by simpa using hd⟩
  rw [List.mem_iff_getElem?]
  refine ⟨i - 1, ?_⟩
  rw [getElem?_take_some]
  refine ⟨by omega, ?_⟩
  rw [List.getElem?_drop]
  have : 1 + (i - 1) = i := by omega
  rw [this]
  exact hrow

theorem distanceTargets_mem (aggression addr new_dist : Nat) (RPT : List (List Nat))
    (n k : Nat) (row : List Nat) (t : Nat) (hk : k < n) (hrow : RPT[k]? = some row)
    (hkey : row[0]? = some new_dist) (ht : t ∈ Spec.rowTargets aggression addr row) :
    t ∈ Spec.distanceTargets aggression addr new_dist (RPT.take n) := by
  unfold Spec.distanceTargets
  rw [List.mem_flatMap]
  refine ⟨row, ?_, ht⟩
  rw [List.mem_filter]
  exact ⟨List.mem_iff_getElem?.mpr ⟨k, (getElem?_take_some _ _ _ _).mpr ⟨hk, hrow⟩⟩,
    by simpa using hkey⟩

theorem learnDistance_holds (aggression new_dist rand : Nat) (row : List Nat)
    (ha : 1 ≤ aggression) (hlen : row.length = aggression + 1) :
    ∃ i, 1 ≤ i ∧ i ≤ aggression ∧
      (Spec.learnDistance aggression new_dist rand row)[i]? = some new_dist := by
  unfold Spec.learnDistance
  cases h : Spec.firstEmptySlot aggression row with
  | some i =>
    obtain ⟨h1, h2, -⟩ := firstEmptySlot_bounds aggression row i h
    exact ⟨i, h1, h2, List.getElem?_set_self (by omega)⟩
  | none =>
    have hmod := Nat.mod_lt rand (show 0 < aggression by omega)
    exact ⟨rand % aggression + 1, by omega, by omega, List.getElem?_set_self (by omega)⟩


/-- One missing load on a well-formed Distance state with `aggression >= 1`, in closed
form: whether a row is created depends on whether a live row is keyed by the new
distance, and the live rows keyed by the previous distance learn the new one. -/
theorem distance_onMiss_spec {C : Type} (ops : CacheOps C) (aggression : Nat)
    (s : DistancePrefetcher) (g : Globals C) (addr pc randRow : Nat) (randSlot : Nat → Nat)
    (ha : 1 ≤ aggression) (hwf : s.WF aggression) :
    ∃ s2 g1, s.onMiss ops aggression g addr pc randRow randSlot = some (s2, g1) ∧
      s2.prev_addr = addr ∧ s2.prev_dist = u64sub addr s.prev_addr ∧ s2.WF aggression ∧
      s2.numberOfEntries =
        (if ((s.RPT.take s.numberOfEntries).any
              (fun row => decide (row[0]? = some (u64sub addr s.prev_addr)))) = false ∧
            s.numberOfEntries < 64 then s.numberOfEntries + 1
         else s.numberOfEntries) ∧
      ∀ j, s2.RPT[j]? =
        ((if ((s.RPT.take s.numberOfEntries).any
              (fun row => decide (row[0]? = some (u64sub addr s.prev_addr)))) = false then
            s.RPT.set (if 64 ≤ s.numberOfEntries then randRow % 64 else s.numberOfEntries)
              (u64sub addr s.prev_addr :: List.replicate aggression 0)
          else s.RPT)[j]?).map (fun row =>
            if j < s2.numberOfEntries ∧ row[0]? = some s.prev_dist then
              Spec.learnDistance aggression (u64sub addr s.prev_addr) (randSlot j) row
            else row) := by
  have hp := distance_prefetch_eq ops aggression s { g with cache := ops.fillLine g.cache addr }
    addr pc hwf
  have hwf1 : DistancePrefetcher.WF aggression
      { s with entryFound := ((s.RPT.take s.numberOfEntries).any
        (fun row => decide (row[0]? = some (u64sub addr s.prev_addr)))) } := hwf
  obtain ⟨s2, ht, hpa, hpd, -, hwf2, hnum, hrows⟩ := distance_train_spec aggression _ addr pc
    randRow randSlot ha hwf1
  exact ⟨s2, Spec.fillAll ops { g with cache := ops.fillLine g.cache addr }
    (Spec.distanceTargets aggression addr (u64sub addr s.prev_addr)
      (s.RPT.take s.numberOfEntries)),
    by simp only [DistancePrefetcher.onMiss, hp, ht], hpa, hpd, hwf2, hnum, hrows⟩

/-- After a missing load some live row is keyed by the distance just observed. -/
theorem distance_onMiss_keyed {C : Type} (ops : CacheOps C) (aggression : Nat)
    (s s1 : DistancePrefetcher) (g g1 : Globals C) (addr pc randRow : Nat)
    (randSlot : Nat → Nat) (ha : 1 ≤ aggression) (hwf : s.WF aggression)
    (h : s.onMiss ops aggression g addr pc randRow randSlot = some (s1, g1)) :
    s1.WF aggression ∧ s1.prev_addr = addr ∧ s1.prev_dist = u64sub addr s.prev_addr ∧
      ∃ k row, k < s1.numberOfEntries ∧ s1.RPT[k]? = some row ∧
        row[0]? = some (u64sub addr s.prev_addr) := by
  obtain ⟨s2, g2, h2, hpa, hpd, hwf2, hnum, hrows⟩ := distance_onMiss_spec ops aggression s g
    addr pc randRow randSlot ha hwf
  rw [h] at h2
  simp only [Option.some.injEq, Prod.mk.injEq] at h2
  obtain ⟨hs, -⟩ := h2
  subst hs
  refine ⟨hwf2, hpa, hpd, ?_⟩
  obtain ⟨hlen, hn, -⟩ := hwf
  have hr64 := Nat.mod_lt randRow (show 0 < 64 by omega)
  cases hef : (s.RPT.take s.numberOfEntries).any
      (fun row => decide (row[0]? = some (u64sub addr s.prev_addr))) with
  | true =>
    rw [hef] at hnum hrows
    simp only [Bool.true_eq_false, false_and, if_false] at hnum hrows
    rw [List.any_eq_true] at hef
    obtain ⟨row, hmem, hkey⟩ := hef
    obtain ⟨k, hk⟩ := List.mem_iff_getElem?.mp hmem
    rw [getElem?_take_some] at hk
    refine ⟨k, _, by omega, by rw [hrows k, hk.2]; rfl, ?_⟩
    rw [learnDistance_ite_key]
    simpa using hkey
  | false =>
    rw [hef] at hnum hrows
    simp only [true_and, if_true] at hnum hrows
    have hslot : (if 64 ≤ s.numberOfEntries then randRow % 64 else s.numberOfEntries) <
        s.RPT.length := by
      split <;> omega
    have hlive : (if 64 ≤ s.numberOfEntries then randRow % 64 else s.numberOfEntries) <
        s1.numberOfEntries := by
      rw [hnum]
      by_cases h64 : 64 ≤ s.numberOfEntries
      · rw [if_pos h64, if_neg (by omega)]
        omega
      · rw [if_neg h64, if_pos (by omega)]
        omega
    refine ⟨_, _, hlive, by rw [hrows, List.getElem?_set_self hslot]; rfl, ?_⟩
    rw [learnDistance_ite_key]
    simp

/-- A missing load while fewer than 64 rows are live: a live row keyed by the previous
distance stays at its index, keeps its key, and holds the new distance in one of its
predicted-distance slots afterwards. -/
theorem distance_onMiss_learns {C : Type} (ops : CacheOps C) (aggression : Nat)
    (s : DistancePrefetcher) (g : Globals C) (addr pc randRow : Nat) (randSlot : Nat → Nat)
    (k : Nat) (row : List Nat) (ha : 1 ≤ aggression) (hwf : s.WF aggression)
    (hn : s.numberOfEntries < 64) (hk : k < s.numberOfEntries)
    (hrow : s.RPT[k]? = some row) (hkey : row[0]? = some s.prev_dist) :
    ∃ s2 g1 row2 i, s.onMiss ops aggression g addr pc randRow randSlot = some (s2, g1) ∧
      s2.WF aggression ∧ s2.prev_addr = addr ∧ k < s2.numberOfEntries ∧
      s2.RPT[k]? = some row2 ∧ row2[0]? = some s.prev_dist ∧ 1 ≤ i ∧ i ≤ aggression ∧
      row2[i]? = some (u64sub addr s.prev_addr) := by
  obtain ⟨s2, g2, h2, hpa, -, hwf2, hnum, hrows⟩ := distance_onMiss_spec ops aggression s g
    addr pc randRow randSlot ha hwf
  have hk2 : k < s2.numberOfEntries := by
    rw [hnum]
    split <;> omega
  have hrl : row.length = aggression + 1 := hwf.2.2 k hk row hrow
  obtain ⟨i, hi1, hi2, hi3⟩ := learnDistance_holds aggression (u64sub addr s.prev_addr)
    (randSlot k) row ha hrl
  have hget : s2.RPT[k]? = some
      (Spec.learnDistance aggression (u64sub addr s.prev_addr) (randSlot k) row) := by
    rw [hrows k]
    have hsame : (if ((s.RPT.take s.numberOfEntries).any
          (fun row => decide (row[0]? = some (u64sub addr s.prev_addr)))) = false then
        s.RPT.set (if 64 ≤ s.numberOfEntries then randRow % 64 else s.numberOfEntries)
          (u64sub addr s.prev_addr :: List.replicate aggression 0)
        else s.RPT)[k]? = some row := by
      by_cases hf : ((s.RPT.take s.numberOfEntries).any
          (fun row => decide (row[0]? = some (u64sub addr s.prev_addr)))) = false
      · rw [if_pos hf, if_neg (by omega), List.getElem?_set_ne (by omega)]
        exact hrow
      · rw [if_neg hf]
        exact hrow
    rw [hsame]
    simp only [Option.map_some', if_pos (And.intro hk2 hkey)]
  exact ⟨s2, g2, _, i, h2, hwf2, hpa, hk2, hget,
    by rw [learnDistance_key]; exact hkey, hi1, hi2, hi3⟩

/-! ## Claims about the branch predictors -/

set_option maxRecDepth 20000

/-- C1: for Local and for Gshare, `train(pc, taken)` rewrites the pattern-table counter at
the current index of the predictor (for Local the value of history register `pc mod 128`,
for Gshare `(pc mod tableSize) xor globalHistory`) exactly by the 2-bit law
`11 -> 10` on not-taken and `11` on taken, `10 -> 11 / 01`, `01 -> 10 / 00`,
`00 -> 01` on taken and `00` on not-taken, and every other pattern-table entry is
unchanged. -/
theorem C1_train_rewrites_counter_by_two_bit_law :
    (∀ (l : LocalBranchPredictor) (pc : Nat) (taken : Bool) (li : Nat) (lc : String),
      l.lhrs[pc % 128]? = some li → l.pht_array[li]? = some lc →
      ∃ l1, l.train pc taken = some l1 ∧
        l1.pht_array[li]? = some (SaturatingCounter.next lc taken) ∧
        ∀ j, j ≠ li → l1.pht_array[j]? = l.pht_array[j]?) ∧
    (∀ (g : GshareBranchPredictor) (pc : Nat) (taken : Bool) (gc : String),
      g.bp_entries ≠ 0 → g.pht_array[(pc % g.bp_entries) ^^^ g.ghr]? = some gc →
      ∃ g1, g.train pc taken = some g1 ∧
        g1.pht_array[(pc % g.bp_entries) ^^^ g.ghr]? =
          some (SaturatingCounter.next gc taken) ∧
        ∀ j, j ≠ (pc % g.bp_entries) ^^^ g.ghr → g1.pht_array[j]? = g.pht_array[j]?) ∧
    (SaturatingCounter.next "11" false = "10" ∧ SaturatingCounter.next "11" true = "11" ∧
      SaturatingCounter.next "10" true = "11" ∧ SaturatingCounter.next "10" false = "01" ∧
      SaturatingCounter.next "01" true = "10" ∧ SaturatingCounter.next "01" false = "00" ∧
      SaturatingCounter.next "00" true = "01" ∧ SaturatingCounter.next "00" false = "00") := by
  refine ⟨?_, ?_, by decide⟩
  · intro l pc taken li lc hl1 hl2
    refine ⟨_, local_train_eq l pc taken li lc hl1 hl2, ?_, ?_⟩
    · exact getElem?_set_self_of_some _ _ _ _ hl2
    · intro j hj
      exact getElem?_set_other _ _ _ _ hj
  · intro g pc taken gc hg0 hg1
    refine ⟨_, gshare_train_eq g pc taken gc hg0 hg1, ?_, ?_⟩
    · exact getElem?_set_self_of_some _ _ _ _ hg1
    · intro j hj
      exact getElem?_set_other _ _ _ _ hj

/-- Witness of C1: a not-taken branch at pc 5 on fresh 4-entry predictors rewrites the
Local counter 0 and the Gshare counter 1 from `11` to `10`. -/
theorem C1_train_rewrites_counter_by_two_bit_law_witness :
    (∃ l1, (LocalBranchPredictor.create 4).train 5 false = some l1 ∧
      l1.pht_array[0]? = some (SaturatingCounter.next "11" false) ∧
      ∀ j, j ≠ 0 → l1.pht_array[j]? = (LocalBranchPredictor.create 4).pht_array[j]?) ∧
    (∃ g1, (GshareBranchPredictor.create 4).train 5 false = some g1 ∧
      g1.pht_array[1]? = some (SaturatingCounter.next "11" false) ∧
      ∀ j, j ≠ 1 → g1.pht_array[j]? = (GshareBranchPredictor.create 4).pht_array[j]?) ∧
    SaturatingCounter.next "11" false = "10" :=
  ⟨C1_train_rewrites_counter_by_two_bit_law.1 (LocalBranchPredictor.create 4) 5 false 0
      "11" (by decide) (by decide),
    C1_train_rewrites_counter_by_two_bit_law.2.1 (GshareBranchPredictor.create 4) 5 false
      "11" (by decide) (by decide),
    C1_train_rewrites_counter_by_two_bit_law.2.2.1⟩

/-- C2: in every state reached from construction with `entryCount >= 1` by a sequence of
`train` calls, every entry of the Local pattern table, of the Gshare pattern table and of
the Tournament selector table (and of the two tables of its sub-predictors) is one of
`00`, `01`, `10`, `11`. -/
theorem C2_counters_stay_two_bit (entryCount : Nat) (h : 1 ≤ entryCount)
    (events : List (Nat × Bool)) :
    (∀ s, (LocalBranchPredictor.create entryCount).trainAll events = some s →
      ∀ c ∈ s.pht_array, c = "00" ∨ c = "01" ∨ c = "10" ∨ c = "11") ∧
    (∀ s, (GshareBranchPredictor.create entryCount).trainAll events = some s →
      ∀ c ∈ s.pht_array, c = "00" ∨ c = "01" ∨ c = "10" ∨ c = "11") ∧
    (∀ s, (TournamentBranchPredictor.create entryCount).trainAll events = some s →
      (∀ c ∈ s.pht_array, c = "00" ∨ c = "01" ∨ c = "10" ∨ c = "11") ∧
      (∀ c ∈ s.lb_predictor.pht_array, c = "00" ∨ c = "01" ∨ c = "10" ∨ c = "11") ∧
      (∀ c ∈ s.gsb_predictor.pht_array, c = "00" ∨ c = "01" ∨ c = "10" ∨ c = "11")) := by
  refine ⟨?_, ?_, ?_⟩
  · intro s hs
    obtain ⟨s1, h1, hi⟩ := local_trainAll_inv entryCount events _
      (local_create_inv entryCount h)
    rw [hs] at h1
    cases h1
    exact hi.2.2.2.2
  · intro s hs
    exact (gshare_trainAll_inv entryCount events _ s
      (gshare_create_inv entryCount h) hs).2.2.2
  · intro s hs
    have hi := tournament_trainAll_inv entryCount events _ s
      (tournament_create_inv entryCount h) hs
    exact ⟨hi.2.2.1, hi.2.2.2.1.2.2.2.2, hi.2.2.2.2.2.2.2⟩

/-- Witness of C2: three 4-entry predictors after the same four branches; each of the
three runs returns a state, and its tables hold 2-bit values only. -/
theorem C2_counters_stay_two_bit_witness :
    1 ≤ 4 ∧
    (∃ s, (LocalBranchPredictor.create 4).trainAll
        [(0, false), (1, false), (0, false), (0, false)] = some s ∧
      ∀ c ∈ s.pht_array, c = "00" ∨ c = "01" ∨ c = "10" ∨ c = "11") ∧
    (∃ s, (GshareBranchPredictor.create 4).trainAll
        [(0, false), (1, false), (0, false), (0, false)] = some s ∧
      ∀ c ∈ s.pht_array, c = "00" ∨ c = "01" ∨ c = "10" ∨ c = "11") ∧
    (∃ s, (TournamentBranchPredictor.create 4).trainAll
        [(0, false), (1, false), (0, false), (0, false)] = some s ∧
      ∀ c ∈ s.pht_array, c = "00" ∨ c = "01" ∨ c = "10" ∨ c = "11") :=
  let h := C2_counters_stay_two_bit 4 (by decide)
    [(0, false), (1, false), (0, false), (0, false)]
  ⟨by decide, ⟨_, rfl, h.1 _ rfl⟩, ⟨_, rfl, h.2.1 _ rfl⟩, ⟨_, rfl, (h.2.2 _ rfl).1⟩⟩

/-- C3: for the Local predictor, `getPrediction(pc)` returns taken if and only if the
pattern-table counter addressed by the current value of history register `pc mod 128` is
`10` or `11`. -/
theorem C3_local_prediction_reads_counter (s : LocalBranchPredictor) (pc idx : Nat)
    (c : String) (h1 : s.lhrs[pc % 128]? = some idx) (h2 : s.pht_array[idx]? = some c) :
    ∃ b, s.getPrediction pc = some b ∧ (b = true ↔ (c = "10" ∨ c = "11")) := by
  refine ⟨_, local_getPrediction_eq s pc idx c h1 h2, ?_⟩
  simp only [decide_eq_true_eq]
  exact Or.comm

/-- Witness of C3: pc 130 on a fresh 4-entry Local predictor reads register 2 and
counter 0. -/
theorem C3_local_prediction_reads_counter_witness :
    (LocalBranchPredictor.create 4).lhrs[130 % 128]? = some 0 ∧
    (LocalBranchPredictor.create 4).pht_array[0]? = some "11" ∧
    ∃ b, (LocalBranchPredictor.create 4).getPrediction 130 = some b ∧
      (b = true ↔ (("11" : String) = "10" ∨ ("11" : String) = "11")) :=
  ⟨by decide, by decide,
    C3_local_prediction_reads_counter (LocalBranchPredictor.create 4) 130 0 "11"
      (by decide) (by decide)⟩

/-- C4: for the Local predictor, `train(pc, taken)` sets history register `pc mod 128` to
`new = 2*old + (1 if taken else 0)`, reduced by one single subtraction of the table size
when `new >= tableSize`, and leaves the other 127 history registers unchanged.  The
doubling is stated for a register whose double fits in 64 bits, as it does for every
register below a table size of at most `2 ^ 63`. -/
theorem C4_local_history_shift (s : LocalBranchPredictor) (pc : Nat) (taken : Bool)
    (old : Nat) (c : String) (h1 : s.lhrs[pc % 128]? = some old)
    (h2 : s.pht_array[old]? = some c) (hw : old * 2 + 1 < UINT64_RANGE) :
    ∃ s1, s.train pc taken = some s1 ∧
      s1.lhrs[pc % 128]? =
        some (if 2 * old + (if taken then 1 else 0) ≥ s.bp_entries
          then 2 * old + (if taken then 1 else 0) - s.bp_entries
          else 2 * old + (if taken then 1 else 0)) ∧
      ∀ j, j ≠ pc % 128 → s1.lhrs[j]? = s.lhrs[j]? := by
  refine ⟨_, local_train_eq s pc taken old c h1 h2, ?_, ?_⟩
  · simp only []
    rw [getElem?_set_self_of_some _ _ _ _ h1, history_update_eq_spec _ _ _ hw]
    simp [Spec.historyShift, Nat.mul_comm]
  · intro j hj
    exact getElem?_set_other _ _ _ _ hj

/-- Witness of C4: register 1 of a 3-entry Local predictor holds 2 after a taken and a
not-taken branch at pc 1; a taken branch makes it 2*2+1-3 = 2. -/
theorem C4_local_history_shift_witness :
    ∃ s, (LocalBranchPredictor.create 3).trainAll [(1, true), (1, false)] = some s ∧
      s.lhrs[1 % 128]? = some 2 ∧
      ∃ s1, s.train 1 true = some s1 ∧
        s1.lhrs[1 % 128]? = some (if 2 * 2 + (if true then 1 else 0) ≥ s.bp_entries
          then 2 * 2 + (if true then 1 else 0) - s.bp_entries
          else 2 * 2 + (if true then 1 else 0)) ∧
        ∀ j, j ≠ 1 % 128 → s1.lhrs[j]? = s.lhrs[j]? :=
  ⟨_, rfl, by decide,
    C4_local_history_shift _ 1 true 2 "11" (by decide) (by decide) (by decide)⟩

/-- C5: for the Gshare predictor, `getPrediction(pc)` and `train(pc, _)` both use the table
index `(pc mod tableSize) xor globalHistory` (neither returns when that index is outside
the table); `getPrediction` returns taken iff the counter at that index is `10` or `11`;
`train` rewrites the counter at that index and updates the one global history register by
the doubling plus single conditional subtraction rule, whatever the pc.  The doubling is
stated for a register whose double fits in 64 bits. -/
theorem C5_gshare_index_and_history (s : GshareBranchPredictor) (pc : Nat) (taken : Bool)
    (hn : s.bp_entries ≠ 0) (hw : s.ghr * 2 + 1 < UINT64_RANGE) :
    (s.pht_array[(pc % s.bp_entries) ^^^ s.ghr]? = none →
      s.getPrediction pc = none ∧ s.train pc taken = none) ∧
    (∀ c, s.pht_array[(pc % s.bp_entries) ^^^ s.ghr]? = some c →
      (∃ b, s.getPrediction pc = some b ∧ (b = true ↔ (c = "10" ∨ c = "11"))) ∧
      ∃ s1, s.train pc taken = some s1 ∧
        s1.pht_array = s.pht_array.set ((pc % s.bp_entries) ^^^ s.ghr)
          (SaturatingCounter.next c taken) ∧
        s1.ghr = (if 2 * s.ghr + (if taken then 1 else 0) ≥ s.bp_entries
          then 2 * s.ghr + (if taken then 1 else 0) - s.bp_entries
          else 2 * s.ghr + (if taken then 1 else 0))) := by
  constructor
  · intro h
    constructor
    · cases hp : s.getPrediction pc with
      | none => rfl
      | some b =>
        obtain ⟨_, c, hc⟩ := gshare_getPrediction_some s pc b hp
        rw [h] at hc
        cases hc
    · cases hp : s.train pc taken with
      | none => rfl
      | some s1 =>
        obtain ⟨_, c, hc⟩ := gshare_train_some s s1 pc taken hp
        rw [h] at hc
        cases hc
  · intro c hc
    refine ⟨⟨_, gshare_getPrediction_eq s pc c hn hc, ?_⟩,
      ⟨_, gshare_train_eq s pc taken c hn hc, rfl, ?_⟩⟩
    · simp only [decide_eq_true_eq]
      exact Or.comm
    · simp only []
      rw [history_update_eq_spec _ _ _ hw]
      simp [Spec.historyShift, Nat.mul_comm]

/-- Witness of C5: a 3-entry Gshare predictor with history 2; pc 0 uses index 2 and the
history becomes 2*2+1-3 = 2, pc 1 uses index 3, outside the table. -/
theorem C5_gshare_index_and_history_witness :
    ∃ s, (GshareBranchPredictor.create 3).trainAll [(0, true), (0, false)] = some s ∧
      s.ghr = 2 ∧
      (∃ b, s.getPrediction 0 = some b ∧
        (b = true ↔ (("11" : String) = "10" ∨ ("11" : String) = "11"))) ∧
      (∃ s1, s.train 0 true = some s1 ∧ s1.ghr = 2) ∧
      s.getPrediction 1 = none ∧ s.train 1 true = none :=
  ⟨{ bp_entries := 3, ghr := 2, pht_array := ["11", "10", "11"] }, by decide, by decide,
    ((C5_gshare_index_and_history
      { bp_entries := 3, ghr := 2, pht_array := ["11", "10", "11"] } 0 true (by decide)
      (by decide)).2 "11" (by decide)).1,
    (let ⟨s1, h1, _, h3⟩ :=
      ((C5_gshare_index_and_history
        { bp_entries := 3, ghr := 2, pht_array := ["11", "10", "11"] } 0 true (by decide)
        (by decide)).2 "11" (by decide)).2
     ⟨s1, h1, h3⟩),
    (C5_gshare_index_and_history
      { bp_entries := 3, ghr := 2, pht_array := ["11", "10", "11"] } 1 true (by decide)
      (by decide)).1 (by decide)⟩

/-- C6: for every `entryCount >= 1`, power of two or not, and every sequence of `train`
calls applied to a freshly constructed Gshare predictor, the global history register is at
most `entryCount - 1` in the state the calls return. -/
theorem C6_gshare_history_bounded (entryCount : Nat) (h : 1 ≤ entryCount)
    (events : List (Nat × Bool)) (s : GshareBranchPredictor)
    (hs : (GshareBranchPredictor.create entryCount).trainAll events = some s) :
    s.ghr ≤ entryCount - 1 := by
  have hi := gshare_trainAll_inv entryCount events _ s
    (gshare_create_inv entryCount h) hs
  have := hi.2.2.1
  omega

/-- Witness of C6: ten taken branches at pc 0 on a 1000-entry Gshare predictor wrap the
history from 511 to 2*511+1-1000 = 23. -/
theorem C6_gshare_history_bounded_witness :
    1 ≤ 1000 ∧
    (GshareBranchPredictor.create 1000).trainAll
        [(0, true), (0, true), (0, true), (0, true), (0, true), (0, true), (0, true),
          (0, true), (0, true), (0, true)] =
      some { bp_entries := 1000, ghr := 23, pht_array := List.replicate 1000 "11" } ∧
    (23 : Nat) ≤ 1000 - 1 :=
  ⟨by decide, by decide,
    C6_gshare_history_bounded 1000 (by decide)
      [(0, true), (0, true), (0, true), (0, true), (0, true), (0, true), (0, true),
        (0, true), (0, true), (0, true)]
      { bp_entries := 1000, ghr := 23, pht_array := List.replicate 1000 "11" } (by decide)⟩

/-- C7, evaluated at two table sizes that are not powers of two.  With `entryCount = 3`,
after `train(0, taken)` and `train(0, not taken)` the global history is 2, so for pc 1 the
index `(1 mod 3) xor 2` is 3, which is not an index of the 3-entry pattern table: neither
`getPrediction(1)` nor `train(1, _)` has a table entry to read.  With `entryCount = 1000`,
after four taken branches at pc 0 the global history is 15, and for pc 999 the index
`(999 mod 1000) xor 15` is 1000. -/
theorem C7_gshare_index_outside_table :
    (∃ s, (GshareBranchPredictor.create 3).trainAll [(0, true), (0, false)] = some s ∧
      s.bp_entries = 3 ∧ s.pht_array.length = 3 ∧ s.ghr = 2 ∧
      (1 % s.bp_entries) ^^^ s.ghr = 3 ∧
      s.pht_array[(1 % s.bp_entries) ^^^ s.ghr]? = none ∧
      s.getPrediction 1 = none ∧ s.train 1 true = none ∧ s.train 1 false = none) ∧
    ((GshareBranchPredictor.create 1000).trainAll
        [(0, true), (0, true), (0, true), (0, true)] =
      some { bp_entries := 1000, ghr := 15, pht_array := List.replicate 1000 "11" } ∧
      (999 % 1000) ^^^ 15 = 1000 ∧
      GshareBranchPredictor.getPrediction
        { bp_entries := 1000, ghr := 15, pht_array := List.replicate 1000 "11" } 999 =
          none) :=
  ⟨⟨_, rfl, by decide⟩, by decide⟩

/-- C8: for every Tournament state reached from construction with `entryCount >= 1` and
every pc, the selector counter at index `pc mod tableSize` exists, and `getPrediction(pc)`
equals the prediction of the Gshare sub-predictor for pc when that counter is `10` or `11`, and
the prediction of the Local sub-predictor for pc otherwise. -/
theorem C8_tournament_prediction_selects (entryCount : Nat) (h : 1 ≤ entryCount)
    (events : List (Nat × Bool)) (s : TournamentBranchPredictor)
    (hs : (TournamentBranchPredictor.create entryCount).trainAll events = some s)
    (pc : Nat) :
    ∃ c, s.pht_array[pc % s.bp_entries]? = some c ∧
      s.getPrediction pc =
        if c = "10" ∨ c = "11" then s.gsb_predictor.getPrediction pc
        else s.lb_predictor.getPrediction pc := by
  obtain ⟨hbp, hpl, _, _, _⟩ := tournament_trainAll_inv entryCount events _ s
    (tournament_create_inv entryCount h) hs
  have hn : s.bp_entries ≠ 0 := by omega
  have hlt : pc % s.bp_entries < s.pht_array.length := by
    rw [hpl, hbp]
    exact Nat.mod_lt _ (by omega)
  have hc : s.pht_array[pc % s.bp_entries]? = some s.pht_array[pc % s.bp_entries] :=
    List.getElem?_eq_getElem hlt
  refine ⟨_, hc, ?_⟩
  simp only [TournamentBranchPredictor.getPrediction, hn, hc, if_false, Option.bind_eq_bind,
    Option.some_bind, Option.pure_def]
  by_cases h1 : s.pht_array[pc % s.bp_entries] = "11"
  · simp [h1]
  · by_cases h2 : s.pht_array[pc % s.bp_entries] = "10"
    · simp [h2]
    · simp [h1, h2]

/-- Witness of C8: after three not-taken branches on a 4-entry Tournament predictor the
selector at index 0 is `10` and the prediction for pc 0 is the Gshare one, while the
selector at index 1 is `11`. -/
theorem C8_tournament_prediction_selects_witness :
    1 ≤ 4 ∧
    ∃ s, (TournamentBranchPredictor.create 4).trainAll
        [(0, false), (1, false), (0, false)] = some s ∧
      s.pht_array = ["10", "11", "11", "11"] ∧
      ∃ c, s.pht_array[0 % s.bp_entries]? = some c ∧
        s.getPrediction 0 =
          if c = "10" ∨ c = "11" then s.gsb_predictor.getPrediction 0
          else s.lb_predictor.getPrediction 0 :=
  ⟨by decide, _, rfl, by decide,
    C8_tournament_prediction_selects 4 (by decide) [(0, false), (1, false), (0, false)] _
      rfl 0⟩

/-- C9: `Tournament.train(pc, taken)` updates the selector counter at index
`pc mod tableSize`, using the predictions of the sub-predictors taken before they are trained,
exactly by the table: from `11` to `10` if Gshare was wrong and Local right, else
unchanged; from `10` to `11` if Gshare was right, else to `01` if Local was right, else
unchanged; from `01` to `00` if Local was right, else to `10` if Gshare was right, else
unchanged; from `00` it stays `00` whenever the branch was taken, else goes to `01` if
Gshare was right and Local wrong, else unchanged.  Every other selector entry is
unchanged. -/
theorem C9_tournament_selector_table (s : TournamentBranchPredictor) (pc : Nat)
    (taken : Bool) (c : String) (lp gp : Bool) (hn : s.bp_entries ≠ 0)
    (hc : s.pht_array[pc % s.bp_entries]? = some c)
    (hl : s.lb_predictor.getPrediction pc = some lp)
    (hg : s.gsb_predictor.getPrediction pc = some gp) :
    ∃ s1, s.train pc taken = some s1 ∧
      s1.pht_array[pc % s.bp_entries]? =
        some (Spec.selectorNext c (gp == taken) (lp == taken) taken) ∧
      ∀ j, j ≠ pc % s.bp_entries → s1.pht_array[j]? = s.pht_array[j]? := by
  obtain ⟨lo, lc, hlo, hlc⟩ := local_getPrediction_some _ pc lp hl
  obtain ⟨hgn, gc, hgc⟩ := gshare_getPrediction_some _ pc gp hg
  refine ⟨_, tournament_train_eq s pc taken c lp gp _ _ hn hc hl hg
    (local_train_eq _ pc taken lo lc hlo hlc)
    (gshare_train_eq _ pc taken gc hgn hgc), ?_, ?_⟩
  · exact getElem?_set_self_of_some _ _ _ _ hc
  · intro j hj
    exact getElem?_set_other _ _ _ _ hj

/-- Witness of C9: after two not-taken branches on a 4-entry Tournament predictor, Local
predicts not-taken and Gshare taken for pc 0; a not-taken branch moves the selector at
index 0 from `11` to `10`. -/
theorem C9_tournament_selector_table_witness :
    ∃ s, (TournamentBranchPredictor.create 4).trainAll [(0, false), (1, false)] = some s ∧
      s.pht_array[0 % s.bp_entries]? = some "11" ∧
      s.lb_predictor.getPrediction 0 = some false ∧
      s.gsb_predictor.getPrediction 0 = some true ∧
      ∃ s1, s.train 0 false = some s1 ∧
        s1.pht_array[0 % s.bp_entries]? =
          some (Spec.selectorNext "11" (true == false) (false == false) false) ∧
        ∀ j, j ≠ 0 % s.bp_entries → s1.pht_array[j]? = s.pht_array[j]? :=
  ⟨_, rfl, by decide, by decide, by decide,
    C9_tournament_selector_table _ 0 false "11" false true (by decide) (by decide)
      (by decide) (by decide)⟩

/-- C10 fails as stated: on the 4-entry Tournament predictor reached by three not-taken
branches at pcs 0, 1, 0, both sub-predictors predict not-taken for pc 0; training pc 0 with
a not-taken branch (both right) moves the selector at index 0 from `10` to `11`. -/
theorem C10_selector_moves_when_both_right :
    ∃ s s1, (TournamentBranchPredictor.create 4).trainAll
        [(0, false), (1, false), (0, false)] = some s ∧
      s.lb_predictor.getPrediction 0 = some false ∧
      s.gsb_predictor.getPrediction 0 = some false ∧
      s.train 0 false = some s1 ∧
      s.pht_array = ["10", "11", "11", "11"] ∧
      s1.pht_array = ["11", "11", "11", "11"] ∧
      s1.pht_array ≠ s.pht_array :=
  ⟨_, _, rfl, by decide, by decide, rfl, by decide, by decide, by decide⟩

/-- C10, amended: when both sub-predictors were wrong, `Tournament.train` leaves the
selector table as it was; when both were right, it leaves a selector counter `11` or `00`
as it was, moves a selector counter `10` to `11` and a selector counter `01` to `00`, and
leaves every other selector entry unchanged. -/
theorem C10_selector_when_predictors_agree (s : TournamentBranchPredictor) (pc : Nat)
    (taken : Bool) (c : String) (lp gp : Bool) (hn : s.bp_entries ≠ 0)
    (hc : s.pht_array[pc % s.bp_entries]? = some c)
    (hl : s.lb_predictor.getPrediction pc = some lp)
    (hg : s.gsb_predictor.getPrediction pc = some gp) :
    ∃ s1, s.train pc taken = some s1 ∧
      (lp ≠ taken ∧ gp ≠ taken → s1.pht_array = s.pht_array) ∧
      (lp = taken ∧ gp = taken →
        s1.pht_array[pc % s.bp_entries]? =
          some (if c = "10" then "11" else if c = "01" then "00" else c) ∧
        ∀ j, j ≠ pc % s.bp_entries → s1.pht_array[j]? = s.pht_array[j]?) := by
  obtain ⟨lo, lc, hlo, hlc⟩ := local_getPrediction_some _ pc lp hl
  obtain ⟨hgn, gc, hgc⟩ := gshare_getPrediction_some _ pc gp hg
  refine ⟨_, tournament_train_eq s pc taken c lp gp _ _ hn hc hl hg
    (local_train_eq _ pc taken lo lc hlo hlc)
    (gshare_train_eq _ pc taken gc hgn hgc), ?_, ?_⟩
  · rintro ⟨h1, h2⟩
    have hg0 : (gp == taken) = false := by cases gp <;> cases taken <;> simp_all
    have hl0 : (lp == taken) = false := by cases lp <;> cases taken <;> simp_all
    have hsame : Spec.selectorNext c false false taken = c := by
      unfold Spec.selectorNext
      split <;> simp_all
    simp only [hg0, hl0, hsame]
    exact set_same_of_getElem? _ _ _ hc
  · rintro ⟨h1, h2⟩
    have hg1 : (gp == taken) = true := by simp [h2]
    have hl1 : (lp == taken) = true := by simp [h1]
    have hnext : Spec.selectorNext c true true taken =
        (if c = "10" then "11" else if c = "01" then "00" else c) := by
      unfold Spec.selectorNext
      split <;> simp_all
    constructor
    · simp only [hg1, hl1, hnext]
      exact getElem?_set_self_of_some _ _ _ _ hc
    · intro j hj
      exact getElem?_set_other _ _ _ _ hj

/-- Witness of C10, amended: the state of the counterexample, where both sub-predictors
are right about a not-taken branch at pc 0 and the selector at index 0 is `10`. -/
theorem C10_selector_when_predictors_agree_witness :
    ∃ s, (TournamentBranchPredictor.create 4).trainAll
        [(0, false), (1, false), (0, false)] = some s ∧
      ∃ s1, s.train 0 false = some s1 ∧
        (false ≠ false ∧ false ≠ false → s1.pht_array = s.pht_array) ∧
        (false = false ∧ false = false →
          s1.pht_array[0 % s.bp_entries]? =
            some (if ("10" : String) = "10" then "11"
              else if ("10" : String) = "01" then "00" else "10") ∧
          ∀ j, j ≠ 0 % s.bp_entries → s1.pht_array[j]? = s.pht_array[j]?) :=
  ⟨_, rfl,
    C10_selector_when_predictors_agree _ 0 false "10" false false (by decide) (by decide)
      (by decide) (by decide)⟩

/-- C11: `Tournament.train` always trains both sub-predictors: the Local and Gshare
sub-states after `Tournament.train(pc, taken)` are `Local.train(pc, taken)` and
`Gshare.train(pc, taken)` applied to the sub-states before; so after any event sequence
from construction the two sub-predictors are in the same state as standalone Local and
Gshare predictors of the same `entryCount` fed the same sequence, and the Tournament
sequence returns whenever the two standalone sequences do. -/
theorem C11_tournament_trains_both_subpredictors :
    (∀ (s s1 : TournamentBranchPredictor) (pc : Nat) (taken : Bool),
      s.train pc taken = some s1 →
      s.lb_predictor.train pc taken = some s1.lb_predictor ∧
        s.gsb_predictor.train pc taken = some s1.gsb_predictor) ∧
    (∀ (entryCount : Nat) (events : List (Nat × Bool)) (t : TournamentBranchPredictor),
      (TournamentBranchPredictor.create entryCount).trainAll events = some t →
      (LocalBranchPredictor.create entryCount).trainAll events = some t.lb_predictor ∧
        (GshareBranchPredictor.create entryCount).trainAll events =
          some t.gsb_predictor) ∧
    (∀ (entryCount : Nat) (events : List (Nat × Bool)) (l : LocalBranchPredictor)
      (g : GshareBranchPredictor), 1 ≤ entryCount →
      (LocalBranchPredictor.create entryCount).trainAll events = some l →
      (GshareBranchPredictor.create entryCount).trainAll events = some g →
      ∃ t, (TournamentBranchPredictor.create entryCount).trainAll events = some t ∧
        t.lb_predictor = l ∧ t.gsb_predictor = g) := by
  refine ⟨tournament_train_subs, ?_, ?_⟩
  · intro n events t h
    exact tournament_trainAll_subs events _ t h
  · intro n events l g hn hl hg
    exact tournament_trainAll_total n hn events _ l g (tournament_create_inv n hn) hl hg

/-- Witness of C11: four branches on a 4-entry Tournament predictor and on standalone
4-entry Local and Gshare predictors. -/
theorem C11_tournament_trains_both_subpredictors_witness :
    ∃ t, (TournamentBranchPredictor.create 4).trainAll
        [(0, false), (1, true), (0, false), (5, false)] = some t ∧
      (LocalBranchPredictor.create 4).trainAll
        [(0, false), (1, true), (0, false), (5, false)] = some t.lb_predictor ∧
      (GshareBranchPredictor.create 4).trainAll
        [(0, false), (1, true), (0, false), (5, false)] = some t.gsb_predictor :=
  ⟨_, rfl,
    C11_tournament_trains_both_subpredictors.2.1 4
      [(0, false), (1, true), (0, false), (5, false)] _ rfl⟩

/-- C12 fails as stated: with `num_BP_entries = 0` the construction in `main` reports no
error; it returns a Local, Gshare or Tournament predictor with an empty pattern table. -/
theorem C12_zero_entries_returns_predictor :
    BPExample.main "local" 0 =
      .ok (.Local { bp_entries := 0, lhrs := List.replicate 128 0, pht_array := [] }) ∧
    BPExample.main "gshare" 0 =
      .ok (.Gshare { bp_entries := 0, ghr := 0, pht_array := [] }) ∧
    BPExample.main "tournament" 0 =
      .ok (.Tournament
        { bp_entries := 0
          pht_array := []
          lb_predictor := { bp_entries := 0, lhrs := List.replicate 128 0, pht_array := [] }
          gsb_predictor := { bp_entries := 0, ghr := 0, pht_array := [] } }) :=
  ⟨rfl, rfl, rfl⟩

/-- C12, amended: construction never reports a configuration error for the entry count.
For every `entryCount`, 0 included, `main` returns the Local, Gshare or Tournament
predictor that the constructor builds, with a pattern table of `entryCount` entries; the
only configuration error of `main` is an unknown predictor type.  On a predictor built
with `entryCount = 0` no `getPrediction` or `train` call has a result. -/
theorem C12_construction_has_no_entry_check :
    (∀ n, BPExample.main "local" n = .ok (.Local (LocalBranchPredictor.create n)) ∧
      BPExample.main "gshare" n = .ok (.Gshare (GshareBranchPredictor.create n)) ∧
      BPExample.main "tournament" n =
        .ok (.Tournament (TournamentBranchPredictor.create n)) ∧
      (LocalBranchPredictor.create n).pht_array.length = n ∧
      (GshareBranchPredictor.create n).pht_array.length = n ∧
      (TournamentBranchPredictor.create n).pht_array.length = n) ∧
    (∀ name n, name ≠ "always_taken" → name ≠ "local" → name ≠ "gshare" →
      name ≠ "tournament" → ∃ msg, BPExample.main name n = .error msg) ∧
    (∀ pc taken,
      (LocalBranchPredictor.create 0).getPrediction pc = none ∧
      (LocalBranchPredictor.create 0).train pc taken = none ∧
      (GshareBranchPredictor.create 0).getPrediction pc = none ∧
      (GshareBranchPredictor.create 0).train pc taken = none ∧
      (TournamentBranchPredictor.create 0).getPrediction pc = none ∧
      (TournamentBranchPredictor.create 0).train pc taken = none) := by
  refine ⟨?_, ?_, ?_⟩
  · intro n
    refine ⟨rfl, rfl, rfl, ?_, ?_, ?_⟩ <;>
      simp [LocalBranchPredictor.create, GshareBranchPredictor.create,
        TournamentBranchPredictor.create]
  · intro name n h1 h2 h3 h4
    exact ⟨"Error: No such type of branch predictor. Simulation will be terminated.",
      by simp [BPExample.main, h1, h2, h3, h4]⟩
  · intro pc taken
    have hl : (LocalBranchPredictor.create 0).lhrs[pc % 128]? = some 0 := by
      have hlt : pc % 128 < 128 := Nat.mod_lt _ (by decide)
      show (List.replicate 128 0)[pc % 128]? = some 0
      rw [List.getElem?_replicate, if_pos hlt]
    refine ⟨?_, ?_, ?_, ?_, ?_, ?_⟩
    · simp [LocalBranchPredictor.getPrediction, hl, LocalBranchPredictor.create]
    · simp [LocalBranchPredictor.train, hl, LocalBranchPredictor.create]
    · simp [GshareBranchPredictor.getPrediction, GshareBranchPredictor.create]
    · simp [GshareBranchPredictor.train, GshareBranchPredictor.create]
    · simp [TournamentBranchPredictor.getPrediction, TournamentBranchPredictor.create]
    · simp [TournamentBranchPredictor.train, TournamentBranchPredictor.create]

/-- Witness of C12, amended: the type name `bimodal` is not one of the four names. -/
theorem C12_construction_has_no_entry_check_witness :
    ∃ msg, BPExample.main "bimodal" 0 = .error msg :=
  C12_construction_has_no_entry_check.2.1 "bimodal" 0 (by decide) (by decide) (by decide)
    (by decide)

/-- C13: for the 2-bit counter transition of Local and Gshare `train`, from each of the
four states `00`, `01`, `10`, `11`, four taken outcomes in a row give `11` and four
not-taken outcomes in a row give `00`, and a further identical outcome leaves the extreme
unchanged.  Stated for the law and for `train` itself on a Local and on a Gshare predictor
with one table entry, where every call trains the same counter. -/
theorem C13_four_identical_outcomes_saturate (c : String)
    (hc : c = "00" ∨ c = "01" ∨ c = "10" ∨ c = "11") (pc : Nat) :
    (SaturatingCounter.next (SaturatingCounter.next (SaturatingCounter.next
        (SaturatingCounter.next c true) true) true) true = "11" ∧
      SaturatingCounter.next (SaturatingCounter.next (SaturatingCounter.next
        (SaturatingCounter.next c false) false) false) false = "00" ∧
      SaturatingCounter.next "11" true = "11" ∧
      SaturatingCounter.next "00" false = "00") ∧
    (LocalBranchPredictor.trainAll
        { bp_entries := 1, lhrs := List.replicate 128 0, pht_array := [c] }
        [(pc, true), (pc, true), (pc, true), (pc, true)] =
        some { bp_entries := 1, lhrs := List.replicate 128 0, pht_array := ["11"] } ∧
      LocalBranchPredictor.trainAll
        { bp_entries := 1, lhrs := List.replicate 128 0, pht_array := [c] }
        [(pc, false), (pc, false), (pc, false), (pc, false)] =
        some { bp_entries := 1, lhrs := List.replicate 128 0, pht_array := ["00"] } ∧
      LocalBranchPredictor.train
        { bp_entries := 1, lhrs := List.replicate 128 0, pht_array := ["11"] } pc true =
        some { bp_entries := 1, lhrs := List.replicate 128 0, pht_array := ["11"] } ∧
      LocalBranchPredictor.train
        { bp_entries := 1, lhrs := List.replicate 128 0, pht_array := ["00"] } pc false =
        some { bp_entries := 1, lhrs := List.replicate 128 0, pht_array := ["00"] }) ∧
    (GshareBranchPredictor.trainAll { bp_entries := 1, ghr := 0, pht_array := [c] }
        [(pc, true), (pc, true), (pc, true), (pc, true)] =
        some { bp_entries := 1, ghr := 0, pht_array := ["11"] } ∧
      GshareBranchPredictor.trainAll { bp_entries := 1, ghr := 0, pht_array := [c] }
        [(pc, false), (pc, false), (pc, false), (pc, false)] =
        some { bp_entries := 1, ghr := 0, pht_array := ["00"] } ∧
      GshareBranchPredictor.train { bp_entries := 1, ghr := 0, pht_array := ["11"] }
        pc true = some { bp_entries := 1, ghr := 0, pht_array := ["11"] } ∧
      GshareBranchPredictor.train { bp_entries := 1, ghr := 0, pht_array := ["00"] }
        pc false = some { bp_entries := 1, ghr := 0, pht_array := ["00"] }) := by
  have law :
      SaturatingCounter.next (SaturatingCounter.next (SaturatingCounter.next
        (SaturatingCounter.next c true) true) true) true = "11" ∧
      SaturatingCounter.next (SaturatingCounter.next (SaturatingCounter.next
        (SaturatingCounter.next c false) false) false) false = "00" ∧
      SaturatingCounter.next "11" true = "11" ∧
      SaturatingCounter.next "00" false = "00" := by
    rcases hc with h | h | h | h <;> subst h <;> decide
  refine ⟨law, ⟨?_, ?_, ?_, ?_⟩, ⟨?_, ?_, ?_, ?_⟩⟩
  · simp only [LocalBranchPredictor.trainAll, local_single_entry_train,
      Option.some_bind, law.1]
  · simp only [LocalBranchPredictor.trainAll, local_single_entry_train,
      Option.some_bind, law.2.1]
  · rw [local_single_entry_train, law.2.2.1]
  · rw [local_single_entry_train, law.2.2.2]
  · simp only [GshareBranchPredictor.trainAll, gshare_single_entry_train,
      Option.some_bind, law.1]
  · simp only [GshareBranchPredictor.trainAll, gshare_single_entry_train,
      Option.some_bind, law.2.1]
  · rw [gshare_single_entry_train, law.2.2.1]
  · rw [gshare_single_entry_train, law.2.2.2]

/-- Witness of C13: the counter `01` under four taken and under four not-taken branches
at pc 7. -/
theorem C13_four_identical_outcomes_saturate_witness :
    LocalBranchPredictor.trainAll
        { bp_entries := 1, lhrs := List.replicate 128 0, pht_array := ["01"] }
        [(7, true), (7, true), (7, true), (7, true)] =
        some { bp_entries := 1, lhrs := List.replicate 128 0, pht_array := ["11"] } ∧
    GshareBranchPredictor.trainAll { bp_entries := 1, ghr := 0, pht_array := ["01"] }
        [(7, false), (7, false), (7, false), (7, false)] =
        some { bp_entries := 1, ghr := 0, pht_array := ["00"] } :=
  let h := C13_four_identical_outcomes_saturate "01" (by decide) 7
  ⟨h.2.1.1, h.2.2.2.1⟩

/-- C14: on a Local predictor freshly constructed with `entryCount = 1024`, for any fixed
pc, after any number `k` of `train(pc, taken)` calls (so after 0, 1, 2 and after each of
the following 1000 or more) the calls have returned and `getPrediction(pc)` is taken. -/
theorem C14_local_always_taken_converges (pc k : Nat) :
    ∃ s, (LocalBranchPredictor.create 1024).trainAll (List.replicate k (pc, true)) = some s ∧
      s.getPrediction pc = some true := by
  obtain ⟨s, hs, hi, hp⟩ := local_trainAll_taken_all_strong 1024 pc k
    (LocalBranchPredictor.create 1024) (local_create_inv 1024 (by decide)) rfl
  refine ⟨s, hs, ?_⟩
  obtain ⟨old, c, hr1, hr2, _⟩ := local_reads_of_inv 1024 s pc hi
  have hc : c = "11" := by
    have hm := mem_of_getElem?_some _ _ _ hr2
    rw [hp] at hm
    exact List.eq_of_mem_replicate hm
  rw [local_getPrediction_eq s pc old c hr1 hr2, hc]
  rfl

/-- C15: for `entryCount = 2^k` (with `2^k` a `UINT64` value, that is `k <= 63`), after any
sequence of `train` calls on a freshly constructed Gshare predictor the calls have
returned and the global history register is the `k`-bit number whose bits are the last
`k` outcomes (1 = taken, most recent outcome in the least significant bit, outcomes before
the start counted as 0); and on a freshly constructed Local predictor every history
register `i` is that number for the outcomes of the branches with `pc mod 128 = i`. -/
theorem C15_history_holds_last_k_outcomes (k : Nat) (hk : k ≤ 63)
    (events : List (Nat × Bool)) :
    (∃ s, (GshareBranchPredictor.create (2 ^ k)).trainAll events = some s ∧
      s.ghr = Spec.lastOutcomes k (events.map Prod.snd)) ∧
    (∃ s, (LocalBranchPredictor.create (2 ^ k)).trainAll events = some s ∧
      ∀ i, i < 128 → s.lhrs[i]? = some (Spec.lastOutcomes k
        ((events.filter (fun e => e.1 % 128 = i)).map Prod.snd))) := by
  have hpos : 1 ≤ 2 ^ k := Nat.two_pow_pos _
  constructor
  · obtain ⟨s, hs, _, hg⟩ := gshare_trainAll_pow2 k hk events
      (GshareBranchPredictor.create (2 ^ k)) [] (gshare_create_inv _ hpos)
      (by simp [GshareBranchPredictor.create, Spec.lastOutcomes, bitsValue_nil])
    exact ⟨s, hs, by simpa using hg⟩
  · obtain ⟨s, hs, hh⟩ := local_trainAll_pow2 k hk events
      (LocalBranchPredictor.create (2 ^ k)) (fun _ => []) (local_create_inv _ hpos)
      (by
        intro i hi
        show (List.replicate 128 0)[i]? = some (Spec.lastOutcomes k [])
        rw [List.getElem?_replicate, if_pos hi]
        simp [Spec.lastOutcomes, bitsValue_nil])
    exact ⟨s, hs, by simpa using hh⟩

/-- Witness of C15: an 8-entry Gshare predictor (`k = 3`) after the outcomes taken,
taken, not-taken, taken, taken holds the last three, `011` in binary. -/
theorem C15_history_holds_last_k_outcomes_witness :
    (3 : Nat) ≤ 63 ∧
    Spec.lastOutcomes 3 [true, true, false, true, true] = 3 ∧
    ∃ s, (GshareBranchPredictor.create (2 ^ 3)).trainAll
        [(0, true), (1, true), (2, false), (3, true), (4, true)] = some s ∧
      s.ghr = Spec.lastOutcomes 3
        (List.map Prod.snd [(0, true), (1, true), (2, false), (3, true), (4, true)]) :=
  ⟨by decide, by decide,
    (C15_history_holds_last_k_outcomes 3 (by decide)
      [(0, true), (1, true), (2, false), (3, true), (4, true)]).1⟩

/-! ## Claims about the Stride prefetcher -/

/-- C16: Stride `train` on the entry found by the preceding `prefetch` call (row `k` with
`entryIdx = k`, a live row whose key is the load PC), with correct meaning that `addr` is
`lastAddr + stride` of that row in 64-bit arithmetic, moves the state of the row exactly
by the 4-state machine: Initial to Steady if correct and to Transient if wrong, Transient
to Steady or NoPrediction, Steady to Steady or Initial, NoPrediction to Transient or
NoPrediction. -/
theorem C16_stride_train_state_machine {C : Type} (ops : CacheOps C)
    (aggression blockSize : Nat) (s0 s : StridePrefetcher) (g g1 : Globals C)
    (addr loadPC rand k : Nat) (row : RPTRow) (st : Spec.StrideState)
    (hp : s0.prefetch ops aggression blockSize g addr loadPC = some (s, g1))
    (hk : s.entryIdx = (k : Int)) (hrow : s0.RPT[k]? = some row)
    (hst : row.state = st.code) :
    row.loadPC = loadPC ∧ k < s0.numberOfEntries ∧
    ∃ s1 row1, s.train aggression blockSize addr loadPC rand = some s1 ∧
      s1.RPT[k]? = some row1 ∧ row1.loadPC = loadPC ∧
      row1.state = (Spec.strideNext st
        (decide (addr = (row.prev_addr + row.stride) % UINT64_RANGE))).code := by
  obtain ⟨k1, r, row1, s1, hk1, hlive, hr, hkey, ht, _, hget, _, hrow1⟩ :=
    stride_found_then_train ops aggression blockSize s0 s g g1 addr loadPC rand hp
      (by omega)
  have hkk : k1 = k := by omega
  subst hkk
  rw [hrow] at hr
  cases hr
  refine ⟨hkey, hlive, s1, row1, ht, hget, ?_, ?_⟩
  · subst hrow1
    split_ifs <;> exact hkey
  · subst hrow1
    cases st <;>
      by_cases hc : addr = (row.prev_addr + row.stride) % UINT64_RANGE <;>
      simp [Spec.StrideState.code] at hst <;>
      simp [hst, hc, Spec.strideNext, Spec.StrideState.code]

/-- Witness of C16: the row `(pc 1, lastAddr 100, stride 0, Initial)` and the access
`104` from pc 1, a wrong prediction: the row moves to Transient. -/
theorem C16_stride_train_state_machine_witness :
    ∃ s g1, StridePrefetcher.prefetch listCache 2 4
        (StridePrefetcher.oneRow { loadPC := 1, prev_addr := 100, stride := 0, state := 0 })
        (Globals.start []) 104 1 = some (s, g1) ∧
      s.entryIdx = 0 ∧
      ∃ s1 row1, s.train 2 4 104 1 0 = some s1 ∧ s1.RPT[0]? = some row1 ∧
        row1.loadPC = 1 ∧
        row1.state = (Spec.strideNext .Initial
          (decide (104 = (100 + 0) % UINT64_RANGE))).code :=
  ⟨_, _, rfl, rfl,
    (C16_stride_train_state_machine listCache 2 4
      (StridePrefetcher.oneRow { loadPC := 1, prev_addr := 100, stride := 0, state := 0 })
      _ (Globals.start []) _ 104 1 0 0
      { loadPC := 1, prev_addr := 100, stride := 0, state := 0 } .Initial rfl rfl rfl
      rfl).2.2⟩

/-- C17 fails as stated: after the misses 100, 104, 108 from pc 1 the row is
`(1, 108, 4, Steady)`; the miss 200 is a wrong prediction (`108 + 4` is not 200), and
`train` moves the row to Initial with `lastAddr = 200` but leaves the stride at 4, not
`200 - 108 = 92`. -/
theorem C17_steady_wrong_keeps_stride :
    ∃ s g s1 g1 s2,
      StridePrefetcher.onMisses listCache 2 4 StridePrefetcher.create (Globals.start [])
        [(100, 1, 0), (104, 1, 0), (108, 1, 0)] = some (s, g) ∧
      s.RPT[0]? = some { loadPC := 1, prev_addr := 108, stride := 4, state := 2 } ∧
      s.prefetch listCache 2 4 g 200 1 = some (s1, g1) ∧
      s1.entryIdx = 0 ∧
      (108 + 4) % UINT64_RANGE ≠ 200 ∧
      s1.train 2 4 200 1 0 = some s2 ∧
      s2.RPT[0]? = some { loadPC := 1, prev_addr := 200, stride := 4, state := 0 } ∧
      u64sub 200 108 = 92 :=
  ⟨_, _, _, _, _, rfl, by decide, rfl, by decide, by decide, rfl, by decide, by decide⟩

/-- C17, amended: for the entry found by the preceding `prefetch` call, if `addr` differs
from `lastAddr + stride` then after `train` the stride of the entry is `addr` minus the
old `lastAddr` (in 64-bit arithmetic) when the entry was Initial, Transient or
NoPrediction, and is unchanged when the entry was Steady; on a correct prediction the
stride is unchanged. -/
theorem C17_stride_update_on_wrong_prediction {C : Type} (ops : CacheOps C)
    (aggression blockSize : Nat) (s0 s : StridePrefetcher) (g g1 : Globals C)
    (addr loadPC rand k : Nat) (row : RPTRow)
    (hp : s0.prefetch ops aggression blockSize g addr loadPC = some (s, g1))
    (hk : s.entryIdx = (k : Int)) (hrow : s0.RPT[k]? = some row) :
    ∃ s1 row1, s.train aggression blockSize addr loadPC rand = some s1 ∧
      s1.RPT[k]? = some row1 ∧
      (addr = (row.prev_addr + row.stride) % UINT64_RANGE → row1.stride = row.stride) ∧
      (addr ≠ (row.prev_addr + row.stride) % UINT64_RANGE →
        row.state = Spec.StrideState.Initial.code ∨
          row.state = Spec.StrideState.Transient.code ∨
          row.state = Spec.StrideState.NoPrediction.code →
        row1.stride = u64sub addr row.prev_addr) ∧
      (addr ≠ (row.prev_addr + row.stride) % UINT64_RANGE →
        row.state = Spec.StrideState.Steady.code → row1.stride = row.stride) := by
  obtain ⟨k1, r, row1, s1, hk1, _, hr, _, ht, _, hget, _, hrow1⟩ :=
    stride_found_then_train ops aggression blockSize s0 s g g1 addr loadPC rand hp
      (by omega)
  have hkk : k1 = k := by omega
  subst hkk
  rw [hrow] at hr
  cases hr
  refine ⟨s1, row1, ht, hget, ?_, ?_, ?_⟩
  · intro hc
    subst hrow1
    split_ifs <;> rfl
  · intro hc hs
    subst hrow1
    simp only [Spec.StrideState.code] at hs
    rcases hs with hs | hs | hs <;> simp [hs, hc]
  · intro hc hs
    subst hrow1
    simp only [Spec.StrideState.code] at hs
    simp [hs, hc]

/-- Witness of C17, amended: the Steady row `(1, 108, 4, Steady)` and the wrong access
200 keep the stride 4; the Initial row `(1, 100, 0, Initial)` and the wrong access 104
get the stride `104 - 100`. -/
theorem C17_stride_update_on_wrong_prediction_witness :
    (∃ s g1, StridePrefetcher.prefetch listCache 2 4
        (StridePrefetcher.oneRow { loadPC := 1, prev_addr := 108, stride := 4, state := 2 })
        (Globals.start []) 200 1 = some (s, g1) ∧
      ∃ s1 row1, s.train 2 4 200 1 0 = some s1 ∧ s1.RPT[0]? = some row1 ∧
        row1.stride = 4) ∧
    (∃ s g1, StridePrefetcher.prefetch listCache 2 4
        (StridePrefetcher.oneRow { loadPC := 1, prev_addr := 100, stride := 0, state := 0 })
        (Globals.start []) 104 1 = some (s, g1) ∧
      ∃ s1 row1, s.train 2 4 104 1 0 = some s1 ∧ s1.RPT[0]? = some row1 ∧
        row1.stride = u64sub 104 100) :=
  ⟨⟨_, _, rfl,
    (let ⟨s1, row1, h1, h2, _, _, h5⟩ :=
      C17_stride_update_on_wrong_prediction listCache 2 4
        (StridePrefetcher.oneRow { loadPC := 1, prev_addr := 108, stride := 4, state := 2 })
        _ (Globals.start []) _ 200 1 0 0
        { loadPC := 1, prev_addr := 108, stride := 4, state := 2 } rfl rfl rfl
     ⟨s1, row1, h1, h2, h5 (by decide) rfl⟩)⟩,
   ⟨_, _, rfl,
    (let ⟨s1, row1, h1, h2, _, h4, _⟩ :=
      C17_stride_update_on_wrong_prediction listCache 2 4
        (StridePrefetcher.oneRow { loadPC := 1, prev_addr := 100, stride := 0, state := 0 })
        _ (Globals.start []) _ 104 1 0 0
        { loadPC := 1, prev_addr := 100, stride := 0, state := 0 } rfl rfl rfl
     ⟨s1, row1, h1, h2, h4 (by decide) (Or.inl rfl)⟩)⟩⟩

/-- C18: Stride `train` on the entry found by the preceding `prefetch` call sets
`lastAddr` as follows: in Steady with a correct prediction the state stays Steady and,
when the `int` product `aggression * blockSize` of the two globals does not overflow,
`lastAddr` becomes `addr + aggression*blockSize` in 64-bit arithmetic (for knob values
below `2 ^ 31` with a product below `2 ^ 31` this is
`(addr + aggression * blockSize) mod 2 ^ 64`); on every other path of the four states, in
particular on every path that changes the state, `lastAddr` becomes the observed
`addr`. -/
theorem C18_stride_last_address {C : Type} (ops : CacheOps C)
    (aggression blockSize : Nat) (s0 s : StridePrefetcher) (g g1 : Globals C)
    (addr loadPC rand k : Nat) (row : RPTRow)
    (hp : s0.prefetch ops aggression blockSize g addr loadPC = some (s, g1))
    (hk : s.entryIdx = (k : Int)) (hrow : s0.RPT[k]? = some row) :
    ∃ s1 row1, s.train aggression blockSize addr loadPC rand = some s1 ∧
      s1.RPT[k]? = some row1 ∧
      (row.state = Spec.StrideState.Steady.code →
        addr = (row.prev_addr + row.stride) % UINT64_RANGE →
        row1.state = Spec.StrideState.Steady.code ∧
        (Spec.intProductFits (toInt32 aggression) (toInt32 blockSize) →
          row1.prev_addr =
            intToUInt64 ((addr : Int) + toInt32 aggression * toInt32 blockSize)) ∧
        (aggression < 2147483648 → blockSize < 2147483648 →
          aggression * blockSize < 2147483648 →
          row1.prev_addr = (addr + aggression * blockSize) % UINT64_RANGE)) ∧
      (row.state ≤ 3 →
        ¬ (row.state = Spec.StrideState.Steady.code ∧
          addr = (row.prev_addr + row.stride) % UINT64_RANGE) →
        row1.prev_addr = addr) ∧
      (row1.state ≠ row.state → row1.prev_addr = addr) := by
  obtain ⟨k1, r, row1, s1, hk1, _, hr, _, ht, _, hget, _, hrow1⟩ :=
    stride_found_then_train ops aggression blockSize s0 s g g1 addr loadPC rand hp
      (by omega)
  have hkk : k1 = k := by omega
  subst hkk
  rw [hrow] at hr
  cases hr
  refine ⟨s1, row1, ht, hget, ?_, ?_, ?_⟩
  · intro hs hc
    have hrow2 : row1.prev_addr = (addr + fanOutOffset aggression blockSize) % UINT64_RANGE ∧
        row1.state = Spec.StrideState.Steady.code := by
      subst hrow1
      simp only [Spec.StrideState.code] at hs
      simp [hs, ← hc, Spec.StrideState.code]
    refine ⟨hrow2.2, ?_, ?_⟩
    · intro hfit
      rw [hrow2.1]
      exact add_intMulToUInt64 addr _ _ hfit
    · intro ha hb hab
      obtain ⟨_, _, hfit, _, hsum⟩ := knobs_below_int_max aggression blockSize addr ha hb hab
      rw [hrow2.1, ← hsum]
      exact add_intMulToUInt64 addr _ _ hfit
  · intro hle hn
    subst hrow1
    simp only [Spec.StrideState.code] at hn
    have h4 : row.state = 0 ∨ row.state = 1 ∨ row.state = 2 ∨ row.state = 3 := by omega
    rcases h4 with h4 | h4 | h4 | h4 <;>
      by_cases hc : addr = (row.prev_addr + row.stride) % UINT64_RANGE <;>
      simp_all
  · intro hne
    subst hrow1
    split_ifs at hne ⊢ <;> simp_all

/-- Witness of C18: the Steady row `(1, 108, 4, Steady)` and the correct access 112 with
aggression 2 and block size 4: `lastAddr` becomes `112 + 2*4`. -/
theorem C18_stride_last_address_witness :
    ∃ s g1, StridePrefetcher.prefetch listCache 2 4
        (StridePrefetcher.oneRow { loadPC := 1, prev_addr := 108, stride := 4, state := 2 })
        (Globals.start []) 112 1 = some (s, g1) ∧
      ∃ s1 row1, s.train 2 4 112 1 0 = some s1 ∧ s1.RPT[0]? = some row1 ∧
        row1.state = Spec.StrideState.Steady.code ∧
        row1.prev_addr = (112 + 2 * 4) % UINT64_RANGE :=
  ⟨_, _, rfl,
    (let ⟨s1, row1, h1, h2, h3, _, _⟩ :=
      C18_stride_last_address listCache 2 4
        (StridePrefetcher.oneRow { loadPC := 1, prev_addr := 108, stride := 4, state := 2 })
        _ (Globals.start []) _ 112 1 0 0
        { loadPC := 1, prev_addr := 108, stride := 4, state := 2 } rfl rfl rfl
     ⟨s1, row1, h1, h2, (h3 rfl (by decide)).1,
       (h3 rfl (by decide)).2.2 (by decide) (by decide) (by decide)⟩)⟩

/-- C19: on a well-formed table Stride `prefetch(addr, loadPC)` returns and leaves all
table entries unchanged; it runs the fan-out if and only if a live table entry has the key
`loadPC`, that entry is Steady and its `lastAddr + stride` equals `addr`.  When the loop
counter and the `int` products `i * blockSize` of the loop do not overflow (`aggression`
is not the largest `int`, and `aggression * blockSize` is an `int`), the fan-out issues
`prefetchFillLine`, with one count in `prefetches` each, for exactly the addresses
`addr + i*blockSize` (64-bit), `i = 1..aggression`, taken in this order, for which
`exists` is false when the address is reached; without the fan-out the globals are
unchanged.  For knob values below `2 ^ 31` the loop runs `aggression` times and the
addresses are `(addr + i * blockSize) mod 2 ^ 64`. -/
theorem C19_stride_prefetch_issues {C : Type} (ops : CacheOps C)
    (aggression blockSize : Nat) (s : StridePrefetcher) (g : Globals C)
    (addr loadPC : Nat) (hwf : s.WF) (_hcnt : loopCount aggression < 2147483647)
    (hfit : Spec.intProductFits (loopCount aggression : Int) (toInt32 blockSize)) :
    ∃ s1 g1, s.prefetch ops aggression blockSize g addr loadPC = some (s1, g1) ∧
      s1.RPT = s.RPT ∧ s1.numberOfEntries = s.numberOfEntries ∧
      (Spec.strideShouldIssue s addr loadPC →
        g1.prefetchFillLineCalls = g.prefetchFillLineCalls ++
          Spec.issued ops g.cache
            (Spec.candidates (toInt32 blockSize) addr (loopCount aggression) 1) ∧
        g1.prefetches = g.prefetches +
          (Spec.issued ops g.cache
            (Spec.candidates (toInt32 blockSize) addr (loopCount aggression) 1)).length ∧
        g1.cache = (Spec.issued ops g.cache
          (Spec.candidates (toInt32 blockSize) addr (loopCount aggression) 1)).foldl
            ops.prefetchFillLine g.cache) ∧
      (¬ Spec.strideShouldIssue s addr loadPC → g1 = g) ∧
      (Spec.candidates (toInt32 blockSize) addr (loopCount aggression) 1).length =
        loopCount aggression ∧
      (∀ j, j < loopCount aggression →
        (Spec.candidates (toInt32 blockSize) addr (loopCount aggression) 1)[j]? =
          some (intToUInt64 ((addr : Int) + ((j + 1 : Nat) : Int) * toInt32 blockSize))) ∧
      (aggression < 2147483648 → loopCount aggression = aggression) ∧
      (blockSize < 2147483648 → ∀ i : Nat,
        intToUInt64 ((addr : Int) + (i : Int) * toInt32 (blockSize : Int)) =
          (addr + i * blockSize) % UINT64_RANGE) := by
  obtain ⟨s1, g1, hp, hr, hn⟩ :=
    stride_prefetch_total ops aggression blockSize s g addr loadPC hwf
  refine ⟨s1, g1, hp, hr, hn, ?_, ?_, candidates_length _ _ _ _, ?_,
    loopCount_of_lt aggression, fun hb i => candidate_of_knob blockSize addr i hb⟩
  · rintro ⟨k, row, hk, hrow, hkey, hfirst, hst, hpred⟩
    by_cases hidx : s1.entryIdx = -1
    · obtain ⟨_, _, _, hnone⟩ :=
        stride_prefetch_not_found ops aggression blockSize s s1 g g1 addr loadPC hp hidx
      exact absurd hkey (hnone k hk row hrow)
    · obtain ⟨k1, row1, _, _, _, hk1, hrow1, hkey1, hfirst1, hg1⟩ :=
        stride_prefetch_found ops aggression blockSize s s1 g g1 addr loadPC hp hidx
      have hkk : k1 = k := by
        rcases Nat.lt_trichotomy k1 k with hlt | heq | hgt
        · exact absurd hkey1 (hfirst k1 hlt row1 hrow1)
        · exact heq
        · exact absurd hkey (hfirst1 k hgt row hrow)
      subst hkk
      rw [hrow] at hrow1
      cases hrow1
      simp only [Spec.StrideState.code] at hst
      rw [if_pos ⟨hpred, hst⟩] at hg1
      obtain ⟨h1, h2, h3, _⟩ :=
        nextLinesLoop_spec ops blockSize addr (loopCount aggression) 1 g
      rw [nextLineAddrs_eq_candidates blockSize addr (loopCount aggression) 1
        (loop_fits_from_one aggression blockSize hfit)] at h1 h2 h3
      rw [hg1]
      exact ⟨h1, h2, h3⟩
  · intro hno
    by_cases hidx : s1.entryIdx = -1
    · exact (stride_prefetch_not_found ops aggression blockSize s s1 g g1 addr loadPC hp
        hidx).2.2.1
    · obtain ⟨k1, row1, _, _, _, hk1, hrow1, hkey1, hfirst1, hg1⟩ :=
        stride_prefetch_found ops aggression blockSize s s1 g g1 addr loadPC hp hidx
      by_cases hc : (row1.prev_addr + row1.stride) % UINT64_RANGE = addr ∧ row1.state = 2
      · exact absurd ⟨k1, row1, hk1, hrow1, hkey1, hfirst1, hc.2, hc.1⟩ hno
      · rw [if_neg hc] at hg1
        exact hg1
  · intro j hj
    rw [candidates_getElem? _ _ _ _ _ hj, Nat.add_comm 1 j]

/-- Witness of C19: the Steady row `(1, 108, 4, Steady)`, the access 112 from pc 1 with
aggression 2 and block size 4, and a cache that holds 116: of the candidates 116 and 120
only 120 is filled. -/
theorem C19_stride_prefetch_issues_witness :
    (StridePrefetcher.oneRow
      { loadPC := 1, prev_addr := 108, stride := 4, state := 2 }).WF ∧
    loopCount 2 < 2147483647 ∧ Spec.intProductFits (loopCount 2 : Int) (toInt32 4) ∧
    Spec.candidates (toInt32 4) 112 (loopCount 2) 1 = [116, 120] ∧
    Spec.issued listCache [116] (Spec.candidates (toInt32 4) 112 (loopCount 2) 1) = [120] ∧
    ∃ s1 g1, StridePrefetcher.prefetch listCache 2 4
        (StridePrefetcher.oneRow { loadPC := 1, prev_addr := 108, stride := 4, state := 2 })
        (Globals.start [116]) 112 1 = some (s1, g1) ∧
      g1.prefetchFillLineCalls = (Globals.start [116]).prefetchFillLineCalls ++
        Spec.issued listCache (Globals.start [116]).cache
          (Spec.candidates (toInt32 4) 112 (loopCount 2) 1) :=
  ⟨⟨rfl, by decide⟩, by decide, by decide, by decide, by decide,
    (let ⟨s1, g1, h1, _, _, h4, _⟩ :=
      C19_stride_prefetch_issues listCache 2 4
        (StridePrefetcher.oneRow { loadPC := 1, prev_addr := 108, stride := 4, state := 2 })
        (Globals.start [116]) 112 1 ⟨rfl, by decide⟩ (by decide) (by decide)
     ⟨s1, g1, h1,
       (h4 ⟨0, { loadPC := 1, prev_addr := 108, stride := 4, state := 2 }, by decide, rfl,
         rfl, fun j hj => absurd hj (Nat.not_lt_zero j), rfl, by decide⟩).1⟩)⟩

/-- C20: when Stride `train(addr, loadPC)` follows a `prefetch` that found no entry for
`loadPC` (no live row has that key), it writes the entry
`(loadPC, lastAddr = addr, stride = 0, state = Initial)`: into the next free row, with the
entry count incremented, while fewer than 64 entries are live, and otherwise into row
`rand() mod 64` with the count unchanged; all other rows are unchanged and the entry count
does not exceed 64 afterwards (as after every `train` on a well-formed table). -/
theorem C20_stride_train_inserts {C : Type} (ops : CacheOps C)
    (aggression blockSize : Nat) (s0 s : StridePrefetcher) (g g1 : Globals C)
    (addr loadPC rand : Nat) (hwf : s0.WF)
    (hp : s0.prefetch ops aggression blockSize g addr loadPC = some (s, g1))
    (hnot : s.entryIdx = -1) :
    (∀ j, j < s0.numberOfEntries → ∀ r, s0.RPT[j]? = some r → r.loadPC ≠ loadPC) ∧
    (∃ s1, s.train aggression blockSize addr loadPC rand = some s1 ∧
      (s0.numberOfEntries < 64 →
        s1.numberOfEntries = s0.numberOfEntries + 1 ∧
        s1.RPT[s0.numberOfEntries]? = some
          { loadPC := loadPC, prev_addr := addr, stride := 0
            state := Spec.StrideState.Initial.code } ∧
        ∀ j, j ≠ s0.numberOfEntries → s1.RPT[j]? = s0.RPT[j]?) ∧
      (¬ s0.numberOfEntries < 64 →
        s1.numberOfEntries = s0.numberOfEntries ∧
        s1.RPT[rand % 64]? = some
          { loadPC := loadPC, prev_addr := addr, stride := 0
            state := Spec.StrideState.Initial.code } ∧
        ∀ j, j ≠ rand % 64 → s1.RPT[j]? = s0.RPT[j]?) ∧
      s1.numberOfEntries ≤ 64 ∧ s1.RPT.length = 64) ∧
    (∀ (t t1 : StridePrefetcher) (a p r : Nat), t.WF →
      t.train aggression blockSize a p r = some t1 →
      t1.numberOfEntries ≤ 64 ∧ t1.RPT.length = 64) := by
  obtain ⟨hr, hn, _, hnone⟩ :=
    stride_prefetch_not_found ops aggression blockSize s0 s g g1 addr loadPC hp hnot
  have hwfs : s.WF := by
    unfold StridePrefetcher.WF
    rw [hr, hn]
    exact hwf
  have ht := stride_train_insert aggression blockSize s addr loadPC rand hwfs hnot
  have hwf1 := stride_train_wf aggression blockSize s _ addr loadPC rand hwfs ht
  refine ⟨hnone, ⟨_, ht, ?_, ?_, hwf1.2, hwf1.1⟩, ?_⟩
  · intro hlt
    have hlt2 : ¬ s0.numberOfEntries ≥ 64 := by omega
    have hlen : s0.numberOfEntries < s0.RPT.length := by rw [hwf.1]; exact hlt
    simp only [hr, hn, hlt2, if_false, Spec.StrideState.code]
    refine ⟨trivial, ?_, ?_⟩
    · simp [List.getElem?_set, hlen]
    · intro j hj
      exact getElem?_set_other _ _ _ _ hj
  · intro hge
    have hge2 : s0.numberOfEntries ≥ 64 := by omega
    have hlen : rand % 64 < s0.RPT.length := by
      rw [hwf.1]
      exact Nat.mod_lt _ (by decide)
    simp only [hr, hn, hge2, if_true, Spec.StrideState.code]
    refine ⟨trivial, ?_, ?_⟩
    · simp [List.getElem?_set, hlen]
    · intro j hj
      exact getElem?_set_other _ _ _ _ hj
  · intro t t1 a p r hwt htt
    have := stride_train_wf aggression blockSize t t1 a p r hwt htt
    exact ⟨this.2, this.1⟩

/-- Witness of C20: the first miss, address 100 from pc 1, on the initial Stride state:
`prefetch` finds no entry and `train` writes `(1, 100, 0, Initial)` into row 0. -/
theorem C20_stride_train_inserts_witness :
    StridePrefetcher.create.WF ∧
    ∃ s g1, StridePrefetcher.prefetch listCache 2 4 StridePrefetcher.create
        (Globals.start []) 100 1 = some (s, g1) ∧
      s.entryIdx = -1 ∧
      ∃ s1, s.train 2 4 100 1 0 = some s1 ∧
        s1.numberOfEntries = 0 + 1 ∧
        s1.RPT[0]? = some { loadPC := 1, prev_addr := 100, stride := 0
                            state := Spec.StrideState.Initial.code } :=
  ⟨⟨rfl, by decide⟩, _, _, rfl, rfl,
    (let ⟨s1, h1, h2, _, _, _⟩ :=
      (C20_stride_train_inserts listCache 2 4 StridePrefetcher.create _ (Globals.start [])
        _ 100 1 0 ⟨rfl, by decide⟩ rfl rfl).2.1
     ⟨s1, h1, (h2 (by decide)).1, (h2 (by decide)).2.1⟩)⟩

/-! ## Further claims about the branch predictors -/

/-- C28: for every `entryCount >= 1` (at most `2 ^ 63`, so that the doubling of a register
below `entryCount` fits in 64 bits), on every state reached from construction, the history
update of Local and of Gshare (double, add the outcome bit, subtract `entryCount` once if
the result is `>= entryCount`) gives `(2*old + bit) mod entryCount`: in the code of
`train` and in the shift as the specification words it. -/
theorem C28_history_update_is_modulo (entryCount : Nat) (h1 : 1 ≤ entryCount)
    (h63 : entryCount ≤ 2 ^ 63) (events : List (Nat × Bool)) (pc : Nat) (taken : Bool) :
    (∀ s, (GshareBranchPredictor.create entryCount).trainAll events = some s →
      Spec.historyShift entryCount s.ghr taken =
        (2 * s.ghr + (if taken then 1 else 0)) % entryCount ∧
      ∀ s1, s.train pc taken = some s1 →
        s1.ghr = (2 * s.ghr + (if taken then 1 else 0)) % entryCount) ∧
    (∃ s old s1, (LocalBranchPredictor.create entryCount).trainAll events = some s ∧
      (∀ v ∈ s.lhrs, Spec.historyShift entryCount v taken =
        (2 * v + (if taken then 1 else 0)) % entryCount) ∧
      s.lhrs[pc % 128]? = some old ∧ s.train pc taken = some s1 ∧
      s1.lhrs[pc % 128]? = some ((2 * old + (if taken then 1 else 0)) % entryCount)) := by
  constructor
  · intro s hs
    have hi := gshare_trainAll_inv entryCount events _ s
      (gshare_create_inv entryCount h1) hs
    obtain ⟨hbp, _, hg, _⟩ := hi
    refine ⟨(history_update_mod entryCount s.ghr taken h63 hg).2, ?_⟩
    intro s1 ht
    obtain ⟨hn, c, hc⟩ := gshare_train_some s s1 pc taken ht
    rw [gshare_train_eq s pc taken c hn hc] at ht
    cases ht
    simp only [hbp]
    exact (history_update_mod entryCount s.ghr taken h63 hg).1
  · obtain ⟨s, hs, hi⟩ := local_trainAll_inv entryCount events _
      (local_create_inv entryCount h1)
    obtain ⟨old, c, hr1, hr2, hold⟩ := local_reads_of_inv entryCount s pc hi
    refine ⟨s, old, _, hs, ?_, hr1, local_train_eq s pc taken old c hr1 hr2, ?_⟩
    · intro v hv
      exact (history_update_mod entryCount v taken h63 (hi.2.2.2.1 v hv)).2
    · simp only [hi.1]
      rw [getElem?_set_self_of_some _ _ _ _ hr1,
        (history_update_mod entryCount old taken h63 hold).1]

/-- Witness of C28: a 3-entry Gshare predictor with history 2 and a taken branch:
`2*2+1 = 5`, one subtraction gives 2, and `5 mod 3 = 2`. -/
theorem C28_history_update_is_modulo_witness :
    1 ≤ 3 ∧ 3 ≤ 2 ^ 63 ∧
    ∃ s s1, (GshareBranchPredictor.create 3).trainAll [(0, true), (0, false)] = some s ∧
      s.ghr = 2 ∧ s.train 0 true = some s1 ∧
      s1.ghr = (2 * s.ghr + (if true then 1 else 0)) % 3 :=
  ⟨by decide, by decide, _, _, rfl, by decide, rfl,
    ((C28_history_update_is_modulo 3 (by decide) (by decide) [(0, true), (0, false)] 0
      true).1 _ rfl).2 _ rfl⟩

/-- C29: when `entryCount` is a power of two `2^k`, `k >= 0`, every sequence of `train`
calls on a freshly constructed Gshare predictor returns, and in the state it reaches, for
every pc, the pattern-table index `(pc mod entryCount) xor globalHistory` is strictly less
than `entryCount`, the size of the table, so `getPrediction` and `train` return. -/
theorem C29_gshare_index_in_table_for_power_of_two (k : Nat) (events : List (Nat × Bool))
    (pc : Nat) :
    ∃ s, (GshareBranchPredictor.create (2 ^ k)).trainAll events = some s ∧
      s.bp_entries = 2 ^ k ∧ s.pht_array.length = 2 ^ k ∧
      (pc % s.bp_entries) ^^^ s.ghr < 2 ^ k ∧
      (∃ b, s.getPrediction pc = some b) ∧
      ∀ taken, ∃ s1, s.train pc taken = some s1 := by
  obtain ⟨s, hs, hi⟩ := gshare_trainAll_total_pow2 k events _
    (gshare_create_inv (2 ^ k) (Nat.two_pow_pos _))
  refine ⟨s, hs, hi.1, hi.2.1, (gshare_train_total_pow2 k s pc true hi).1,
    (gshare_train_total_pow2 k s pc true hi).2.1, ?_⟩
  intro taken
  obtain ⟨_, _, s1, h1, _⟩ := gshare_train_total_pow2 k s pc taken hi
  exact ⟨s1, h1⟩

/-- C30: for every `entryCount >= 1`, power of two or not, every sequence of `train`
calls on a freshly constructed Local predictor returns, and in the state it reaches all
128 history registers are in `[0, entryCount)`, so the pattern-table index used by
`getPrediction` and `train` is inside the table and both return. -/
theorem C30_local_history_in_table (entryCount : Nat) (h1 : 1 ≤ entryCount)
    (events : List (Nat × Bool)) (pc : Nat) :
    ∃ s, (LocalBranchPredictor.create entryCount).trainAll events = some s ∧
      s.lhrs.length = 128 ∧ s.pht_array.length = entryCount ∧
      (∀ v ∈ s.lhrs, v < entryCount) ∧
      (∃ idx c, s.lhrs[pc % 128]? = some idx ∧ idx < entryCount ∧
        s.pht_array[idx]? = some c) ∧
      (∃ b, s.getPrediction pc = some b) ∧
      ∀ taken, ∃ s1, s.train pc taken = some s1 := by
  obtain ⟨s, hs, hi⟩ := local_trainAll_inv entryCount events _
    (local_create_inv entryCount h1)
  obtain ⟨old, c, hr1, hr2, hold⟩ := local_reads_of_inv entryCount s pc hi
  refine ⟨s, hs, hi.2.1, hi.2.2.1, hi.2.2.2.1, ⟨old, c, hr1, hold, hr2⟩,
    ⟨_, local_getPrediction_eq s pc old c hr1 hr2⟩, ?_⟩
  intro taken
  exact ⟨_, local_train_eq s pc taken old c hr1 hr2⟩

/-- Witness of C30: a 3-entry Local predictor after three branches at pc 1. -/
theorem C30_local_history_in_table_witness :
    1 ≤ 3 ∧
    ∃ s, (LocalBranchPredictor.create 3).trainAll [(1, true), (1, false), (1, true)] =
        some s ∧
      (∀ v ∈ s.lhrs, v < 3) ∧ (∃ b, s.getPrediction 1 = some b) :=
  ⟨by decide,
    (let ⟨s, h1, _, _, h4, _, h6, _⟩ :=
      C30_local_history_in_table 3 (by decide) [(1, true), (1, false), (1, true)] 1
     ⟨s, h1, h4, h6⟩)⟩

/-! ## Claims about strided streams and the other prefetchers -/

/-- C21: for a fresh Stride prefetcher, any `A`, any stride `S` (addresses are 64-bit) and
one fixed load PC, after the prefetch-then-train pairs of the misses `A`, `A+S`, `A+2S`
(each after the demand fill, with any `rand()` values and any cache) the calls have
returned, one table entry is live, it is the entry of that PC, and it is Steady. -/
theorem C21_stride_steady_by_third_access {C : Type} (ops : CacheOps C)
    (aggression blockSize : Nat) (g : Globals C) (A S pc r0 r1 r2 : Nat) :
    ∃ s g1 row, StridePrefetcher.onMisses ops aggression blockSize StridePrefetcher.create g
        [(A % UINT64_RANGE, pc, r0), ((A + S) % UINT64_RANGE, pc, r1),
          ((A + 2 * S) % UINT64_RANGE, pc, r2)] = some (s, g1) ∧
      s.numberOfEntries = 1 ∧ s.RPT[0]? = some row ∧ row.loadPC = pc ∧
      row.state = Spec.StrideState.Steady.code := by
  obtain ⟨s, g1, row, h, hn, _, hr, hk, hs, _⟩ :=
    stride_first_three ops aggression blockSize g A S pc r0 r1 r2
  simp only [Nat.zero_mul, Nat.one_mul, Nat.add_zero] at h
  exact ⟨s, g1, row, h, hn, hr, hk, hs⟩

/-- C22 fails as stated: with aggression 2, block size 4, `A = 1000`, `S = 100` and a
cache that holds only the lines filled so far, the miss `A+3S = 1300` issues the fills
1304 and 1308, but the miss `A+4S = 1400` issues nothing, although the cache holds neither
1404 nor 1408: `train` had moved `lastAddr` to `1300 + 2*4`, so 1400 is a wrong
prediction and the entry goes back to Initial. -/
theorem C22_fourth_stride_access_issues_nothing :
    ∃ s g s1 g1,
      StridePrefetcher.onMisses listCache 2 4 StridePrefetcher.create (Globals.start [])
        [(1000, 1, 0), (1100, 1, 0), (1200, 1, 0), (1300, 1, 0)] = some (s, g) ∧
      g.prefetchFillLineCalls = [1304, 1308] ∧
      s.RPT[0]? = some { loadPC := 1, prev_addr := 1308, stride := 100, state := 2 } ∧
      s.onMiss listCache 2 4 g 1400 1 0 = some (s1, g1) ∧
      g1.prefetchFillLineCalls = [1304, 1308] ∧
      listCache.cacheExists g1.cache 1404 = false ∧
      listCache.cacheExists g1.cache 1408 = false ∧
      s1.RPT[0]? = some { loadPC := 1, prev_addr := 1400, stride := 100, state := 0 } :=
  ⟨_, _, _, _, rfl, by decide, by decide, rfl, by decide, by decide, by decide, by decide⟩

/-- C22, amended: for a fresh Stride prefetcher fed prefetch-then-train for the misses
`A, A+S, A+2S, ...` from one fixed load PC, with a stride that is not 0 (as a 64-bit
value), an `aggression` that is not the largest `int` and an `int` product
`aggression * blockSize` that does not overflow and is not 0, the access `A+nS` with `n >= 3` issues prefetch fills exactly when `n` is a multiple of
3: then it fills the addresses `A+nS + i*blockSize` (64-bit), `i = 1..aggression`, that
the cache does not hold when they are reached, and otherwise it fills nothing.  For knob
values below `2 ^ 31` the loop runs `aggression` times and the addresses are
`(A+nS + i * blockSize) mod 2 ^ 64`. -/
theorem C22_stride_stream_issues_every_third_access {C : Type} (ops : CacheOps C)
    (aggression blockSize : Nat) (g : Globals C) (A S pc : Nat) (rand : Nat → Nat)
    (hS : S % UINT64_RANGE ≠ 0) (_hcnt : loopCount aggression < 2147483647)
    (hfit : Spec.intProductFits (toInt32 aggression) (toInt32 blockSize))
    (hne : toInt32 aggression * toInt32 blockSize ≠ 0)
    (n : Nat) (hn : 3 ≤ n) :
    ∃ s g1 s2 g2,
      StridePrefetcher.onMisses ops aggression blockSize StridePrefetcher.create g
        (Spec.strideStream A S pc rand n) = some (s, g1) ∧
      s.onMiss ops aggression blockSize g1 ((A + n * S) % UINT64_RANGE) pc (rand n) =
        some (s2, g2) ∧
      (n % 3 = 0 →
        g2.prefetchFillLineCalls = g1.prefetchFillLineCalls ++
          Spec.issued ops (ops.fillLine g1.cache ((A + n * S) % UINT64_RANGE))
            (Spec.candidates (toInt32 blockSize) ((A + n * S) % UINT64_RANGE)
              (loopCount aggression) 1)) ∧
      (n % 3 ≠ 0 → g2.prefetchFillLineCalls = g1.prefetchFillLineCalls) ∧
      (∀ j, j < loopCount aggression →
        (Spec.candidates (toInt32 blockSize) ((A + n * S) % UINT64_RANGE)
            (loopCount aggression) 1)[j]? =
          some (intToUInt64 ((((A + n * S) % UINT64_RANGE : Nat) : Int) +
            ((j + 1 : Nat) : Int) * toInt32 blockSize))) ∧
      (aggression < 2147483648 → loopCount aggression = aggression) ∧
      (blockSize < 2147483648 → ∀ i : Nat,
        intToUInt64 ((((A + n * S) % UINT64_RANGE : Nat) : Int) +
            (i : Int) * toInt32 (blockSize : Int)) =
          ((A + n * S) % UINT64_RANGE + i * blockSize) % UINT64_RANGE) := by
  have hab : (fanOutOffset aggression blockSize) % UINT64_RANGE ≠ 0 := by
    unfold fanOutOffset intMulToUInt64
    rw [toInt32_eq_self _ hfit.1 hfit.2]
    exact intToUInt64_ne_zero _ hfit.1 hfit.2 hne
  have hfit1 := loop_fits_from_one aggression blockSize
    (intProductFits_loopCount aggression blockSize hfit)
  obtain ⟨m, rfl⟩ : ∃ m, n = m + 3 := ⟨n - 3, by omega⟩
  obtain ⟨s, g1, h, hn1, hl, hr⟩ :=
    stride_stream_row ops aggression blockSize g A S pc rand hS hab m
  have hnext := stream_pred_next A S (m + 2)
  have hmiss :=
    stream_pred_after_fanout A S (m + 2) (fanOutOffset aggression blockSize) hab
  have hshape : (∀ j, j < loopCount aggression →
        (Spec.candidates (toInt32 blockSize) ((A + (m + 3) * S) % UINT64_RANGE)
            (loopCount aggression) 1)[j]? =
          some (intToUInt64 ((((A + (m + 3) * S) % UINT64_RANGE : Nat) : Int) +
            ((j + 1 : Nat) : Int) * toInt32 blockSize))) ∧
      (aggression < 2147483648 → loopCount aggression = aggression) ∧
      (blockSize < 2147483648 → ∀ i : Nat,
        intToUInt64 ((((A + (m + 3) * S) % UINT64_RANGE : Nat) : Int) +
            (i : Int) * toInt32 (blockSize : Int)) =
          ((A + (m + 3) * S) % UINT64_RANGE + i * blockSize) % UINT64_RANGE) := by
    refine ⟨?_, loopCount_of_lt aggression, fun hb i => candidate_of_knob blockSize _ i hb⟩
    intro j hj
    rw [candidates_getElem? _ _ _ _ _ hj, Nat.add_comm 1 j]
  have h3 : m % 3 = 0 ∨ m % 3 = 1 ∨ m % 3 = 2 := by omega
  rcases h3 with h3 | h3 | h3
  · simp only [h3, if_true] at hr
    obtain ⟨s2, g2, h2, _, _, _, hg2⟩ := stride_onMiss_row0 ops aggression blockSize s g1
      ((A + (m + 3) * S) % UINT64_RANGE) pc (rand (m + 3)) _ hn1 hl hr rfl
    rw [if_pos ⟨hnext, rfl⟩] at hg2
    refine ⟨s, g1, s2, g2, h, h2, ?_, fun hne3 => absurd (by omega) hne3, hshape⟩
    intro _
    rw [hg2, ← nextLineAddrs_eq_candidates blockSize _ (loopCount aggression) 1 hfit1]
    exact (nextLinesLoop_spec ops blockSize _ (loopCount aggression) 1 _).1
  · have h30 : ¬ m % 3 = 0 := by omega
    simp only [h3, h30, if_true, if_false] at hr
    obtain ⟨s2, g2, h2, _, _, _, hg2⟩ := stride_onMiss_row0 ops aggression blockSize s g1
      ((A + (m + 3) * S) % UINT64_RANGE) pc (rand (m + 3)) _ hn1 hl hr rfl
    rw [if_neg (fun hc => hmiss hc.1)] at hg2
    refine ⟨s, g1, s2, g2, h, h2, fun h0 => absurd h0 (by omega), ?_, hshape⟩
    intro _
    rw [hg2]
  · have h30 : ¬ m % 3 = 0 := by omega
    have h31 : ¬ m % 3 = 1 := by omega
    simp only [h30, h31, if_false] at hr
    obtain ⟨s2, g2, h2, _, _, _, hg2⟩ := stride_onMiss_row0 ops aggression blockSize s g1
      ((A + (m + 3) * S) % UINT64_RANGE) pc (rand (m + 3)) _ hn1 hl hr rfl
    rw [if_neg (fun hc => absurd hc.2 (show ¬ (0 : Nat) = 2 by decide))] at hg2
    refine ⟨s, g1, s2, g2, h, h2, fun h0 => absurd h0 (by omega), ?_, hshape⟩
    intro _
    rw [hg2]

/-- Witness of C22, amended: aggression 2, block size 4, `A = 1000`, `S = 100` and
`n = 3`: the miss 1300 issues the fills of its two candidates. -/
theorem C22_stride_stream_issues_every_third_access_witness :
    100 % UINT64_RANGE ≠ 0 ∧ loopCount 2 < 2147483647 ∧
    Spec.intProductFits (toInt32 2) (toInt32 4) ∧
    toInt32 2 * toInt32 4 ≠ 0 ∧ 3 ≤ 3 ∧
    Spec.candidates (toInt32 4) ((1000 + 3 * 100) % UINT64_RANGE) (loopCount 2) 1 =
      [1304, 1308] ∧
    ∃ s g1 s2 g2,
      StridePrefetcher.onMisses listCache 2 4 StridePrefetcher.create (Globals.start [])
        (Spec.strideStream 1000 100 1 (fun _ => 0) 3) = some (s, g1) ∧
      s.onMiss listCache 2 4 g1 ((1000 + 3 * 100) % UINT64_RANGE) 1 0 = some (s2, g2) ∧
      g2.prefetchFillLineCalls = g1.prefetchFillLineCalls ++
        Spec.issued listCache (listCache.fillLine g1.cache ((1000 + 3 * 100) % UINT64_RANGE))
          (Spec.candidates (toInt32 4) ((1000 + 3 * 100) % UINT64_RANGE) (loopCount 2) 1) :=
  ⟨by decide, by decide, by decide, by decide, by decide, by decide,
    (let ⟨s, g1, s2, g2, h1, h2, h3, _⟩ :=
      C22_stride_stream_issues_every_third_access listCache 2 4 (Globals.start []) 1000 100 1
        (fun _ => 0) (by decide) (by decide) (by decide) (by decide) 3 (by decide)
     ⟨s, g1, s2, g2, h1, h2, h3 (by decide)⟩)⟩

/-- C23: when the loop counter and the `int` products `i * blockSize` of its loop do not
overflow (`aggression` is not the largest `int`, and `aggression * blockSize` is an
`int`), NextNLine `prefetch(addr, pc)` takes the addresses `addr + i*blockSize` (64-bit) for
`i = 1..aggression` in increasing `i`; for each of them for which `exists` is false at
that moment it issues one `prefetchFillLine` and one increment of `prefetches`, and for an
address that exists it issues nothing; the other counters are unchanged; `train` changes
no state.  For knob values below `2 ^ 31` the loop runs `aggression` times and the
addresses are `(addr + i * blockSize) mod 2 ^ 64`. -/
theorem C23_next_n_line_prefetch {C : Type} (ops : CacheOps C)
    (aggression blockSize : Nat) (g : Globals C) (addr pc : Nat)
    (_hcnt : loopCount aggression < 2147483647)
    (hfit : Spec.intProductFits (loopCount aggression : Int) (toInt32 blockSize)) :
    (Spec.candidates (toInt32 blockSize) addr (loopCount aggression) 1).length =
      loopCount aggression ∧
    (∀ j, j < loopCount aggression →
      (Spec.candidates (toInt32 blockSize) addr (loopCount aggression) 1)[j]? =
        some (intToUInt64 ((addr : Int) + ((j + 1 : Nat) : Int) * toInt32 blockSize))) ∧
    (NextNLinePrefetcher.prefetch ops aggression blockSize g addr pc).prefetchFillLineCalls =
      g.prefetchFillLineCalls ++
        Spec.issued ops g.cache
          (Spec.candidates (toInt32 blockSize) addr (loopCount aggression) 1) ∧
    (NextNLinePrefetcher.prefetch ops aggression blockSize g addr pc).prefetches =
      g.prefetches +
        (Spec.issued ops g.cache
          (Spec.candidates (toInt32 blockSize) addr (loopCount aggression) 1)).length ∧
    (NextNLinePrefetcher.prefetch ops aggression blockSize g addr pc).cache =
      (Spec.issued ops g.cache
        (Spec.candidates (toInt32 blockSize) addr (loopCount aggression) 1)).foldl
          ops.prefetchFillLine g.cache ∧
    (NextNLinePrefetcher.prefetch ops aggression blockSize g addr pc).loads = g.loads ∧
    (NextNLinePrefetcher.prefetch ops aggression blockSize g addr pc).stores = g.stores ∧
    (NextNLinePrefetcher.prefetch ops aggression blockSize g addr pc).hits = g.hits ∧
    (NextNLinePrefetcher.prefetch ops aggression blockSize g addr pc).accesses =
      g.accesses ∧
    (∀ c, Spec.issued ops c [] = []) ∧
    (∀ c a rest, ops.cacheExists c a = true →
      Spec.issued ops c (a :: rest) = Spec.issued ops c rest) ∧
    (∀ c a rest, ops.cacheExists c a = false →
      Spec.issued ops c (a :: rest) =
        a :: Spec.issued ops (ops.prefetchFillLine c a) rest) ∧
    (∀ (g0 : Globals C) (a p : Nat), NextNLinePrefetcher.train g0 a p = g0) ∧
    (aggression < 2147483648 → loopCount aggression = aggression) ∧
    (blockSize < 2147483648 → ∀ i : Nat,
      intToUInt64 ((addr : Int) + (i : Int) * toInt32 (blockSize : Int)) =
        (addr + i * blockSize) % UINT64_RANGE) := by
  obtain ⟨h1, h2, h3, h4, h5, h6, h7⟩ :=
    nextLinesLoop_spec ops blockSize addr (loopCount aggression) 1 g
  rw [nextLineAddrs_eq_candidates blockSize addr (loopCount aggression) 1
    (loop_fits_from_one aggression blockSize hfit)] at h1 h2 h3
  refine ⟨candidates_length _ _ _ _, ?_, h1, h2, h3, h4, h5, h6, h7, fun _ => rfl, ?_, ?_,
    fun _ _ _ => rfl, loopCount_of_lt aggression,
    fun hb i => candidate_of_knob blockSize addr i hb⟩
  · intro j hj
    rw [candidates_getElem? _ _ _ _ _ hj, Nat.add_comm 1 j]
  · intro c a rest h
    simp [Spec.issued, h]
  · intro c a rest h
    simp [Spec.issued, h]

/-- Witness of C23: address 100 with aggression 3 and block size 4 on a cache that holds
108: of the candidates 104, 108, 112 the lines 104 and 112 are filled.  With the
block-size knob `2147483648` the `int` global is `-2147483648`, and from the address
`4294967296` the one candidate of aggression 1 is `2147483648`; with aggression 2 on a
cache that holds the demanded line the calls are the fill of `2147483648` alone. -/
theorem C23_next_n_line_prefetch_witness :
    loopCount 3 < 2147483647 ∧ Spec.intProductFits (loopCount 3 : Int) (toInt32 4) ∧
    Spec.candidates (toInt32 4) 100 (loopCount 3) 1 = [104, 108, 112] ∧
    (NextNLinePrefetcher.prefetch listCache 3 4 (Globals.start [108]) 100
      7).prefetchFillLineCalls =
        (Globals.start [108]).prefetchFillLineCalls ++
          Spec.issued listCache (Globals.start [108]).cache
            (Spec.candidates (toInt32 4) 100 (loopCount 3) 1) ∧
    Spec.issued listCache [108] (Spec.candidates (toInt32 4) 100 (loopCount 3) 1) =
      [104, 112] ∧
    loopCount 1 < 2147483647 ∧
    Spec.intProductFits (loopCount 1 : Int) (toInt32 2147483648) ∧
    (NextNLinePrefetcher.prefetch listCache 1 2147483648 (Globals.start []) 4294967296
      7).prefetchFillLineCalls =
        (Globals.start ([] : List Nat)).prefetchFillLineCalls ++
          Spec.issued listCache (Globals.start ([] : List Nat)).cache
            (Spec.candidates (toInt32 2147483648) 4294967296 (loopCount 1) 1) ∧
    Spec.candidates (toInt32 2147483648) 4294967296 (loopCount 1) 1 = [2147483648] ∧
    (NextNLinePrefetcher.prefetch listCache 2 2147483648 (Globals.start [4294967296])
      4294967296 7).prefetchFillLineCalls = [2147483648] :=
  ⟨by decide, by decide, by decide,
    (C23_next_n_line_prefetch listCache 3 4 (Globals.start [108]) 100 7 (by decide)
      (by decide)).2.2.1,
    by decide, by decide, by decide,
    (C23_next_n_line_prefetch listCache 1 2147483648 (Globals.start []) 4294967296 7
      (by decide) (by decide)).2.2.1,
    by decide, by decide⟩

/-- C24: on a well-formed table Distance `prefetch(addr, pc)` returns; with
`newDist = addr - prevAddr` (64-bit) it issues `prefetchFillLine` for `addr + d` for each
predicted distance `d` in the slots `1..aggression` of the live rows keyed by `newDist`
(of that row, when one row is keyed by it) that is not 0 and whose target the cache does
not hold at that moment; if no live row is keyed by `newDist` it issues nothing; it
changes neither the table rows nor `prevAddr` or `prevDist`, only `entryFound`; and it
does not depend on `pc`. -/
theorem C24_distance_prefetch {C : Type} (ops : CacheOps C) (aggression : Nat)
    (s : DistancePrefetcher) (g : Globals C) (addr pc : Nat) (hwf : s.WF aggression) :
    ∃ s1 g1, s.prefetch ops aggression g addr pc = some (s1, g1) ∧
      s1.RPT = s.RPT ∧ s1.numberOfEntries = s.numberOfEntries ∧
      s1.prev_addr = s.prev_addr ∧ s1.prev_dist = s.prev_dist ∧
      (s1.entryFound = true ↔ ∃ k row, k < s.numberOfEntries ∧ s.RPT[k]? = some row ∧
        row[0]? = some (u64sub addr s.prev_addr)) ∧
      g1.prefetchFillLineCalls = g.prefetchFillLineCalls ++ Spec.issued ops g.cache
        (Spec.distanceTargets aggression addr (u64sub addr s.prev_addr)
          (s.RPT.take s.numberOfEntries)) ∧
      g1.prefetches = g.prefetches + (Spec.issued ops g.cache
        (Spec.distanceTargets aggression addr (u64sub addr s.prev_addr)
          (s.RPT.take s.numberOfEntries))).length ∧
      g1.cache = (Spec.issued ops g.cache
        (Spec.distanceTargets aggression addr (u64sub addr s.prev_addr)
          (s.RPT.take s.numberOfEntries))).foldl ops.prefetchFillLine g.cache ∧
      g1.loads = g.loads ∧ g1.stores = g.stores ∧ g1.hits = g.hits ∧
      g1.accesses = g.accesses ∧
      (∀ k row, k < s.numberOfEntries → s.RPT[k]? = some row →
        row[0]? = some (u64sub addr s.prev_addr) →
        (∀ j r, j < s.numberOfEntries → j ≠ k → s.RPT[j]? = some r →
          r[0]? ≠ some (u64sub addr s.prev_addr)) →
        Spec.distanceTargets aggression addr (u64sub addr s.prev_addr)
          (s.RPT.take s.numberOfEntries) = Spec.rowTargets aggression addr row) ∧
      ((∀ j r, j < s.numberOfEntries → s.RPT[j]? = some r →
          r[0]? ≠ some (u64sub addr s.prev_addr)) → g1 = g) ∧
      (∀ pc1, s.prefetch ops aggression g addr pc1 = s.prefetch ops aggression g addr pc) := by
  obtain ⟨h1, h2, h3, h4, h5, h6, h7⟩ := fillAll_spec ops
    (Spec.distanceTargets aggression addr (u64sub addr s.prev_addr)
      (s.RPT.take s.numberOfEntries)) g
  refine ⟨_, _, distance_prefetch_eq ops aggression s g addr pc hwf, rfl, rfl, rfl, rfl, ?_,
    h1, h2, h3, h4, h5, h6, h7, ?_, ?_, fun _ => rfl⟩
  · simp only [List.any_eq_true, decide_eq_true_eq]
    constructor
    · rintro ⟨row, hmem, hkey⟩
      obtain ⟨k, hk⟩ := List.mem_iff_getElem?.mp hmem
      rw [getElem?_take_some] at hk
      exact ⟨k, row, hk.1, hk.2, hkey⟩
    · rintro ⟨k, row, hk, hrow, hkey⟩
      exact ⟨row, List.mem_iff_getElem?.mpr ⟨k, (getElem?_take_some _ _ _ _).mpr ⟨hk, hrow⟩⟩,
        hkey⟩
  · intro k row hk hrow hkey hothers
    unfold Spec.distanceTargets
    rw [filter_eq_singleton_of_unique _ (s.RPT.take s.numberOfEntries) k row
      ((getElem?_take_some _ _ _ _).mpr ⟨hk, hrow⟩) (by simpa using hkey)
      (fun j y hj hy => by
        rw [getElem?_take_some] at hy
        simpa using hothers j y hy.1 hj hy.2)]
    simp
  · intro hnone
    have hnil : (s.RPT.take s.numberOfEntries).filter
        (fun row => decide (row[0]? = some (u64sub addr s.prev_addr))) = [] := by
      rw [List.filter_eq_nil_iff]
      intro y hy
      obtain ⟨j, hj⟩ := List.mem_iff_getElem?.mp hy
      rw [getElem?_take_some] at hj
      simpa using hnone j y hj.1 hj.2
    simp only [Spec.distanceTargets, hnil, List.flatMap_nil, Spec.fillAll]


/-- Witness of C24: the table holds the one row `[100, 8, 0]`, the previous miss was at
1000, aggression is 2; the miss at 1100 has distance 100, row 0 is keyed by it, and the
line 1108 is filled. -/
theorem C24_distance_prefetch_witness :
    (DistancePrefetcher.oneRow 1000 100 [100, 8, 0]).WF 2 ∧
    ∃ s1 g1, (DistancePrefetcher.oneRow 1000 100 [100, 8, 0]).prefetch listCache 2
        (Globals.start []) 1100 7 = some (s1, g1) ∧
      s1.RPT = (DistancePrefetcher.oneRow 1000 100 [100, 8, 0]).RPT ∧
      g1.prefetchFillLineCalls = [1108] :=
  ⟨distance_oneRow_wf 2 1000 100 [100, 8, 0] rfl,
    (let ⟨s1, g1, h, hr, _, _, _, _, hc, _⟩ :=
      C24_distance_prefetch listCache 2 (DistancePrefetcher.oneRow 1000 100 [100, 8, 0])
        (Globals.start []) 1100 7 (distance_oneRow_wf 2 1000 100 [100, 8, 0] rfl)
     ⟨s1, g1, h, hr, hc.trans (by decide)⟩)⟩

/-- C26: for every `aggression >= 1` and every value `r` of `rand()`, the replacement
index `r % aggression + 1` of Distance `train` lies between 1 and `aggression`; on a row
with its `aggression + 1` slots and no empty predicted distance the update writes the
new distance at exactly that index, inside the row, and leaves the key in slot 0 and the
length of the row as they were. -/
theorem C26_distance_replacement_index_in_row (aggression r : Nat) (ha : 1 ≤ aggression) :
    DistancePrefetcher.indexToReplace aggression r = r % aggression + 1 ∧
    1 ≤ DistancePrefetcher.indexToReplace aggression r ∧
    DistancePrefetcher.indexToReplace aggression r ≤ aggression ∧
    ∀ (new_dist : Nat) (row : List Nat), row.length = aggression + 1 →
      (∀ i, 1 ≤ i → i ≤ aggression → row[i]? ≠ some 0) →
      DistancePrefetcher.indexToReplace aggression r < row.length ∧
      DistancePrefetcher.updateRow aggression new_dist r row =
        some (row.set (DistancePrefetcher.indexToReplace aggression r) new_dist) ∧
      (row.set (DistancePrefetcher.indexToReplace aggression r) new_dist)[0]? = row[0]? ∧
      (row.set (DistancePrefetcher.indexToReplace aggression r) new_dist).length =
        aggression + 1 := by
  have hmod := Nat.mod_lt r (show 0 < aggression by omega)
  refine ⟨rfl, by unfold DistancePrefetcher.indexToReplace; omega,
    by unfold DistancePrefetcher.indexToReplace; omega, ?_⟩
  intro new_dist row hlen hfull
  have hnone : Spec.firstEmptySlot aggression row = none := by
    unfold Spec.firstEmptySlot
    rw [List.find?_eq_none]
    intro i hi
    rw [List.mem_range'_1] at hi
    simpa using hfull i hi.1 (by omega)
  refine ⟨by unfold DistancePrefetcher.indexToReplace; omega, ?_, ?_, by simp [hlen]⟩
  · rw [distance_updateRow_eq aggression new_dist r row ha hlen]
    simp only [Spec.learnDistance, hnone, DistancePrefetcher.indexToReplace]
  · rw [List.getElem?_set_ne (by unfold DistancePrefetcher.indexToReplace; omega)]

/-- Witness of C26: aggression 2 and `rand()` = 7 give index 2; the full row
`[100, 8, 16]` becomes `[100, 8, 24]` when the distance 24 is learnt. -/
theorem C26_distance_replacement_index_in_row_witness :
    DistancePrefetcher.indexToReplace 2 7 = 2 ∧
    DistancePrefetcher.updateRow 2 24 7 [100, 8, 16] = some [100, 8, 24] :=
  ⟨by decide,
    ((C26_distance_replacement_index_in_row 2 7 (by decide)).2.2.2 24 [100, 8, 16] rfl
      (by
        intro i h1 h2
        have hi : i = 1 ∨ i = 2 := by omega
        rcases hi with rfl | rfl <;> decide)).2.1⟩


/-- C25: on a well-formed table with `aggression >= 1`, Distance `train(addr, pc)` called
after `prefetch(addr, pc)` returns.  With `newDist = addr - prevAddr`: if a live row was
keyed by `newDist` the rows and their count stay; otherwise the row
`newDist, 0, ..., 0` is written at the next free row, with the count incremented, while
fewer than 64 rows are live, and at row `rand() % 64` otherwise.  Then every live row
keyed by `prevDist` learns `newDist`: it goes into the first slot among `1..aggression`
that holds 0, or into slot `rand() % aggression + 1` when none does; the other rows stay.
Finally `prevAddr = addr` and `prevDist = newDist`. -/
theorem C25_distance_train {C : Type} (ops : CacheOps C) (aggression : Nat)
    (s : DistancePrefetcher) (g : Globals C) (addr pc randRow : Nat) (randSlot : Nat → Nat)
    (ha : 1 ≤ aggression) (hwf : s.WF aggression) :
    ∃ s1 g1 s2, s.prefetch ops aggression g addr pc = some (s1, g1) ∧
      s1.train aggression addr pc randRow randSlot = some s2 ∧
      s2.prev_addr = addr ∧ s2.prev_dist = u64sub addr s.prev_addr ∧ s2.WF aggression ∧
      ((∃ k row, k < s.numberOfEntries ∧ s.RPT[k]? = some row ∧
          row[0]? = some (u64sub addr s.prev_addr)) →
        s2.numberOfEntries = s.numberOfEntries ∧
        ∀ j, s2.RPT[j]? = (s.RPT[j]?).map (fun row =>
          if j < s2.numberOfEntries ∧ row[0]? = some s.prev_dist then
            Spec.learnDistance aggression (u64sub addr s.prev_addr) (randSlot j) row
          else row)) ∧
      ((¬ ∃ k row, k < s.numberOfEntries ∧ s.RPT[k]? = some row ∧
          row[0]? = some (u64sub addr s.prev_addr)) →
        s2.numberOfEntries =
          (if s.numberOfEntries < 64 then s.numberOfEntries + 1 else s.numberOfEntries) ∧
        ∀ j, s2.RPT[j]? =
          ((s.RPT.set (if 64 ≤ s.numberOfEntries then randRow % 64 else s.numberOfEntries)
            (u64sub addr s.prev_addr :: List.replicate aggression 0))[j]?).map (fun row =>
              if j < s2.numberOfEntries ∧ row[0]? = some s.prev_dist then
                Spec.learnDistance aggression (u64sub addr s.prev_addr) (randSlot j) row
              else row)) ∧
      (∀ (new_dist r : Nat) (row : List Nat),
        (∀ i, Spec.firstEmptySlot aggression row = some i →
          1 ≤ i ∧ i ≤ aggression ∧ row[i]? = some 0 ∧
          (∀ j, 1 ≤ j → j < i → row[j]? ≠ some 0) ∧
          Spec.learnDistance aggression new_dist r row = row.set i new_dist) ∧
        (Spec.firstEmptySlot aggression row = none →
          (∀ i, 1 ≤ i → i ≤ aggression → row[i]? ≠ some 0) ∧
          Spec.learnDistance aggression new_dist r row =
            row.set (r % aggression + 1) new_dist)) := by
  have hp := distance_prefetch_eq ops aggression s g addr pc hwf
  have hwf1 : DistancePrefetcher.WF aggression
      { s with entryFound := ((s.RPT.take s.numberOfEntries).any
        (fun row => decide (row[0]? = some (u64sub addr s.prev_addr)))) } := hwf
  obtain ⟨s2, ht, hpa, hpd, -, hwf2, hnum, hrows⟩ := distance_train_spec aggression _ addr pc
    randRow randSlot ha hwf1
  simp only at hpd hnum hrows
  have hany : ((s.RPT.take s.numberOfEntries).any
      (fun row => decide (row[0]? = some (u64sub addr s.prev_addr)))) = true ↔
      ∃ k row, k < s.numberOfEntries ∧ s.RPT[k]? = some row ∧
        row[0]? = some (u64sub addr s.prev_addr) := by
    simp only [List.any_eq_true, decide_eq_true_eq]
    constructor
    · rintro ⟨row, hmem, hkey⟩
      obtain ⟨k, hk⟩ := List.mem_iff_getElem?.mp hmem
      rw [getElem?_take_some] at hk
      exact ⟨k, row, hk.1, hk.2, hkey⟩
    · rintro ⟨k, row, hk, hrow, hkey⟩
      exact ⟨row, List.mem_iff_getElem?.mpr ⟨k, (getElem?_take_some _ _ _ _).mpr ⟨hk, hrow⟩⟩,
        hkey⟩
  refine ⟨_, _, s2, hp, ht, hpa, hpd, hwf2, ?_, ?_, ?_⟩
  · intro hfound
    have ht := hany.mpr hfound
    rw [ht] at hnum hrows
    simp only [Bool.true_eq_false, false_and, if_false] at hnum hrows
    exact ⟨hnum, hrows⟩
  · intro hnot
    have hf : ((s.RPT.take s.numberOfEntries).any
        (fun row => decide (row[0]? = some (u64sub addr s.prev_addr)))) = false := by
      cases h : (s.RPT.take s.numberOfEntries).any
        (fun row => decide (row[0]? = some (u64sub addr s.prev_addr))) with
      | false => rfl
      | true => exact absurd (hany.mp h) hnot
    rw [hf] at hnum hrows
    simp only [true_and, if_true] at hnum hrows
    exact ⟨hnum, hrows⟩
  · intro new_dist r row
    constructor
    · intro i hi
      obtain ⟨h1, h2, h3⟩ := firstEmptySlot_bounds aggression row i hi
      exact ⟨h1, h2, h3, firstEmptySlot_first aggression row i hi,
        by simp only [Spec.learnDistance, hi]⟩
    · intro hnone
      exact ⟨firstEmptySlot_none aggression row hnone,
        by simp only [Spec.learnDistance, hnone]⟩

/-- Witness of C25: the table holds the one row `[100, 8, 0]`, the previous miss was at
1000 with distance 100, aggression is 2; the miss at 1250 has the new distance 250: a
row `[250, 0, 0]` is created at row 1 and row 0 learns 250 in its first empty slot. -/
theorem C25_distance_train_witness :
    (DistancePrefetcher.oneRow 1000 100 [100, 8, 0]).WF 2 ∧
    ∃ s1 g1 s2, (DistancePrefetcher.oneRow 1000 100 [100, 8, 0]).prefetch listCache 2
        (Globals.start []) 1250 7 = some (s1, g1) ∧
      s1.train 2 1250 7 0 (fun _ => 0) = some s2 ∧
      s2.prev_addr = 1250 ∧ s2.prev_dist = 250 ∧ s2.numberOfEntries = 2 ∧
      s2.RPT[0]? = some [100, 8, 250] ∧ s2.RPT[1]? = some [250, 0, 0] :=
  ⟨distance_oneRow_wf 2 1000 100 [100, 8, 0] rfl,
    (let ⟨s1, g1, s2, h1, h2, h3, h4, _, _, h6, _⟩ :=
      C25_distance_train listCache 2 (DistancePrefetcher.oneRow 1000 100 [100, 8, 0])
        (Globals.start []) 1250 7 0 (fun _ => 0) (by decide)
        (distance_oneRow_wf 2 1000 100 [100, 8, 0] rfl)
     have hnot : ¬ ∃ k row, k < (DistancePrefetcher.oneRow 1000 100 [100, 8, 0]).numberOfEntries ∧
         (DistancePrefetcher.oneRow 1000 100 [100, 8, 0]).RPT[k]? = some row ∧
         row[0]? = some (u64sub 1250
           (DistancePrefetcher.oneRow 1000 100 [100, 8, 0]).prev_addr) := by
       rintro ⟨k, row, hk, hrow, hkey⟩
       have hk0 : k = 0 := by
         simp only [DistancePrefetcher.oneRow] at hk
         omega
       subst hk0
       simp only [DistancePrefetcher.oneRow, List.getElem?_cons_zero,
         Option.some.injEq] at hrow
       subst hrow
       revert hkey
       decide
     have hn : s2.numberOfEntries = 2 := (h6 hnot).1
     ⟨s1, g1, s2, h1, h2, h3, h4.trans (by decide), hn,
       ((h6 hnot).2 0).trans (by rw [hn]; decide),
       ((h6 hnot).2 1).trans (by rw [hn]; decide)⟩)⟩

/-- C27: the driver calls the prefetcher only on a demand miss, and as `prefetch` then
`train`.  `Load(addr, pc)` with `probeTag(addr)` false is `fillLine(addr)`, then
`prefetch(addr, pc)`, then `train(addr, pc)` on what `prefetch` left, and with a
prefetcher that leaves the demand counters alone `hits` is unchanged; `Load` with
`probeTag(addr)` true adds 1 to `hits` and makes no `fillLine`, `prefetch` or `train`;
`Store` changes neither the prefetch count nor the list of prefetch fills; every `Load`
and `Store` adds exactly 1 to `accesses`.  The four prefetchers of the source (None,
NextNLine, Stride, Distance) leave the demand counters alone. -/
theorem C27_driver_prefetch_then_train {P C : Type} (ops : CacheOps C)
    (prefetcher : PrefetcherInterface P C) (p : P) (g : Globals C) (addr pc : Nat)
    (aggression blockSize rand : Nat) (randSlot : Nat → Nat)
    (hk : prefetcher.KeepsCounters) :
    ((ops.probeTag g.cache addr).1 = false →
      Load ops prefetcher p g addr pc =
        (prefetcher.prefetch p
          { g with accesses := g.accesses + 1, loads := g.loads + 1,
                   cache := ops.fillLine (ops.probeTag g.cache addr).2 addr }
          addr pc).bind (fun r => prefetcher.train r.1 r.2 addr pc) ∧
      ∀ p1 g1, Load ops prefetcher p g addr pc = some (p1, g1) →
        g1.hits = g.hits ∧ g1.accesses = g.accesses + 1 ∧ g1.loads = g.loads + 1 ∧
          g1.stores = g.stores) ∧
    ((ops.probeTag g.cache addr).1 = true →
      Load ops prefetcher p g addr pc =
        some (p, { g with accesses := g.accesses + 1, loads := g.loads + 1,
                          hits := g.hits + 1, cache := (ops.probeTag g.cache addr).2 })) ∧
    Store ops g addr pc =
      { g with accesses := g.accesses + 1, stores := g.stores + 1,
               hits := if (ops.probeTag g.cache addr).1 = true then g.hits + 1 else g.hits,
               cache := if (ops.probeTag g.cache addr).1 = true
                 then (ops.probeTag g.cache addr).2
                 else ops.fillLine (ops.probeTag g.cache addr).2 addr } ∧
    (Store ops g addr pc).accesses = g.accesses + 1 ∧
    (Store ops g addr pc).prefetches = g.prefetches ∧
    (Store ops g addr pc).prefetchFillLineCalls = g.prefetchFillLineCalls ∧
    (NonePrefetcher.interface : PrefetcherInterface Unit C).KeepsCounters ∧
    (NextNLinePrefetcher.interface ops aggression blockSize).KeepsCounters ∧
    (StridePrefetcher.interface ops aggression blockSize rand).KeepsCounters ∧
    (DistancePrefetcher.interface ops aggression rand randSlot).KeepsCounters := by
  have hstore : Store ops g addr pc =
      { g with accesses := g.accesses + 1, stores := g.stores + 1,
               hits := if (ops.probeTag g.cache addr).1 = true then g.hits + 1 else g.hits,
               cache := if (ops.probeTag g.cache addr).1 = true
                 then (ops.probeTag g.cache addr).2
                 else ops.fillLine (ops.probeTag g.cache addr).2 addr } := by
    unfold Store
    by_cases hh : (ops.probeTag g.cache addr).1 = true
    · simp only [hh, if_true]
    · simp only [hh, if_false, Bool.false_eq_true]
  have hmiss : (ops.probeTag g.cache addr).1 = false →
      Load ops prefetcher p g addr pc =
        (prefetcher.prefetch p
          { g with accesses := g.accesses + 1, loads := g.loads + 1,
                   cache := ops.fillLine (ops.probeTag g.cache addr).2 addr }
          addr pc).bind (fun r => prefetcher.train r.1 r.2 addr pc) := by
    intro hm
    unfold Load
    simp only [hm, Bool.false_eq_true, if_false]
    cases prefetcher.prefetch p
      { g with accesses := g.accesses + 1, loads := g.loads + 1,
               cache := ops.fillLine (ops.probeTag g.cache addr).2 addr } addr pc with
    | none => rfl
    | some r => rfl
  refine ⟨fun hm => ⟨hmiss hm, ?_⟩, ?_, hstore, by rw [hstore], by rw [hstore],
    by rw [hstore], none_keepsCounters, nextNLine_keepsCounters ops aggression blockSize,
    stride_keepsCounters ops aggression blockSize rand,
    distance_keepsCounters ops aggression rand randSlot⟩
  · intro p1 g1 hl
    rw [hmiss hm] at hl
    cases hp : prefetcher.prefetch p
      { g with accesses := g.accesses + 1, loads := g.loads + 1,
               cache := ops.fillLine (ops.probeTag g.cache addr).2 addr } addr pc with
    | none => rw [hp] at hl; cases hl
    | some r =>
      rw [hp] at hl
      change prefetcher.train r.1 r.2 addr pc = some (p1, g1) at hl
      obtain ⟨a1, a2, a3, a4⟩ := hk _ _ _ _ _ _ (Or.inl hp)
      obtain ⟨b1, b2, b3, b4⟩ := hk _ _ _ _ _ _ (Or.inr hl)
      exact ⟨b3.trans a3, b4.trans a4, b1.trans a1, b2.trans a2⟩
  · intro hh
    unfold Load
    simp only [hh, if_true]

/-- Witness of C27: on a cache that records its calls, a missing load of address 100 makes
the calls `probeTag`, `fillLine`, `prefetch`, `train` in this order with one access and no
hit; a hitting load makes the call `probeTag` alone, with one access and one hit. -/
theorem C27_driver_prefetch_then_train_witness :
    tracePrefetcher.KeepsCounters ∧
    Load (traceCache false) tracePrefetcher () (Globals.start []) 100 7 =
      some ((), { cache := [("probeTag", 100), ("fillLine", 100), ("prefetch", 100),
                    ("train", 100)]
                  loads := 1, stores := 0, hits := 0, accesses := 1, prefetches := 0
                  prefetchFillLineCalls := [] }) ∧
    Load (traceCache true) tracePrefetcher () (Globals.start []) 100 7 =
      some ((), { cache := [("probeTag", 100)]
                  loads := 1, stores := 0, hits := 1, accesses := 1, prefetches := 0
                  prefetchFillLineCalls := [] }) :=
  ⟨trace_keepsCounters,
    ((C27_driver_prefetch_then_train (traceCache false) tracePrefetcher ()
      (Globals.start []) 100 7 2 4 0 (fun _ => 0) trace_keepsCounters).1 rfl).1,
    (C27_driver_prefetch_then_train (traceCache true) tracePrefetcher ()
      (Globals.start []) 100 7 2 4 0 (fun _ => 0) trace_keepsCounters).2.1 rfl⟩

/-! ## Claims about the direction of the selector and the tables of the prefetchers -/

/-- C31: in `Tournament.train(pc, taken)` the selector never moves away from the
sub-predictor that was right.  Reading the selector as a number 0..3, the entry at index
`pc mod tableSize` changes by at most one step and every other entry is unchanged; when
Gshare was right and Local wrong it does not decrease, when Local was right and Gshare
wrong it does not increase, and when both were wrong it is unchanged.  It stays one of
the four counter values, which it is in every state reached from construction. -/
theorem C31_selector_moves_toward_right_predictor (s : TournamentBranchPredictor) (pc : Nat)
    (taken : Bool) (c : String) (lp gp : Bool) (hn : s.bp_entries ≠ 0)
    (hc : s.pht_array[pc % s.bp_entries]? = some c)
    (hl : s.lb_predictor.getPrediction pc = some lp)
    (hg : s.gsb_predictor.getPrediction pc = some gp) :
    ∃ s1 c1, s.train pc taken = some s1 ∧
      s1.pht_array[pc % s.bp_entries]? = some c1 ∧
      Spec.selectorValue c1 ≤ Spec.selectorValue c + 1 ∧
      Spec.selectorValue c ≤ Spec.selectorValue c1 + 1 ∧
      (∀ j, j ≠ pc % s.bp_entries → s1.pht_array[j]? = s.pht_array[j]?) ∧
      s1.pht_array.length = s.pht_array.length ∧
      (gp = taken → lp ≠ taken → Spec.selectorValue c ≤ Spec.selectorValue c1) ∧
      (lp = taken → gp ≠ taken → Spec.selectorValue c1 ≤ Spec.selectorValue c) ∧
      (lp ≠ taken → gp ≠ taken → c1 = c) ∧
      (IsTwoBit c → IsTwoBit c1) ∧
      (∀ n events, (TournamentBranchPredictor.create n).trainAll events = some s →
        IsTwoBit c) := by
  obtain ⟨lo, lc, hlo, hlc⟩ := local_getPrediction_some _ pc lp hl
  obtain ⟨hgn, gc, hgc⟩ := gshare_getPrediction_some _ pc gp hg
  obtain ⟨h1, h2, h3, h4, h5⟩ := selectorNext_step c (gp == taken) (lp == taken) taken
  refine ⟨_, Spec.selectorNext c (gp == taken) (lp == taken) taken,
    tournament_train_eq s pc taken c lp gp _ _ hn hc hl hg
      (local_train_eq _ pc taken lo lc hlo hlc) (gshare_train_eq _ pc taken gc hgn hgc),
    getElem?_set_self_of_some _ _ _ _ hc, h1, h2,
    fun j hj => getElem?_set_other _ _ _ _ hj, by simp, ?_, ?_, ?_,
    selector_next_isTwoBit c _ _ taken, ?_⟩
  · intro hgr hlw
    exact h3 (by simpa using hgr) (by simpa using hlw)
  · intro hlr hgw
    exact h4 (by simpa using hlr) (by simpa using hgw)
  · intro hlw hgw
    exact h5 (by simpa using hlw) (by simpa using hgw)
  · intro n events hr
    exact (tournament_reach_inv n events s hr hn).2.2.1 c (mem_of_getElem?_some _ _ _ hc)

/-- Witness of C31: the 4-entry Tournament predictor after two not-taken branches at pcs
0 and 1, where Gshare predicts taken and Local not-taken for pc 0 and the selector at
index 0 is `11`: after a not-taken branch (Local right, Gshare wrong) the selector is not
above `11` and is a counter value. -/
theorem C31_selector_moves_toward_right_predictor_witness :
    (TournamentBranchPredictor.create 4).trainAll [(0, false), (1, false)] =
      some { bp_entries := 4
             pht_array := ["11", "11", "11", "11"]
             lb_predictor := { bp_entries := 4, lhrs := List.replicate 128 0
                               pht_array := ["01", "11", "11", "11"] }
             gsb_predictor := { bp_entries := 4, ghr := 0
                                pht_array := ["10", "10", "11", "11"] } } ∧
    ∃ s1 c1, TournamentBranchPredictor.train
        { bp_entries := 4
          pht_array := ["11", "11", "11", "11"]
          lb_predictor := { bp_entries := 4, lhrs := List.replicate 128 0
                            pht_array := ["01", "11", "11", "11"] }
          gsb_predictor := { bp_entries := 4, ghr := 0
                             pht_array := ["10", "10", "11", "11"] } } 0 false = some s1 ∧
      s1.pht_array[0 % 4]? = some c1 ∧
      Spec.selectorValue c1 ≤ Spec.selectorValue "11" ∧ IsTwoBit c1 :=
  ⟨by decide,
    (let ⟨s1, c1, h1, h2, _, _, _, _, _, h8, _, h10, _⟩ :=
      C31_selector_moves_toward_right_predictor
        { bp_entries := 4
          pht_array := ["11", "11", "11", "11"]
          lb_predictor := { bp_entries := 4, lhrs := List.replicate 128 0
                            pht_array := ["01", "11", "11", "11"] }
          gsb_predictor := { bp_entries := 4, ghr := 0
                             pht_array := ["10", "10", "11", "11"] } }
        0 false "11" false true (by decide) (by decide) (by decide) (by decide)
     ⟨s1, c1, h1, h2, h8 rfl (by decide), h10 (by decide)⟩)⟩

/-- C32: for the Stride prefetcher driven from its initial state by `prefetch(addr, pc)`
immediately followed by `train(addr, pc)` with the same pc, every event sequence with any
`rand()` values returns, and afterwards at most 64 table entries are live and no two live
entries have the same load PC. -/
theorem C32_stride_table_bounded_unique_keys {C : Type} (ops : CacheOps C)
    (aggression blockSize : Nat) (g : Globals C) (events : List (Nat × Nat × Nat)) :
    ∃ s g1, StridePrefetcher.onMisses ops aggression blockSize StridePrefetcher.create g
        events = some (s, g1) ∧
      s.numberOfEntries ≤ 64 ∧ s.RPT.length = 64 ∧
      ∀ i j ri rj, i < s.numberOfEntries → j < s.numberOfEntries →
        s.RPT[i]? = some ri → s.RPT[j]? = some rj → ri.loadPC = rj.loadPC → i = j := by
  obtain ⟨s, g1, h, hwf, hu⟩ := stride_onMisses_inv ops aggression blockSize events
    StridePrefetcher.create g stride_create_inv.1 stride_create_inv.2
  exact ⟨s, g1, h, hwf.2, hwf.1, hu⟩

/-- C33: the Distance prefetcher replays a learned successor distance.  With
`aggression >= 1`, after a miss at `a1` (distance `d1 = a1 - prevAddr`) that leaves fewer
than 64 rows in use, a miss at `a2` with the non-zero distance `d2 = a2 - a1` returns and
leaves a live row keyed by `d1` that holds `d2` in one of its slots `1..aggression`.  In
every later well-formed state in which a live row keyed by `d1` still holds `d2` in such
a slot (in particular right after the miss at `a2`), `prefetch(addr, pc)` with
`addr - prevAddr = d1` has `addr + d2` among its targets and issues
`prefetchFillLine(addr + d2)` if the cache does not hold that line when the target is
reached; on a cache where the fill of one address does not change whether another one is
held, it issues it if the cache does not hold the line at the call. -/
theorem C33_distance_replays_learned_distance {C : Type} (ops : CacheOps C)
    (aggression : Nat) (s0 s1 : DistancePrefetcher) (g0 g1 : Globals C)
    (a1 pc1 randRow1 : Nat) (randSlot1 : Nat → Nat) (a2 pc2 randRow2 : Nat)
    (randSlot2 : Nat → Nat) (ha : 1 ≤ aggression) (hwf : s0.WF aggression)
    (h1 : s0.onMiss ops aggression g0 a1 pc1 randRow1 randSlot1 = some (s1, g1))
    (hn : s1.numberOfEntries < 64) (hd2 : u64sub a2 a1 ≠ 0) :
    ∃ s2 g2 k row i, s1.onMiss ops aggression g1 a2 pc2 randRow2 randSlot2 = some (s2, g2) ∧
      s2.WF aggression ∧ s2.prev_addr = a2 ∧ k < s2.numberOfEntries ∧
      s2.RPT[k]? = some row ∧ row[0]? = some (u64sub a1 s0.prev_addr) ∧
      1 ≤ i ∧ i ≤ aggression ∧ row[i]? = some (u64sub a2 a1) ∧
      ∀ (s3 : DistancePrefetcher) (g : Globals C) (addr pc k3 i3 : Nat) (row3 : List Nat),
        s3.WF aggression → u64sub addr s3.prev_addr = u64sub a1 s0.prev_addr →
        k3 < s3.numberOfEntries → s3.RPT[k3]? = some row3 →
        row3[0]? = some (u64sub a1 s0.prev_addr) →
        1 ≤ i3 → i3 ≤ aggression → row3[i3]? = some (u64sub a2 a1) →
        ∃ s4 g4 pre post, s3.prefetch ops aggression g addr pc = some (s4, g4) ∧
          Spec.distanceTargets aggression addr (u64sub a1 s0.prev_addr)
            (s3.RPT.take s3.numberOfEntries) =
              pre ++ (addr + u64sub a2 a1) % UINT64_RANGE :: post ∧
          g4.prefetchFillLineCalls = g.prefetchFillLineCalls ++
            Spec.issued ops g.cache (pre ++ (addr + u64sub a2 a1) % UINT64_RANGE :: post) ∧
          (ops.cacheExists ((Spec.issued ops g.cache pre).foldl ops.prefetchFillLine g.cache)
              ((addr + u64sub a2 a1) % UINT64_RANGE) = false →
            (addr + u64sub a2 a1) % UINT64_RANGE ∈
              Spec.issued ops g.cache
                (pre ++ (addr + u64sub a2 a1) % UINT64_RANGE :: post)) ∧
          ((∀ c a, a ≠ (addr + u64sub a2 a1) % UINT64_RANGE →
              ops.cacheExists (ops.prefetchFillLine c a)
                ((addr + u64sub a2 a1) % UINT64_RANGE) =
              ops.cacheExists c ((addr + u64sub a2 a1) % UINT64_RANGE)) →
            ops.cacheExists g.cache ((addr + u64sub a2 a1) % UINT64_RANGE) = false →
            (addr + u64sub a2 a1) % UINT64_RANGE ∈
              Spec.issued ops g.cache
                (pre ++ (addr + u64sub a2 a1) % UINT64_RANGE :: post)) := by
  obtain ⟨hwf1, hpa1, hpd1, k, row, hk, hrow, hkey⟩ := distance_onMiss_keyed ops aggression
    s0 s1 g0 g1 a1 pc1 randRow1 randSlot1 ha hwf h1
  obtain ⟨s2, g2, row2, i, h2, hwf2, hpa2, hk2, hrow2, hkey2, hi1, hi2, hi3⟩ :=
    distance_onMiss_learns ops aggression s1 g1 a2 pc2 randRow2 randSlot2 k row ha hwf1 hn
      hk hrow (by rw [hpd1]; exact hkey)
  rw [hpd1] at hkey2
  rw [hpa1] at hi3
  refine ⟨s2, g2, k, row2, i, h2, hwf2, hpa2, hk2, hrow2, hkey2, hi1, hi2, hi3, ?_⟩
  intro s3 g addr pc k3 i3 row3 hwf3 hdist hk3 hrow3 hkey3 hi31 hi32 hslot3
  have hp := distance_prefetch_eq ops aggression s3 g addr pc hwf3
  rw [hdist] at hp
  have hmem : (addr + u64sub a2 a1) % UINT64_RANGE ∈
      Spec.distanceTargets aggression addr (u64sub a1 s0.prev_addr)
        (s3.RPT.take s3.numberOfEntries) :=
    distanceTargets_mem aggression addr _ s3.RPT s3.numberOfEntries k3 row3 _ hk3 hrow3 hkey3
      (rowTargets_mem aggression addr row3 i3 _ hi31 hi32 hslot3 hd2)
  obtain ⟨pre, post, hsplit⟩ := List.mem_iff_append.mp hmem
  refine ⟨_, _, pre, post, hp, hsplit, ?_, ?_, ?_⟩
  · rw [← hsplit]
    exact (fillAll_spec ops _ g).1
  · exact issued_mem_of_reached ops _ post pre g.cache
  · intro hind hex
    exact issued_mem_of_independent ops _ hind _ g.cache
      (by rw [← hsplit]; exact hmem) hex

/-- Witness of C33: aggression 2, from the initial state the miss 1000 (distance 1000)
leaves the one row `[1000, 0, 0]`; after the miss 1100 (distance 100) a prefetch for the
miss 2100 (distance 1000 again) on an empty cache issues the fill of
`2100 + 100 = 2200`. -/
theorem C33_distance_replays_learned_distance_witness :
    1 ≤ 2 ∧ (DistancePrefetcher.create false).WF 2 ∧
    (DistancePrefetcher.create false).onMiss listCache 2 (Globals.start []) 1000 7 0
      (fun _ => 0) =
        some (DistancePrefetcher.oneRow 1000 1000 [1000, 0, 0], Globals.start [1000]) ∧
    (DistancePrefetcher.oneRow 1000 1000 [1000, 0, 0]).numberOfEntries < 64 ∧
    u64sub 1100 1000 ≠ 0 ∧
    ∃ s2 g2, (DistancePrefetcher.oneRow 1000 1000 [1000, 0, 0]).onMiss listCache 2
        (Globals.start [1000]) 1100 7 0 (fun _ => 0) = some (s2, g2) ∧
      ∃ s4 g4, s2.prefetch listCache 2 (Globals.start []) 2100 7 = some (s4, g4) ∧
        2200 ∈ g4.prefetchFillLineCalls :=
  ⟨by decide, (distance_create_wf 2 false).1, rfl, by decide, by decide,
    (let ⟨s2, g2, k, row, i, h2, hwf2, hpa2, hk, hrow, hkey, hi1, hi2, hi3, hall⟩ :=
      C33_distance_replays_learned_distance listCache 2 (DistancePrefetcher.create false)
        (DistancePrefetcher.oneRow 1000 1000 [1000, 0, 0]) (Globals.start [])
        (Globals.start [1000]) 1000 7 0 (fun _ => 0) 1100 7 0 (fun _ => 0) (by decide)
        (distance_create_wf 2 false).1 rfl (by decide) (by decide)
     let ⟨s4, g4, _, _, hp, _, hcalls, _, hind⟩ :=
      hall s2 (Globals.start []) 2100 7 k i row hwf2 (by rw [hpa2]; decide) hk hrow hkey
        hi1 hi2 hi3
     ⟨s2, g2, h2, s4, g4, hp, by
       rw [hcalls]
       exact List.mem_append_right _ (hind
         (by
           intro c a hne
           simp [listCache, Ne.symm hne])
         (by decide))⟩)⟩
